import Mathlib

/-!
# PipelinePunch combat system: embedding and verified properties

A shallow embedding of `combat_system.cpp`, `active_event_builders.cpp`,
`skill_library.cpp` and `creature_library.cpp`.

Conventions of the embedding.

* A `float` is the rational it denotes; the sign of a zero is not modelled.  The arithmetic of
  the scheduler (`get_next_character`: the quotient of `scan` and the product and the sum of
  `fill`) is binary32 arithmetic: every operation is rounded by `f32` (round to nearest, ties
  to even, 24-bit significand, gradual underflow), one operation at a time.  The comparison of
  a turn bar with `1.0f` depends on these roundings.
* The arithmetic on life (`life - damage`, `life / lp`) and the conversions of an `int` to
  `float` are exact: rounding is not modelled there.
* A float operation whose IEEE result would be an infinity or a NaN that is then stored (in a
  table, or in the local `min_step`) makes the embedded function return `none`.
* A function returns `none` also where the C++ has undefined behaviour: an array index out of
  range, a call through a null builder pointer, a signed `int` overflow, an integer division by
  zero, a remainder by zero.
* A `std::array<T, 5>` is a function `Fin 5 → T`; a write `a[i] = v` is `Function.update a i v`.
* A `for (int pos = 0; pos < 5; pos++)` loop is a fold over `positions`.
* The singleton `CombatSystem` object is the explicit state record `CombatSystem`.
* A function pointer to an active event builder is the `SkillEnum` of the library entry it
  points to; the code behind the pointers is the parameter `lib`.  Passive event builders are
  handled in the same way, with the parameter `plib`; the library of the sources registers none.
-/

namespace pipelinepunch

/-! ## Data model -/

/-- Modelled from the spec: `skill_enums.h` is not among the sources; the two enumerators are the
ones `skill_library.cpp` registers. -/
inductive SkillEnum where
  | DEMO_ATTACK
  | DEMO_CLEAVE
  deriving DecidableEq, Repr

/-- Modelled from the spec: `type_enums.h` is not among the sources; the two enumerators are the
ones `creature_library.cpp` uses. -/
inductive TypeEnum where
  | MONSTER
  | UNDEAD
  deriving DecidableEq, Repr

/-- Modelled from the spec: `combat_state.h` is not among the sources; the enumerators are the
ones `combat_system.h` and `combat_system.cpp` name. -/
inductive CombatState where
  | IDLE
  | RUNNING
  | ENDED
  deriving DecidableEq, Repr

/-- Modelled from the spec: `intent.h` is not among the sources.  "Acting side (0/1), acting
combatant's table index, chosen skill slot, and target board position"; the field order is the
one the aggregate `{ team_index, index }` of `get_next_character` relies on. -/
structure Intent where
  owner_team_index : Int
  owner_index : Int
  skill_slot : Int
  target_pos : Int
  deriving DecidableEq, Repr

/-- Modelled from the spec: `event.h` is not among the sources.  The originating intent, the
target-shape and effect-kind bitmasks, the two flags and the two per-board-position arrays of
pending damage. -/
structure Event where
  intent : Intent
  target_bitmask : Nat
  effect_bitmask : Nat
  is_negated : Bool
  is_aoe : Bool
  other_pos_damage : Fin 5 → ℚ
  owner_pos_damage : Fin 5 → ℚ

/-- Modelled from the spec: `stats.h` is not among the sources; the six base stats in the order
of the initialiser lists of `creature_library.cpp`. -/
structure Stats where
  lp : ℚ
  atk : ℚ
  def_ : ℚ
  mag : ℚ
  crt : ℚ
  spe : ℚ

/-- Modelled from the spec: `skills.h` is not among the sources.  The per-slot builder pointers
of one combatant: `none` stands for a slot outside the array or a null pointer. -/
structure Skills where
  active_event_builder : Int → Option SkillEnum
  passive_event_builder : Int → Option SkillEnum

/-- Modelled from the spec: `creature_sheet.h` is not among the sources; the fields are the
constructor arguments used in `creature_library.cpp` (the name is left out). -/
structure CreatureSheet where
  creature_id : Int
  type : TypeEnum
  stats : Stats
  skill_0 : SkillEnum
  skill_1 : SkillEnum

/-- Modelled from the spec: `character_sheet.h` is not among the sources; the fields are the ones
`combat_system.cpp` and `active_event_builders.cpp` read. -/
structure CharacterSheet where
  creature_sheet : CreatureSheet
  stats : Stats
  skills : Skills

/-- Modelled from the spec: `character_table.h` is not among the sources.  The struct-of-arrays
table of one side, with the arrays `combat_system.cpp` reads and writes.  `pos_to_index` holds
table indices, so its entries are in range by type; `index_to_pos` is signed because
`passive_is_valid` tests it against zero. -/
structure CharacterTable where
  pos_to_index : Fin 5 → Fin 5
  index_to_pos : Fin 5 → Int
  life : Fin 5 → ℚ
  life_bar : Fin 5 → ℚ
  turn_bar : Fin 5 → ℚ
  dmg_in : Fin 5 → ℚ
  dmg_out : Fin 5 → ℚ
  lp : Fin 5 → ℚ
  atk : Fin 5 → ℚ
  def_ : Fin 5 → ℚ
  mag : Fin 5 → ℚ
  crt : Fin 5 → ℚ
  spe : Fin 5 → ℚ
  skills : Fin 5 → Skills
  character_sheet : Fin 5 → CharacterSheet

/-- Modelled from the spec: `passive_table.h` is not among the sources.  Parallel arrays, one
entry per standing reactive ability, and the number of entries in use. -/
structure PassiveTable where
  count : Nat
  intent : Nat → Intent
  observed_effect_bitmask : Nat → Nat
  observed_caster_index : Nat → Int
  observed_target_index : Nat → Int
  condition : Nat → CharacterTable → CharacterTable → Intent → Bool

/-- Modelled from the spec: `event_queue.h` is not among the sources.  "A fixed-capacity ordered
sequence of Events plus a count"; the count is the length of `event`. -/
structure EventQueue (capacity : Nat) where
  event : List Event

/-- Modelled from the spec: the full clear of an event queue. -/
def EventQueue.clear {capacity : Nat} (_q : EventQueue capacity) : EventQueue capacity :=
  { event := [] }

/-- Modelled from the spec: append, "ignored silently if at capacity". -/
def EventQueue.add_event {capacity : Nat} (q : EventQueue capacity) (e : Event) :
    EventQueue capacity :=
  if q.event.length < capacity then { event := q.event ++ [e] } else q

/-- The number of events in a queue. -/
def EventQueue.count {capacity : Nat} (q : EventQueue capacity) : Nat := q.event.length

/-- An active event builder in its two modes (`active_event_builders.h`): with a null `Event*`
it creates events and pushes them on the main queue (`declare` returns them in push order); with
a non-null `Event*` it fills in the resolved values of that event (`resolve`).  The tables are
passed by const reference, so neither mode changes them. -/
structure ActiveEventBuilder where
  declare : CharacterTable → CharacterTable → Intent → Option (List Event)
  resolve : CharacterTable → CharacterTable → Intent → Event → Option Event

/-- The members of the `CombatSystem` object (`combat_system.h`). -/
structure CombatSystem where
  combat_state : CombatState
  ally_character_table : CharacterTable
  opponent_character_table : CharacterTable
  ally_negate_table : PassiveTable
  ally_intercept_table : PassiveTable
  ally_react_table : PassiveTable
  ally_modify_table : PassiveTable
  opponent_negate_table : PassiveTable
  opponent_intercept_table : PassiveTable
  opponent_react_table : PassiveTable
  opponent_modify_table : PassiveTable
  fast_event_queue_plus : EventQueue 4
  fast_event_queue : EventQueue 16
  main_event_queue : EventQueue 4
  slow_event_queue_plus : EventQueue 4
  slow_event_queue : EventQueue 16
  main_intent : Intent
  negate_intent : Intent
  intercept_intent : Intent

/-! ## Helpers of the embedding -/

/-- The board positions `0, 1, 2, 3, 4` in loop order. -/
def positions : List (Fin 5) := [0, 1, 2, 3, 4]

/-- An `int` used as an index of a five-element array: `none` when out of range. -/
def idx5 (i : Int) : Option (Fin 5) :=
  if h : 0 ≤ i ∧ i < 5 then some ⟨i.toNat, by omega⟩ else none

/-- Conversion of an `int` to `uint8_t`. -/
def to_uint8 (i : Int) : Int := i % 256

/-- Whether a value fits a 32-bit `int`. -/
def in_int_range (i : Int) : Bool := decide (-(2147483648 : Int) ≤ i) && decide (i < 2147483648)

/-- Conversion of a `float` to `int`: truncation toward zero, undefined outside the range of
`int`. -/
def float_to_int (q : ℚ) : Option Int :=
  let t := Int.tdiv q.num (q.den : Int)
  if in_int_range t then some t else none

/-- A product of two `int`s: undefined on overflow. -/
def int_mul (a b : Int) : Option Int :=
  if in_int_range (a * b) then some (a * b) else none

/-- A quotient of two `int`s, truncated toward zero: undefined for a zero divisor and on
overflow. -/
def int_div (a b : Int) : Option Int :=
  if b = 0 then none else if in_int_range (Int.tdiv a b) then some (Int.tdiv a b) else none

/-- The power `2 ^ e` for an integer exponent `e`. -/
def pow2 (e : Int) : ℚ :=
  if 0 ≤ e then ((2 ^ e.toNat : Nat) : ℚ) else 1 / ((2 ^ (-e).toNat : Nat) : ℚ)

/-- The recursion of `log2_floor`, on the number of halvings left. -/
def log2_aux : Nat → Nat → Nat
  | 0, _ => 0
  | fuel + 1, n => if n < 2 then 0 else log2_aux fuel (n / 2) + 1

/-- The greatest `k` with `2 ^ k ≤ n`, and 0 for `n = 0`. -/
def log2_floor (n : Nat) : Nat := log2_aux n n

/-- The integer nearest to a rational, the even one of the two at a tie. -/
def round_even (q : ℚ) : Int :=
  let f := Rat.floor q
  let d := q - f
  if d < 1 / 2 then f else if 1 / 2 < d then f + 1 else if f % 2 = 0 then f else f + 1

/-- The binary32 exponent of a rational other than 0: the greatest `e` with `2 ^ e ≤ |q|`, and
`-126`, the exponent of the subnormal numbers, when that is less. -/
def binade (q : ℚ) : Int :=
  let e0 : Int := (log2_floor q.num.natAbs : Int) - (log2_floor q.den : Int)
  let e : Int := if pow2 e0 ≤ |q| then e0 else e0 - 1
  max e (-126)

/-- The binary32 value of a real result `q`: the multiple of `2 ^ (e - 23)` nearest to `q`, the
one with an even significand at a tie, where `e` is the exponent of `q`; `none` when the rounded
magnitude reaches `2 ^ 128`, where the result is an infinity. -/
def f32 (q : ℚ) : Option ℚ :=
  if q = 0 then some 0
  else
    let ulp := pow2 (binade q - 23)
    let v := (round_even (q / ulp) : ℚ) * ulp
    if |v| < pow2 128 then some v else none

/-- The table of the side that owns an intent: `(team_index == 0) ? ally : opponent`. -/
def owner_table (s : CombatSystem) (team_index : Int) : CharacterTable :=
  if team_index = 0 then s.ally_character_table else s.opponent_character_table

/-- The table of the other side: `(team_index == 0) ? opponent : ally`. -/
def other_table (s : CombatSystem) (team_index : Int) : CharacterTable :=
  if team_index = 0 then s.opponent_character_table else s.ally_character_table

/-- Writes the two tables back through the references chosen by `team_index`. -/
def set_tables (s : CombatSystem) (team_index : Int) (owner_ct other_ct : CharacterTable) :
    CombatSystem :=
  if team_index = 0 then
    { s with ally_character_table := owner_ct, opponent_character_table := other_ct }
  else
    { s with ally_character_table := other_ct, opponent_character_table := owner_ct }

/-! ## `CombatSystem::resolve_event` -/

/-- The two clamping statements `if (life < 0.0f) life = 0.0f;` and
`if (life > lp) life = lp;` of `resolve_event`. -/
def clamp_life (life lp : ℚ) : ℚ :=
  let life := if life < 0 then 0 else life
  if life > lp then lp else life

/-- The body of an `if (damage > 0)` block of `resolve_event`: subtracts the damage from the life
of slot `index`, clamps it and recomputes the life bar as `life / lp`; with `lp = 0` the quotient
is not a finite number. -/
def damage_slot (ct : CharacterTable) (index : Fin 5) (damage : ℚ) : Option CharacterTable :=
  let life := clamp_life (ct.life index - damage) (ct.lp index)
  if ct.lp index = 0 then none
  else some { ct with life := Function.update ct.life index life,
                      life_bar := Function.update ct.life_bar index (life / ct.lp index) }

/-- An `if (damage[pos] > 0) { ... }` block of the damage loop of `resolve_event`, on one
table and its array of pending damage. -/
def damage_step (damage : Fin 5 → ℚ) (ct : CharacterTable) (pos : Fin 5) :
    Option CharacterTable :=
  if damage pos > 0 then damage_slot ct (ct.pos_to_index pos) (damage pos) else some ct

/-- One iteration of the damage loop of `resolve_event`, on the pair (owner table, other table):
first the block of the other table, then the block of the owner table. -/
def apply_damage (e : Event) (cts : CharacterTable × CharacterTable) (pos : Fin 5) :
    Option (CharacterTable × CharacterTable) :=
  (damage_step e.other_pos_damage cts.2 pos).bind fun other_ct =>
  (damage_step e.owner_pos_damage cts.1 pos).bind fun owner_ct =>
  some (owner_ct, other_ct)

/-- The resolve-mode builder call of `resolve_event`: looks up
`owner_ct.skills[e.intent.owner_index].active_event_builder[e.intent.skill_slot]` and calls it
with `&e`. -/
def resolve_builder (lib : SkillEnum → ActiveEventBuilder) (s : CombatSystem) (e : Event) :
    Option Event := do
  let owner_ct := owner_table s e.intent.owner_team_index
  let other_ct := other_table s e.intent.owner_team_index
  let owner_index ← idx5 e.intent.owner_index
  let builder ← (owner_ct.skills owner_index).active_event_builder e.intent.skill_slot
  (lib builder).resolve owner_ct other_ct e.intent e

/-- `CombatSystem::resolve_event`: returns the state and the event after the call. -/
def resolve_event (lib : SkillEnum → ActiveEventBuilder) (s : CombatSystem) (e : Event) :
    Option (CombatSystem × Event) :=
  if e.is_negated then some (s, e)
  else do
    let e1 ← resolve_builder lib s e
    let cts ← positions.foldlM (apply_damage e1)
      (owner_table s e.intent.owner_team_index, other_table s e.intent.owner_team_index)
    some (set_tables s e.intent.owner_team_index cts.1 cts.2, e1)

/-! ## `CombatSystem::resolve_events` -/

/-- The write `owner_ct.turn_bar[index] = 0.0f` through the reference
`(team_index == 0) ? ally_character_table : opponent_character_table`. -/
def consume_turn_bar (s : CombatSystem) (team_index : Int) (index : Fin 5) : CombatSystem :=
  if team_index = 0 then
    { s with ally_character_table :=
        { s.ally_character_table with
          turn_bar := Function.update s.ally_character_table.turn_bar index 0 } }
  else
    { s with opponent_character_table :=
        { s.opponent_character_table with
          turn_bar := Function.update s.opponent_character_table.turn_bar index 0 } }

/-- `CombatSystem::resolve_events`: resolves the main event, then zeroes the turn bar of slot
`main_intent.owner_index` in the table of the event's owner side. -/
def resolve_events (lib : SkillEnum → ActiveEventBuilder) (s : CombatSystem)
    (main_event : Event) : Option (CombatSystem × Event) := do
  let (s1, e1) ← resolve_event lib s main_event
  let index ← idx5 s1.main_intent.owner_index
  some (consume_turn_bar s1 e1.intent.owner_team_index index, e1)

/-! ## `CombatSystem::get_next_character` -/

/-- The local variables of `get_next_character`.  `candidates` holds the first
`candidates_count` entries of the array of the same name; `min_step = none` is the initial
`+infinity`. -/
structure ScanState where
  candidates : List Intent
  highest_speed : ℚ
  found_full : Bool
  min_step : Option ℚ
  deriving DecidableEq

/-- The initial values of the local variables. -/
def ScanState.init : ScanState :=
  { candidates := [], highest_speed := -1, found_full := false, min_step := none }

/-- The aggregate `{ team_index, index }`: the remaining members are zero. -/
def candidate_intent (team_index : Int) (index : Fin 5) : Intent :=
  { owner_team_index := team_index, owner_index := (index.val : Int), skill_slot := 0,
    target_pos := 0 }

/-- The block `if (spe > highest_speed) ... else if (spe == highest_speed) ...` of `scan` and
`rescan`.  The array `candidates` has eight elements: a write at index eight or above is
undefined. -/
def record_candidate (st : ScanState) (c : Intent) (spe : ℚ) : Option ScanState :=
  if spe > st.highest_speed then
    some { st with highest_speed := spe, candidates := [c] }
  else if spe = st.highest_speed then
    if st.candidates.length < 8 then some { st with candidates := st.candidates ++ [c] }
    else none
  else some st

/-- The comparison `step < min_step`, with `none` for `+infinity`. -/
def step_lt (step : ℚ) (min_step : Option ℚ) : Bool :=
  match min_step with
  | none => true
  | some m => decide (step < m)

/-- The local `step = (1.0f - turn_bar) / spe` of `scan`, a binary32 difference and a binary32
quotient: `none` when it is not finite (a zero `spe`, or an overflow). -/
def scan_quotient (turn_bar spe : ℚ) : Option ℚ :=
  if spe = 0 then none else (f32 (1 - turn_bar)).bind fun d => f32 (d / spe)

/-- One iteration of the loop of the lambda `scan`.  In the `else` branch the bar is below one:
a `step` that is not finite is `+infinity` or a NaN when `spe ≥ 0`, and is then not below
`min_step`; when `spe < 0` it is `-infinity`, which would be stored in `min_step`. -/
def scan_step (character_table : CharacterTable) (team_index : Int) (st : ScanState)
    (pos : Fin 5) : Option ScanState :=
  let index := character_table.pos_to_index pos
  let turn_bar := character_table.turn_bar index
  let spe := character_table.spe index
  if turn_bar ≥ 1 then
    record_candidate { st with found_full := true } (candidate_intent team_index index) spe
  else
    match scan_quotient turn_bar spe with
    | some step =>
      if step_lt step st.min_step then some { st with min_step := some step } else some st
    | none => if 0 ≤ spe then some st else none

/-- The lambda `scan`. -/
def scan (character_table : CharacterTable) (team_index : Int) (st : ScanState) :
    Option ScanState :=
  positions.foldlM (scan_step character_table team_index) st

/-- One iteration of the loop of the lambda `fill`:
`turn_bar[index] += min_step * spe[index]`, a binary32 product and a binary32 sum. -/
def fill_step (min_step : ℚ) (character_table : CharacterTable) (pos : Fin 5) :
    Option CharacterTable := do
  let index := character_table.pos_to_index pos
  let product ← f32 (min_step * character_table.spe index)
  let sum ← f32 (character_table.turn_bar index + product)
  some { character_table with
    turn_bar := Function.update character_table.turn_bar index sum }

/-- The lambda `fill`. -/
def fill (min_step : ℚ) (character_table : CharacterTable) : Option CharacterTable :=
  positions.foldlM (fill_step min_step) character_table

/-- One iteration of the loop of the lambda `rescan`. -/
def rescan_step (character_table : CharacterTable) (team_index : Int) (st : ScanState)
    (pos : Fin 5) : Option ScanState :=
  let index := character_table.pos_to_index pos
  let turn_bar := character_table.turn_bar index
  let spe := character_table.spe index
  if turn_bar ≥ 1 then record_candidate st (candidate_intent team_index index) spe
  else some st

/-- The lambda `rescan`. -/
def rescan (character_table : CharacterTable) (team_index : Int) (st : ScanState) :
    Option ScanState :=
  positions.foldlM (rescan_step character_table team_index) st

/-- The read `candidates[randi() % candidates_count]`, for the random draw `r`. -/
def pick_candidate (st : ScanState) (r : Nat) : Option Intent :=
  if st.candidates.length = 0 then none
  else st.candidates.get? (r % st.candidates.length)

/-- `CombatSystem::get_next_character`, for the value `r` of the random draw: returns the state
after the call and the intent written through the reference parameter (and returned).  With
`min_step` still `+infinity` at the fill, the bars become infinite or NaN. -/
def get_next_character (s : CombatSystem) (r : Nat) : Option (CombatSystem × Intent) := do
  let st ← scan s.ally_character_table 0 ScanState.init
  let st ← scan s.opponent_character_table 1 st
  if st.found_full then
    let intent ← pick_candidate st r
    some (s, intent)
  else
    let min_step ← st.min_step
    let ally ← fill min_step s.ally_character_table
    let opponent ← fill min_step s.opponent_character_table
    let st ← rescan ally 0 st
    let st ← rescan opponent 1 st
    let intent ← pick_candidate st r
    some ({ s with ally_character_table := ally, opponent_character_table := opponent }, intent)

/-! ## `CombatSystem::roll_initiative` -/

/-- One iteration of the loop of `roll_initiative` on one table. -/
def reset_bars_step (ct : CharacterTable) (index : Fin 5) : CharacterTable :=
  { ct with life_bar := Function.update ct.life_bar index 1,
            turn_bar := Function.update ct.turn_bar index 0 }

/-- The loop of `roll_initiative` on one table. -/
def reset_bars (ct : CharacterTable) : CharacterTable :=
  positions.foldl reset_bars_step ct

/-- `CombatSystem::roll_initiative`, for the value `r` of the random draw. -/
def roll_initiative (s : CombatSystem) (r : Nat) : Option CombatSystem := do
  let s1 : CombatSystem :=
    { s with ally_character_table := reset_bars s.ally_character_table,
             opponent_character_table := reset_bars s.opponent_character_table,
             combat_state := CombatState.RUNNING }
  let (s2, intent) ← get_next_character s1 r
  some { s2 with main_intent := intent }

/-! ## `CombatSystem::build_main_event_queue` and `CombatSystem::turn` -/

/-- `CombatSystem::push_main_event`. -/
def push_main_event (s : CombatSystem) (e : Event) : CombatSystem :=
  { s with main_event_queue := s.main_event_queue.add_event e }

/-- `CombatSystem::push_fast_event`. -/
def push_fast_event (s : CombatSystem) (e : Event) : CombatSystem :=
  { s with fast_event_queue := s.fast_event_queue.add_event e }

/-- `CombatSystem::build_main_event_queue`: the declare-mode call of the builder
`owner_ct.character_sheet[intent.owner_index].skills.active_event_builder[intent.skill_slot]`. -/
def build_main_event_queue (lib : SkillEnum → ActiveEventBuilder) (s : CombatSystem)
    (intent : Intent) : Option CombatSystem := do
  let s1 : CombatSystem := { s with main_event_queue := s.main_event_queue.clear }
  let owner_ct := owner_table s1 intent.owner_team_index
  let other_ct := other_table s1 intent.owner_team_index
  let owner_index ← idx5 intent.owner_index
  let builder ←
    (owner_ct.character_sheet owner_index).skills.active_event_builder intent.skill_slot
  let events ← (lib builder).declare owner_ct other_ct intent
  some (events.foldl push_main_event s1)

/-- One iteration of the loop of `turn`: `resolve_events(main_event_queue.event[i])`, the event
being updated in place. -/
def turn_step (lib : SkillEnum → ActiveEventBuilder) (s : CombatSystem) (i : Nat) :
    Option CombatSystem := do
  let event ← s.main_event_queue.event.get? i
  let (s1, e1) ← resolve_events lib s event
  some { s1 with main_event_queue := { event := s1.main_event_queue.event.set i e1 } }

/-- The declare part of `turn`: the writes to `main_intent` and the call
`build_main_event_queue(main_intent)`. -/
def turn_declare (lib : SkillEnum → ActiveEventBuilder) (s : CombatSystem)
    (skill_slot target_pos : Int) : Option CombatSystem :=
  let s1 : CombatSystem :=
    { s with main_intent :=
        { s.main_intent with skill_slot := skill_slot, target_pos := target_pos } }
  build_main_event_queue lib s1 s1.main_intent

/-- The part of `turn` before the final `get_next_character`: the declare part and the loop over
the main event queue. -/
def turn_resolve (lib : SkillEnum → ActiveEventBuilder) (s : CombatSystem)
    (skill_slot target_pos : Int) : Option CombatSystem := do
  let s2 ← turn_declare lib s skill_slot target_pos
  (List.range s2.main_event_queue.count).foldlM (turn_step lib) s2

/-- `CombatSystem::turn`, for the value `r` of the random draw of the final
`get_next_character(main_intent)`. -/
def turn (lib : SkillEnum → ActiveEventBuilder) (s : CombatSystem)
    (skill_slot target_pos : Int) (r : Nat) : Option CombatSystem := do
  let s3 ← turn_resolve lib s skill_slot target_pos
  let (s4, intent) ← get_next_character s3 r
  some { s4 with main_intent := intent }

/-! ## The demo skills (`active_event_builders.cpp`, `skill_library.cpp`) -/

/-- Modelled from the spec: `alias.h` is not among the sources; the target-shape function and the
two bitmask constants the demo builders use are taken as parameters. -/
structure Aliases where
  single_target : Intent → Nat
  DAMAGE : Nat
  AOE : Nat

/-- The value-initialised `Event new_event{}`. -/
def Event.zero : Event :=
  { intent := { owner_team_index := 0, owner_index := 0, skill_slot := 0, target_pos := 0 },
    target_bitmask := 0, effect_bitmask := 0, is_negated := false, is_aoe := false,
    other_pos_damage := fun _ => 0, owner_pos_damage := fun _ => 0 }

/-- The damage expression `k*owner_atk/other_def` in `int` arithmetic, converted to `float`. -/
def int_damage (k owner_atk other_def : Int) : Option ℚ := do
  let product ← int_mul k owner_atk
  let quotient ← int_div product other_def
  some (quotient : ℚ)

/-- The damage of `demo_attack`:
`(type == TypeEnum::UNDEAD) ? 400*owner_atk/other_def : 200*owner_atk/other_def`. -/
def demo_attack_damage (other_ct : CharacterTable) (target_index : Fin 5)
    (owner_atk other_def : Int) : Option ℚ :=
  if (other_ct.character_sheet target_index).creature_sheet.type = TypeEnum.UNDEAD then
    int_damage 400 owner_atk other_def
  else int_damage 200 owner_atk other_def

/-- `demo_attack`. -/
def demo_attack (A : Aliases) : ActiveEventBuilder where
  declare := fun _owner_ct _other_ct intent =>
    some [{ Event.zero with intent := intent, target_bitmask := A.single_target intent,
                            effect_bitmask := A.DAMAGE }]
  resolve := fun owner_ct other_ct intent event => do
    let owner_index ← idx5 (to_uint8 intent.owner_index)
    let target_pos ← idx5 (to_uint8 intent.target_pos)
    let target_index := other_ct.pos_to_index target_pos
    let owner_atk ← float_to_int (owner_ct.atk owner_index)
    let other_def ← float_to_int (other_ct.def_ target_index)
    let damage ← demo_attack_damage other_ct target_index owner_atk other_def
    some { event with
           other_pos_damage := Function.update event.other_pos_damage target_pos damage }

/-- The damage of `demo_cleave`:
`(type == TypeEnum::UNDEAD) ? 200*owner_atk/other_def : 100*owner_atk/other_def`. -/
def demo_cleave_damage (other_ct : CharacterTable) (target_index : Fin 5)
    (owner_atk other_def : Int) : Option ℚ :=
  if (other_ct.character_sheet target_index).creature_sheet.type = TypeEnum.UNDEAD then
    int_damage 200 owner_atk other_def
  else int_damage 100 owner_atk other_def

/-- One iteration of the resolve-mode loop of `demo_cleave`. -/
def demo_cleave_step (other_ct : CharacterTable) (owner_atk : Int) (event : Event)
    (pos : Fin 5) : Option Event := do
  let target_index := other_ct.pos_to_index pos
  let other_def ← float_to_int (other_ct.def_ target_index)
  let damage ← demo_cleave_damage other_ct target_index owner_atk other_def
  some { event with other_pos_damage := Function.update event.other_pos_damage pos damage }

/-- `demo_cleave`. -/
def demo_cleave (A : Aliases) : ActiveEventBuilder where
  declare := fun _owner_ct _other_ct intent =>
    some [{ Event.zero with intent := intent, is_aoe := true, target_bitmask := A.AOE,
                            effect_bitmask := A.DAMAGE }]
  resolve := fun owner_ct other_ct intent event => do
    let owner_index ← idx5 intent.owner_index
    let owner_atk ← float_to_int (owner_ct.atk owner_index)
    positions.foldlM (demo_cleave_step other_ct owner_atk) event

/-- The active event builders of `skill_library`, as `get_skill` returns them. -/
def skill_library (A : Aliases) : SkillEnum → ActiveEventBuilder
  | SkillEnum.DEMO_ATTACK => demo_attack A
  | SkillEnum.DEMO_CLEAVE => demo_cleave A

/-- The static array of `get_creature_library`: Bat, Skeleton, Orc. -/
def creature_library : List CreatureSheet :=
  [ { creature_id := 0, type := TypeEnum.MONSTER,
      stats := { lp := 1000, atk := 100, def_ := 100, mag := 100, crt := 100, spe := 180 },
      skill_0 := SkillEnum.DEMO_ATTACK, skill_1 := SkillEnum.DEMO_CLEAVE },
    { creature_id := 1, type := TypeEnum.UNDEAD,
      stats := { lp := 1200, atk := 120, def_ := 100, mag := 100, crt := 100, spe := 140 },
      skill_0 := SkillEnum.DEMO_ATTACK, skill_1 := SkillEnum.DEMO_CLEAVE },
    { creature_id := 2, type := TypeEnum.MONSTER,
      stats := { lp := 1400, atk := 140, def_ := 100, mag := 100, crt := 100, spe := 100 },
      skill_0 := SkillEnum.DEMO_ATTACK, skill_1 := SkillEnum.DEMO_CLEAVE } ]

/-! ## `passive_is_valid` and the negate pass of `CombatSystem::get_passives` -/

/-- The lambda `passive_is_valid` of `get_passives`. -/
def passive_is_valid (owner_ct other_ct : CharacterTable) (pt : PassiveTable) (e : Event)
    (i : Nat) : Option Bool := do
  let owner_index ← idx5 (pt.intent i).owner_index
  if other_ct.life owner_index < 0 ∨ other_ct.index_to_pos owner_index < 0 then some false
  else if (pt.observed_effect_bitmask i) &&& e.effect_bitmask = 0 then some false
  else
    let oci := pt.observed_caster_index i
    let oti := pt.observed_target_index i
    let caster_match : Bool := decide (oci = -1) || decide (oci = e.intent.owner_index)
    let target_match : Bool ←
      if oti = -1 then some true
      else (idx5 e.intent.target_pos).map fun pos =>
        decide (oti = ((other_ct.pos_to_index pos).val : Int))
    if !(caster_match || target_match) then some false
    else if !(pt.condition i owner_ct other_ct e.intent) then some false
    else some true

/-- One iteration of the loop of the lambda `scan_fastest`; the local `candidates`,
`candidates_count` and `highest_speed` are kept in a `ScanState`. -/
def scan_fastest_step (owner_ct other_ct : CharacterTable) (pt : PassiveTable) (e : Event)
    (st : ScanState) (i : Nat) : Option ScanState := do
  let valid ← passive_is_valid owner_ct other_ct pt e i
  if valid then
    let owner_index ← idx5 (pt.intent i).owner_index
    record_candidate st (pt.intent i) (other_ct.spe owner_index)
  else some st

/-- The lambda `scan_fastest`: whether a valid entry exists.  The reference parameter
`candidate` is never written by the source, so it is not part of the result. -/
def scan_fastest (owner_ct other_ct : CharacterTable) (pt : PassiveTable) (e : Event) :
    Option Bool := do
  let st ← (List.range pt.count).foldlM (scan_fastest_step owner_ct other_ct pt e)
    ScanState.init
  if st.candidates.length = 0 then some false else some true

/-- The lambda `get_negate`: the returned flag and the event after the call. -/
def get_negate (owner_ct other_ct : CharacterTable) (pt : PassiveTable) (e : Event) :
    Option (Bool × Event) := do
  let found ← scan_fastest owner_ct other_ct pt e
  if !found then some (false, e)
  else some (true, { e with is_negated := true })

/-- The negate registry `get_passives` consults for an event owned by side `team_index`:
`(owner_team_index == 0) ? opponent_negate_table : ally_negate_table`. -/
def other_negate_table (s : CombatSystem) (team_index : Int) : PassiveTable :=
  if team_index = 0 then s.opponent_negate_table else s.ally_negate_table

/-! ## The intercept pass, the react pass and `CombatSystem::get_passives` -/

/-- Modelled from the spec: `skills.h` and `passive_event_builders.h` are not among the sources.
"A passive event builder has a single mode: given (owning table of the reacting side, opposing
table, the reacting Intent) it performs side-effecting modifications or queues its own secondary
Event through the same push-to-queue capability used by active builders."  A builder is the
effect of one call on the state of the engine, whose tables it receives by reference and whose
queues it reaches through the singleton; `none` stands for a call that is undefined.  The
triggering event is not among the arguments of the call. -/
structure PassiveEventBuilder where
  build : CharacterTable → CharacterTable → Intent → CombatSystem → Option CombatSystem

/-- The lambda `build_passive` of `get_passives`: looks up
`owner_character_table.skills[intent.owner_index].passive_event_builder[intent.skill_slot]` and
calls it. -/
def build_passive (plib : SkillEnum → PassiveEventBuilder) (s : CombatSystem)
    (intent : Intent) : Option CombatSystem := do
  let owner_character_table := owner_table s intent.owner_team_index
  let other_character_table := other_table s intent.owner_team_index
  let owner_index ← idx5 intent.owner_index
  let builder ←
    (owner_character_table.skills owner_index).passive_event_builder intent.skill_slot
  (plib builder).build owner_character_table other_character_table intent s

/-- The lambda `get_intercept`, in the state `s`: the returned flag and the state after the call.
`candidate` is the value of the local `Intent candidate;`, which is passed to `scan_fastest` by
reference, never written there, and handed to `build_passive`. -/
def get_intercept (plib : SkillEnum → PassiveEventBuilder) (candidate : Intent)
    (s : CombatSystem) (owner_ct other_ct : CharacterTable) (pt : PassiveTable) (e : Event) :
    Option (Bool × CombatSystem) := do
  let found ← scan_fastest owner_ct other_ct pt e
  if !found then some (false, s)
  else
    let s1 ← build_passive plib s candidate
    some (true, s1)

/-- One iteration of the loop of the lambda `scan_all`.  The array `candidates` has eight
elements: a write at index eight or above is undefined. -/
def scan_all_step (owner_ct other_ct : CharacterTable) (pt : PassiveTable) (e : Event)
    (candidates : List Intent) (i : Nat) : Option (List Intent) := do
  let valid ← passive_is_valid owner_ct other_ct pt e i
  if valid then
    if candidates.length < 8 then some (candidates ++ [pt.intent i]) else none
  else some candidates

/-- The lambda `scan_all`: the returned flag and the first `candidates_count` entries of
`candidates` after the call. -/
def scan_all (owner_ct other_ct : CharacterTable) (pt : PassiveTable) (e : Event)
    (candidates : List Intent) : Option (Bool × List Intent) := do
  let candidates ← (List.range pt.count).foldlM (scan_all_step owner_ct other_ct pt e)
    candidates
  some (decide (candidates.length > 0), candidates)

/-- The lambda `get_reacts`, in the state `s`: the returned flag and the state after the call. -/
def get_reacts (plib : SkillEnum → PassiveEventBuilder) (s : CombatSystem)
    (owner_ct other_ct : CharacterTable) (pt : PassiveTable) (e : Event) :
    Option (Bool × CombatSystem) := do
  let (found, candidates) ← scan_all owner_ct other_ct pt e []
  if !found then some (false, s)
  else
    let s1 ← candidates.foldlM (build_passive plib) s
    some (true, s1)

/-- The intercept registry `get_passives` consults for an event owned by side `team_index`. -/
def other_intercept_table (s : CombatSystem) (team_index : Int) : PassiveTable :=
  if team_index = 0 then s.opponent_intercept_table else s.ally_intercept_table

/-- The react registry `get_passives` consults for an event owned by side `team_index`. -/
def other_react_table (s : CombatSystem) (team_index : Int) : PassiveTable :=
  if team_index = 0 then s.opponent_react_table else s.ally_react_table

/-- The four `clear()` calls of `get_passives` on the reaction queues. -/
def clear_reaction_queues (s : CombatSystem) : CombatSystem :=
  { s with fast_event_queue_plus := s.fast_event_queue_plus.clear,
           fast_event_queue := s.fast_event_queue.clear,
           slow_event_queue_plus := s.slow_event_queue_plus.clear,
           slow_event_queue := s.slow_event_queue.clear }

/-- `CombatSystem::get_passives`: returns the state and the event after the call.  The
references `owner_ct`, `other_ct`, `other_nt`, `other_it` and `other_rt` are bound to members of
the object, so each pass reads them in the state the pass before it has left. -/
def get_passives (plib : SkillEnum → PassiveEventBuilder) (candidate : Intent)
    (s : CombatSystem) (e : Event) : Option (CombatSystem × Event) := do
  let owner_team_index := e.intent.owner_team_index
  let s1 := clear_reaction_queues s
  let (_, e1) ← get_negate (owner_table s1 owner_team_index) (other_table s1 owner_team_index)
    (other_negate_table s1 owner_team_index) e
  let (_, s2) ← get_intercept plib candidate s1 (owner_table s1 owner_team_index)
    (other_table s1 owner_team_index) (other_intercept_table s1 owner_team_index) e1
  let (_, s3) ← get_reacts plib s2 (owner_table s2 owner_team_index)
    (other_table s2 owner_team_index) (other_react_table s2 owner_team_index) e1
  some (s3, e1)

/-! ## `CombatSystem::setup_from_parties` -/

/-- One iteration of the loop of the lambda `fill_side`; `cs` is the result of
`character_inventory->get_character_sheet(party.slots[pos])`, `none` for a null pointer. -/
def fill_side_step (party : Fin 5 → Option CharacterSheet) (ct : CharacterTable)
    (pos : Fin 5) : CharacterTable :=
  match party pos with
  | none =>
    { ct with pos_to_index := Function.update ct.pos_to_index pos pos,
              index_to_pos := Function.update ct.index_to_pos pos (pos.val : Int),
              life_bar := Function.update ct.life_bar pos 1,
              turn_bar := Function.update ct.turn_bar pos 0,
              dmg_in := Function.update ct.dmg_in pos 0,
              dmg_out := Function.update ct.dmg_out pos 0 }
  | some cs =>
    { pos_to_index := Function.update ct.pos_to_index pos pos,
      index_to_pos := Function.update ct.index_to_pos pos (pos.val : Int),
      life := Function.update ct.life pos cs.stats.lp,
      life_bar := Function.update ct.life_bar pos 1,
      turn_bar := Function.update ct.turn_bar pos 0,
      dmg_in := Function.update ct.dmg_in pos 1,
      dmg_out := Function.update ct.dmg_out pos 1,
      lp := Function.update ct.lp pos cs.stats.lp,
      atk := Function.update ct.atk pos cs.stats.atk,
      def_ := Function.update ct.def_ pos cs.stats.def_,
      mag := Function.update ct.mag pos cs.stats.mag,
      crt := Function.update ct.crt pos cs.stats.crt,
      spe := Function.update ct.spe pos cs.stats.spe,
      skills := Function.update ct.skills pos cs.skills,
      character_sheet := Function.update ct.character_sheet pos cs }

/-- The lambda `fill_side`. -/
def fill_side (ct : CharacterTable) (party : Fin 5 → Option CharacterSheet) : CharacterTable :=
  positions.foldl (fill_side_step party) ct

/-- `CombatSystem::setup_from_parties`, on the character sheets the two parties resolve to. -/
def setup_from_parties (s : CombatSystem) (ally_party opponent_party :
    Fin 5 → Option CharacterSheet) : CombatSystem :=
  { s with ally_character_table := fill_side s.ally_character_table ally_party,
           opponent_character_table := fill_side s.opponent_character_table opponent_party }

/-! ## Auxiliary notions for the proofs -/

/-- With no candidate recorded, the highest speed is still the initial `-1`. -/
def ScanState.Fresh (st : ScanState) : Prop := st.candidates = [] → st.highest_speed = -1

/-- What `scan` and `rescan` read of one combatant: the candidate intent, the turn bar and the
speed. -/
structure Entry where
  intent : Intent
  turn_bar : ℚ
  spe : ℚ

/-- The entry of the combatant at board position `pos` of a table. -/
def table_entry (ct : CharacterTable) (team_index : Int) (pos : Fin 5) : Entry :=
  { intent := candidate_intent team_index (ct.pos_to_index pos),
    turn_bar := ct.turn_bar (ct.pos_to_index pos),
    spe := ct.spe (ct.pos_to_index pos) }

/-- The entries of a table in loop order. -/
def table_entries (ct : CharacterTable) (team_index : Int) : List Entry :=
  positions.map (table_entry ct team_index)

/-- The entries of both tables in scan order: allies first, then opponents. -/
def all_entries (ally opponent : CharacterTable) : List Entry :=
  table_entries ally 0 ++ table_entries opponent 1

/-- The body of the loop of `scan` on an entry. -/
def scan_entry (st : ScanState) (x : Entry) : Option ScanState :=
  if x.turn_bar ≥ 1 then record_candidate { st with found_full := true } x.intent x.spe
  else
    match scan_quotient x.turn_bar x.spe with
    | some step =>
      if step_lt step st.min_step then some { st with min_step := some step } else some st
    | none => if 0 ≤ x.spe then some st else none

/-- The body of the loop of `rescan` on an entry. -/
def rescan_entry (st : ScanState) (x : Entry) : Option ScanState :=
  if x.turn_bar ≥ 1 then record_candidate st x.intent x.spe else some st

/-- Whether the turn bar of an entry is full. -/
def Entry.ready (x : Entry) : Bool := decide (x.turn_bar ≥ 1)

/-- The greatest speed of a list of entries, or `-1` when none exceeds it. -/
def best_speed (R : List Entry) : ℚ := R.foldl (fun m x => max m x.spe) (-1)

/-- The intents of the entries of greatest speed, in list order. -/
def fastest (R : List Entry) : List Intent :=
  (R.filter fun x => decide (x.spe = best_speed R)).map Entry.intent

/-- The candidate variables of a scan state are those reached after recording the entries `R`. -/
def Tracked (st : ScanState) (R : List Entry) : Prop :=
  st.highest_speed = best_speed R ∧ st.candidates = fastest R

/-- The event a library skill creates in declare mode for an intent. -/
def declared_event (A : Aliases) (skill : SkillEnum) (intent : Intent) : Event :=
  match skill with
  | SkillEnum.DEMO_ATTACK =>
    { Event.zero with intent := intent, target_bitmask := A.single_target intent,
                      effect_bitmask := A.DAMAGE }
  | SkillEnum.DEMO_CLEAVE =>
    { Event.zero with intent := intent, is_aoe := true, target_bitmask := A.AOE,
                      effect_bitmask := A.DAMAGE }

/-- The intent `turn` writes into `main_intent`. -/
def turn_intent (s : CombatSystem) (skill_slot target_pos : Int) : Intent :=
  { s.main_intent with skill_slot := skill_slot, target_pos := target_pos }

/-- The target test of `passive_is_valid`, `(oti == -1) || (oti == other_ct.pos_to_index[pos])`
with `pos = e.intent.target_pos`: undefined when the position is read and is out of range. -/
def target_match (other_ct : CharacterTable) (pt : PassiveTable) (e : Event) (i : Nat) :
    Option Bool :=
  if pt.observed_target_index i = -1 then some true
  else (idx5 e.intent.target_pos).map fun pos =>
    decide (pt.observed_target_index i = ((other_ct.pos_to_index pos).val : Int))

/-- Table `ct'` is a later value of table `ct` in the course of a turn: it differs from `ct` at
most in `life`, `life_bar` and `turn_bar`, and every slot whose life bar was `life / lp` has its
life bar at `life / lp` again. -/
def TableEvolves (ct ct' : CharacterTable) : Prop :=
  ct' = { ct with life := ct'.life, life_bar := ct'.life_bar, turn_bar := ct'.turn_bar } ∧
  ∀ i, ct.life_bar i = ct.life i / ct.lp i → ct'.life_bar i = ct'.life i / ct'.lp i

/-- Both tables of state `s'` are later values of the tables of state `s`. -/
def StateEvolves (s s' : CombatSystem) : Prop :=
  TableEvolves s.ally_character_table s'.ally_character_table ∧
  TableEvolves s.opponent_character_table s'.opponent_character_table

/-- The slots of the members of a party are as `setup_from_parties` has left them, up to the turn
bars: life and maximum life are the maximum life of the sheet, and the life bar is 1. -/
def FreshSlots (party : Fin 5 → Option CharacterSheet) (ct : CharacterTable) : Prop :=
  ∀ pos, ∀ cs ∈ party pos,
    ct.life pos = cs.stats.lp ∧ ct.lp pos = cs.stats.lp ∧ ct.life_bar pos = 1

/-- Table `ct'` has the position map and the speeds of table `ct`, and each of its turn bars is
the one of `ct` or has been set to 0. -/
def BarsConsumed (ct ct' : CharacterTable) : Prop :=
  ct'.pos_to_index = ct.pos_to_index ∧ ct'.spe = ct.spe ∧
  ∀ i, ct'.turn_bar i = ct.turn_bar i ∨ ct'.turn_bar i = 0

/-- What the scheduler does on a state, up to the read of the candidates: the flag `found_full`
and `min_step` after the two scans, the turn bars of both tables after the fill, and the
candidates after the two rescans. -/
structure StallTrace where
  found_full : Bool
  min_step : ℚ
  ally_bars : List ℚ
  opponent_bars : List ℚ
  candidates : List Intent
  deriving DecidableEq

/-- The trace of the scheduler on a state: the two scans, the fill by `min_step` and the two
rescans of `get_next_character`, as they run when the scans find no full bar. -/
def stall_trace (s : CombatSystem) : Option StallTrace :=
  ((scan s.ally_character_table 0 ScanState.init).bind
      (scan s.opponent_character_table 1)).bind fun st =>
    st.min_step.bind fun min_step =>
      (fill min_step s.ally_character_table).bind fun ally =>
        (fill min_step s.opponent_character_table).bind fun opponent =>
          ((rescan ally 0 st).bind (rescan opponent 1)).map fun st2 =>
            { found_full := st.found_full, min_step := min_step,
              ally_bars := positions.map ally.turn_bar,
              opponent_bars := positions.map opponent.turn_bar,
              candidates := st2.candidates }

/-! ## Predicates of the specification -/

/-- Every slot of a table has a positive maximum life and a life within `[0, lp]`. -/
def LifeClamped (ct : CharacterTable) : Prop :=
  ∀ i : Fin 5, 0 < ct.lp i ∧ 0 ≤ ct.life i ∧ ct.life i ≤ ct.lp i

/-- Both tables of a state satisfy `LifeClamped`. -/
def LifeInvariant (s : CombatSystem) : Prop :=
  LifeClamped s.ally_character_table ∧ LifeClamped s.opponent_character_table

/-- Decidability of `LifeClamped`, for concrete tables. -/
instance LifeClamped.decidable (ct : CharacterTable) : Decidable (LifeClamped ct) := by
  unfold LifeClamped
  infer_instance

/-- Decidability of `LifeInvariant`, for concrete states. -/
instance LifeInvariant.decidable (s : CombatSystem) : Decidable (LifeInvariant s) := by
  unfold LifeInvariant
  infer_instance

/-- The damage `d` at board position `pos` has been applied from table `ct` to table `ct'`:
when `d` is positive and the slot of `pos` has `0 < lp` and `life ≤ lp`, the slot ends with life
`max 0 (life - d)` and with life bar `(new life) / lp`. -/
def DamageApplied (ct ct' : CharacterTable) (pos : Fin 5) (d : ℚ) : Prop :=
  0 < d → 0 < ct.lp (ct.pos_to_index pos) →
  ct.life (ct.pos_to_index pos) ≤ ct.lp (ct.pos_to_index pos) →
  ct'.life (ct.pos_to_index pos) = max 0 (ct.life (ct.pos_to_index pos) - d) ∧
  ct'.life_bar (ct.pos_to_index pos) =
    ct'.life (ct.pos_to_index pos) / ct.lp (ct.pos_to_index pos)

/-- Table `ct'` differs from table `ct` at most in `life` and `life_bar`. -/
def LifeFrame (ct ct' : CharacterTable) : Prop :=
  ct' = { ct with life := ct'.life, life_bar := ct'.life_bar }

/-- Between states `s` and `s'`, for the acting side `team_index`: slot `target` of the opposing
table has the given life and life bar, and no other slot of either table has changed its life or
its life bar. -/
def OnlyTargetDamaged (s s' : CombatSystem) (team_index : Int) (target : Fin 5)
    (life life_bar : ℚ) : Prop :=
  (other_table s' team_index).life target = life ∧
  (other_table s' team_index).life_bar target = life_bar ∧
  (∀ i, i ≠ target →
    (other_table s' team_index).life i = (other_table s team_index).life i ∧
    (other_table s' team_index).life_bar i = (other_table s team_index).life_bar i) ∧
  (∀ i, (owner_table s' team_index).life i = (owner_table s team_index).life i ∧
    (owner_table s' team_index).life_bar i = (owner_table s team_index).life_bar i)

/-- The number of combatants of both tables whose speed is `v`. -/
def speed_count (ally opponent : CharacterTable) (v : ℚ) : Nat :=
  (positions.filter fun i => decide (ally.spe i = v)).length +
    (positions.filter fun i => decide (opponent.spe i = v)).length

/-- The indices of the registry entries that are valid for an event, in increasing order. -/
def valid_entries (owner_ct other_ct : CharacterTable) (pt : PassiveTable) (e : Event) :
    List Nat :=
  (List.range pt.count).filter fun i =>
    decide (passive_is_valid owner_ct other_ct pt e i = some true)

/-- The intents of the registry entries that are valid for an event, in registry order. -/
def valid_intents (owner_ct other_ct : CharacterTable) (pt : PassiveTable) (e : Event) :
    List Intent :=
  (valid_entries owner_ct other_ct pt e).map pt.intent

/-- The factor of the damage of `demo_cleave` against the combatant at a table index: 200 for an
undead sheet, 100 otherwise. -/
def cleave_factor (other_ct : CharacterTable) (target_index : Fin 5) : Int :=
  if (other_ct.character_sheet target_index).creature_sheet.type = TypeEnum.UNDEAD then 200
  else 100

/-- The ready combatants of maximum speed of a state, listed in scan order (allies by board
position, then opponents by board position): the candidate intents of the entries with a full
turn bar whose speed no entry with a full turn bar exceeds. -/
def tied_set (s : CombatSystem) : List Intent :=
  (((all_entries s.ally_character_table s.opponent_character_table).filter Entry.ready).filter
    fun x => decide (∀ y ∈ (all_entries s.ally_character_table
      s.opponent_character_table).filter Entry.ready, y.spe ≤ x.spe)).map Entry.intent

/-- A call of one of the two entry points that drive an encounter after its setup, with the
value of the random draw of its `get_next_character`. -/
inductive Call where
  | roll_initiative (r : Nat)
  | turn (skill_slot target_pos : Int) (r : Nat)

/-- Whether a call is a call of `turn`. -/
def Call.is_turn : Call → Bool
  | Call.roll_initiative _ => false
  | Call.turn _ _ _ => true

/-- The state after one call. -/
def run_call (lib : SkillEnum → ActiveEventBuilder) (s : CombatSystem) :
    Call → Option CombatSystem
  | Call.roll_initiative r => roll_initiative s r
  | Call.turn skill_slot target_pos r => turn lib s skill_slot target_pos r

/-- The state after a finite sequence of calls. -/
def run_calls (lib : SkillEnum → ActiveEventBuilder) (s : CombatSystem)
    (calls : List Call) : Option CombatSystem :=
  calls.foldlM (run_call lib) s

/-- Life-fraction invariant of a table set up from a party: every occupied slot has
`life_bar = life / lp`. -/
def LifeBarInvariant (party : Fin 5 → Option CharacterSheet) (ct : CharacterTable) : Prop :=
  ∀ pos, (party pos).isSome = true → ct.life_bar pos = ct.life pos / ct.lp pos

/-- The position map and the index map of a table are mutual inverses. -/
def MutualInverse (ct : CharacterTable) : Prop :=
  ∀ p : Fin 5, ct.index_to_pos (ct.pos_to_index p) = (p.val : Int) ∧
    ∃ q, idx5 (ct.index_to_pos p) = some q ∧ ct.pos_to_index q = p

/-- State `s'` has the position maps and the index maps of state `s`. -/
def SameMaps (s s' : CombatSystem) : Prop :=
  s'.ally_character_table.pos_to_index = s.ally_character_table.pos_to_index ∧
  s'.ally_character_table.index_to_pos = s.ally_character_table.index_to_pos ∧
  s'.opponent_character_table.pos_to_index = s.opponent_character_table.pos_to_index ∧
  s'.opponent_character_table.index_to_pos = s.opponent_character_table.index_to_pos

/-- Two tables agree on what the scheduler reads: the position map, the turn bars and the
speeds. -/
def SchedulingEq (ct ct' : CharacterTable) : Prop :=
  ct.pos_to_index = ct'.pos_to_index ∧ ct.turn_bar = ct'.turn_bar ∧ ct.spe = ct'.spe

/-- The factor of the damage of `demo_attack` against the combatant at a table index: 400 for an
undead sheet, 200 otherwise. -/
def attack_factor (other_ct : CharacterTable) (target_index : Fin 5) : Int :=
  if (other_ct.character_sheet target_index).creature_sheet.type = TypeEnum.UNDEAD then 400
  else 200

/-- Every turn bar of a table lies in `[0, 1]`. -/
def MeterRange (ct : CharacterTable) : Prop :=
  ∀ i, 0 ≤ ct.turn_bar i ∧ ct.turn_bar i ≤ 1

/-- The slots of the absent members of a party are idle: speed 0 and turn bar 0. -/
def AbsentIdle (party : Fin 5 → Option CharacterSheet) (ct : CharacterTable) : Prop :=
  ∀ pos, party pos = none → ct.spe pos = 0 ∧ ct.turn_bar pos = 0

/-- The intent names a slot of a member of the party of its team: team 0 is the ally party and
team 1 the opponent party, and slot `k` of a table set up by `setup_from_parties` holds the
party member at board position `k`. -/
def SelectsPresent (ally_party opponent_party : Fin 5 → Option CharacterSheet)
    (intent : Intent) : Prop :=
  ∃ k : Fin 5, idx5 intent.owner_index = some k ∧
    ((intent.owner_team_index = 0 ∧ (ally_party k).isSome = true) ∨
     (intent.owner_team_index = 1 ∧ (opponent_party k).isSome = true))

/-- The state invariant of an encounter set up from two parties: both position maps are the
identity and the slots of the absent members are idle. -/
def AbsentSlotsIdle (ally_party opponent_party : Fin 5 → Option CharacterSheet)
    (s : CombatSystem) : Prop :=
  (∀ pos, s.ally_character_table.pos_to_index pos = pos) ∧
  (∀ pos, s.opponent_character_table.pos_to_index pos = pos) ∧
  AbsentIdle ally_party s.ally_character_table ∧
  AbsentIdle opponent_party s.opponent_character_table

/-! ## Example encounters -/

/-- The skill slots of a creature: slot 0 and slot 1 point to the builders of its two skills. -/
def creature_skills (c : CreatureSheet) : Skills :=
  { active_event_builder := fun slot =>
      if slot = 0 then some c.skill_0 else if slot = 1 then some c.skill_1 else none,
    passive_event_builder := fun _ => none }

/-- A character sheet with the base stats and the skills of a creature. -/
def character_sheet_of (c : CreatureSheet) : CharacterSheet :=
  { creature_sheet := c, stats := c.stats, skills := creature_skills c }

/-- The Bat of the creature library. -/
def bat : CharacterSheet := character_sheet_of
  { creature_id := 0, type := TypeEnum.MONSTER,
    stats := { lp := 1000, atk := 100, def_ := 100, mag := 100, crt := 100, spe := 180 },
    skill_0 := SkillEnum.DEMO_ATTACK, skill_1 := SkillEnum.DEMO_CLEAVE }

/-- The Skeleton of the creature library. -/
def skeleton : CharacterSheet := character_sheet_of
  { creature_id := 1, type := TypeEnum.UNDEAD,
    stats := { lp := 1200, atk := 120, def_ := 100, mag := 100, crt := 100, spe := 140 },
    skill_0 := SkillEnum.DEMO_ATTACK, skill_1 := SkillEnum.DEMO_CLEAVE }

/-- The Orc of the creature library. -/
def orc : CharacterSheet := character_sheet_of
  { creature_id := 2, type := TypeEnum.MONSTER,
    stats := { lp := 1400, atk := 140, def_ := 100, mag := 100, crt := 100, spe := 100 },
    skill_0 := SkillEnum.DEMO_ATTACK, skill_1 := SkillEnum.DEMO_CLEAVE }

/-- A table whose arrays are all zero, with the sheet of a Bat in every sheet slot. -/
def zero_table : CharacterTable :=
  { pos_to_index := fun _ => 0, index_to_pos := fun _ => 0, life := fun _ => 0,
    life_bar := fun _ => 0, turn_bar := fun _ => 0, dmg_in := fun _ => 0, dmg_out := fun _ => 0,
    lp := fun _ => 0, atk := fun _ => 0, def_ := fun _ => 0, mag := fun _ => 0,
    crt := fun _ => 0, spe := fun _ => 0,
    skills := fun _ => { active_event_builder := fun _ => none,
                         passive_event_builder := fun _ => none },
    character_sheet := fun _ => bat }

/-- A passive table without entries. -/
def empty_passive_table : PassiveTable :=
  { count := 0, intent := fun _ => ⟨0, 0, 0, 0⟩, observed_effect_bitmask := fun _ => 0,
    observed_caster_index := fun _ => 0, observed_target_index := fun _ => 0,
    condition := fun _ _ _ _ => false }

/-- A combat system before `setup_from_parties`: zero tables, empty registries and queues. -/
def idle_system : CombatSystem :=
  { combat_state := CombatState.IDLE,
    ally_character_table := zero_table, opponent_character_table := zero_table,
    ally_negate_table := empty_passive_table, ally_intercept_table := empty_passive_table,
    ally_react_table := empty_passive_table, ally_modify_table := empty_passive_table,
    opponent_negate_table := empty_passive_table,
    opponent_intercept_table := empty_passive_table,
    opponent_react_table := empty_passive_table, opponent_modify_table := empty_passive_table,
    fast_event_queue_plus := { event := [] }, fast_event_queue := { event := [] },
    main_event_queue := { event := [] }, slow_event_queue_plus := { event := [] },
    slow_event_queue := { event := [] },
    main_intent := ⟨0, 0, 0, 0⟩, negate_intent := ⟨0, 0, 0, 0⟩,
    intercept_intent := ⟨0, 0, 0, 0⟩ }

/-- The bitmask constants used in the examples. -/
def example_aliases : Aliases :=
  { single_target := fun intent => 2 ^ intent.target_pos.toNat, DAMAGE := 1, AOE := 31 }

/-- The encounter of the end-to-end scenario: one Bat (speed 180) against one Orc (speed 100),
each at board position 0, the other positions absent. -/
def duel : CombatSystem :=
  setup_from_parties idle_system
    (fun pos => if pos = 0 then some bat else none)
    (fun pos => if pos = 0 then some orc else none)

/-- An encounter with every position occupied on both sides. -/
def full_encounter : CombatSystem :=
  setup_from_parties idle_system
    (fun pos => if pos = 1 then some skeleton else if pos = 2 then some orc else some bat)
    (fun pos => if pos = 0 then some skeleton else if pos = 3 then some bat else some orc)

/-- The fully occupied encounter at a moment when the ally at index 0 has a full turn bar. -/
def ready_encounter : CombatSystem :=
  { full_encounter with
    ally_character_table :=
      { full_encounter.ally_character_table with
        turn_bar := fun i => if i = 0 then 1 else 1 / 2 } }

/-- An encounter in which every combatant has a full turn bar: nine Orcs (speed 100) and, at the
last position of the scan, a Bat (speed 180). -/
def crowded_encounter : CombatSystem :=
  { idle_system with
    ally_character_table :=
      { fill_side zero_table (fun _ => some orc) with turn_bar := fun _ => 1 },
    opponent_character_table :=
      { fill_side zero_table (fun pos => if pos = 4 then some bat else some orc) with
        turn_bar := fun _ => 1 } }

/-- A character sheet of a Bat whose speed stat is 200. -/
def swift_bat : CharacterSheet :=
  { bat with stats := { bat.stats with spe := 200 } }

/-- An encounter of nine Orcs (speed 100) and, at the last position of the scan, the swift Bat
(speed 200), as `setup_from_parties` leaves it. -/
def race_encounter : CombatSystem :=
  setup_from_parties idle_system (fun _ => some orc)
    (fun pos => if pos = 4 then some swift_bat else some orc)

/-- A party with a Bat at board position 0 and no other member. -/
def lone_bat : Fin 5 → Option CharacterSheet := fun pos => if pos = 0 then some bat else none

/-- A party with an Orc at board position 0 and no other member. -/
def lone_orc : Fin 5 → Option CharacterSheet := fun pos => if pos = 0 then some orc else none

/-- A second encounter set up on the object that held the fully occupied encounter: a Bat
against an Orc, the other positions absent. -/
def rematch : CombatSystem := setup_from_parties full_encounter lone_bat lone_orc

/-- A negate registry with one entry: the opponent at index 0 reacts to every damage event,
whoever casts it and whoever is targeted. -/
def guard_all_table : PassiveTable :=
  { count := 1, intent := fun _ => ⟨1, 0, 0, 0⟩, observed_effect_bitmask := fun _ => 1,
    observed_caster_index := fun _ => -1, observed_target_index := fun _ => -1,
    condition := fun _ _ _ _ => true }

/-- The duel in which the Orc holds a negate passive against every damage event. -/
def guarded_duel : CombatSystem :=
  { duel with opponent_negate_table := guard_all_table }

/-- The guarded duel at a moment when the Orc has 150 life left. -/
def weakened_duel : CombatSystem :=
  { guarded_duel with
    opponent_character_table :=
      { guarded_duel.opponent_character_table with
        life := fun i => if i = 0 then 150 else guarded_duel.opponent_character_table.life i } }

/-- A library of passive builders for the examples: every builder queues, through
`push_fast_event`, a secondary event that carries the intent the builder was called with. -/
def recording_library : SkillEnum → PassiveEventBuilder := fun _ =>
  { build := fun _ _ intent s => some (push_fast_event s { Event.zero with intent := intent }) }

/-- The intents of the events on the fast queue, in queue order. -/
def recorded_intents (s : CombatSystem) : List Intent :=
  s.fast_event_queue.event.map Event.intent

/-- A table in which both skill slots of every combatant hold a passive builder. -/
def with_passive_builders (ct : CharacterTable) : CharacterTable :=
  { ct with skills := fun i =>
      { active_event_builder := (ct.skills i).active_event_builder,
        passive_event_builder := fun slot =>
          if slot = 0 ∨ slot = 1 then some SkillEnum.DEMO_ATTACK else none } }

/-- A registry of the opposing side with three entries, all of the opponent at index 0: entry 0
(skill slot 0) and entry 2 (skill slot 1) observe every damage event, entry 1 (skill slot 1)
observes no effect at all. -/
def watch_table : PassiveTable :=
  { count := 3,
    intent := fun i => if i = 0 then ⟨1, 0, 0, 0⟩ else ⟨1, 0, 1, 0⟩,
    observed_effect_bitmask := fun i => if i = 1 then 0 else 1,
    observed_caster_index := fun _ => -1, observed_target_index := fun _ => -1,
    condition := fun _ _ _ _ => true }

/-- The duel in which every skill slot holds a passive builder and the Orc holds `watch_table`
as its intercept registry and as its react registry. -/
def watched_duel : CombatSystem :=
  { duel with
    ally_character_table := with_passive_builders duel.ally_character_table,
    opponent_character_table := with_passive_builders duel.opponent_character_table,
    opponent_intercept_table := watch_table,
    opponent_react_table := watch_table }

/-- An event of the ally at index 0 aimed at board position 3, as declared, without damage. -/
def example_event : Event :=
  { Event.zero with intent := ⟨0, 0, 0, 3⟩, target_bitmask := 8, effect_bitmask := 1 }

/-- The attack of the ally at index 0 on board position 0 as its declare-mode call creates it. -/
def declared_attack : Event :=
  { Event.zero with intent := ⟨0, 0, 0, 0⟩, target_bitmask := 1, effect_bitmask := 1 }

/-- The cleave of the ally at index 0 as its declare-mode call creates it. -/
def declared_cleave : Event :=
  { Event.zero with intent := ⟨0, 0, 1, 0⟩, is_aoe := true, target_bitmask := 31,
                    effect_bitmask := 1 }

/-- The duel at a moment when the Orc has no life left. -/
def fallen_duel : CombatSystem :=
  { duel with
    opponent_character_table :=
      { duel.opponent_character_table with life := fun _ => 0, life_bar := fun _ => 0 } }

/-- A builder for the examples whose resolve mode writes fixed arrays of pending damage. -/
def fixed_damage (other_pos_damage owner_pos_damage : Fin 5 → ℚ) : ActiveEventBuilder where
  declare := fun _owner_ct _other_ct intent => some [{ Event.zero with intent := intent }]
  resolve := fun _owner_ct _other_ct _intent event =>
    some { event with other_pos_damage := other_pos_damage,
                      owner_pos_damage := owner_pos_damage }

/-- The fully occupied encounter at a moment when the opponent at index 1 has 500 life left. -/
def wounded_encounter : CombatSystem :=
  { full_encounter with
    opponent_character_table :=
      { full_encounter.opponent_character_table with
        life := fun i => if i = 1 then 500 else full_encounter.opponent_character_table.life i,
        life_bar := fun i =>
          if i = 1 then 5 / 14 else full_encounter.opponent_character_table.life_bar i } }

/-- An encounter of ten Bats (speed 180 each), as `setup_from_parties` leaves it: every turn bar
is 0. -/
def ten_bats : CombatSystem :=
  setup_from_parties idle_system (fun _ => some bat) (fun _ => some bat)

/-- The ten Bats after the fill by the least step, the binary32 value of `1 / 180`. -/
def ten_bats_filled : Option CombatSystem :=
  (fill (11930465 / 2147483648) ten_bats.ally_character_table).bind fun ally =>
    (fill (11930465 / 2147483648) ten_bats.opponent_character_table).map fun opponent =>
      { ten_bats with ally_character_table := ally, opponent_character_table := opponent }

/-- A character sheet of a Bat whose speed stat is 41. -/
def scout : CharacterSheet :=
  { bat with stats := { bat.stats with spe := 41 } }

/-- A character sheet of an Orc whose speed stat is 30. -/
def porter : CharacterSheet :=
  { orc with stats := { orc.stats with spe := 30 } }

/-- A character sheet of a Bat whose speed stat is 87. -/
def glider : CharacterSheet :=
  { bat with stats := { bat.stats with spe := 87 } }

/-- An encounter of the scout (speed 41) and nine porters (speed 30), as `setup_from_parties`
leaves it. -/
def uneven_encounter : CombatSystem :=
  setup_from_parties idle_system (fun pos => if pos = 0 then some scout else some porter)
    (fun _ => some porter)

/-- The scout (speed 41) alone against a porter (speed 30) alone, each at board position 0, as
`setup_from_parties` leaves it. -/
def uneven_duel : CombatSystem :=
  setup_from_parties idle_system (fun pos => if pos = 0 then some scout else none)
    (fun pos => if pos = 0 then some porter else none)

/-- An Orc (speed 100) alone against a glider (speed 87) alone, each at board position 0, as
`setup_from_parties` leaves it. -/
def glider_duel : CombatSystem :=
  setup_from_parties idle_system lone_orc (fun pos => if pos = 0 then some glider else none)

/-- An encounter of ten Orcs at a moment when the turn bar of the ally at index 0 is `m` and
every other turn bar is 0. -/
def orc_squads (m : ℚ) : CombatSystem :=
  { setup_from_parties idle_system (fun _ => some orc) (fun _ => some orc) with
    ally_character_table :=
      { fill_side zero_table (fun _ => some orc) with
        turn_bar := fun i => if i = 0 then m else 0 } }

/-- The fully occupied encounter at a moment when the turn bar of the ally at index 0, a Bat, is
`13421751 / 67108864` and every other turn bar is 0. -/
def stalled_encounter : CombatSystem :=
  { full_encounter with
    ally_character_table :=
      { full_encounter.ally_character_table with
        turn_bar := fun i => if i = 0 then 13421751 / 67108864 else 0 } }

/-- An encounter of eight Skeletons (speed 140) and two Bats (speed 180), the Bats at the
opposing board positions 3 and 4, as `setup_from_parties` leaves it. -/
def long_encounter : CombatSystem :=
  setup_from_parties idle_system (fun _ => some skeleton)
    (fun pos => if pos = 3 then some bat else if pos = 4 then some bat else some skeleton)

/-- A call of `roll_initiative` followed by 41 calls of `turn` with skill slot 0 and target
position 0, every draw being 0. -/
def long_calls : List Call :=
  [Call.roll_initiative 0, Call.turn 0 0 0, Call.turn 0 0 0, Call.turn 0 0 0, Call.turn 0 0 0,
   Call.turn 0 0 0, Call.turn 0 0 0, Call.turn 0 0 0, Call.turn 0 0 0, Call.turn 0 0 0,
   Call.turn 0 0 0, Call.turn 0 0 0, Call.turn 0 0 0, Call.turn 0 0 0, Call.turn 0 0 0,
   Call.turn 0 0 0, Call.turn 0 0 0, Call.turn 0 0 0, Call.turn 0 0 0, Call.turn 0 0 0,
   Call.turn 0 0 0, Call.turn 0 0 0, Call.turn 0 0 0, Call.turn 0 0 0, Call.turn 0 0 0,
   Call.turn 0 0 0, Call.turn 0 0 0, Call.turn 0 0 0, Call.turn 0 0 0, Call.turn 0 0 0,
   Call.turn 0 0 0, Call.turn 0 0 0, Call.turn 0 0 0, Call.turn 0 0 0, Call.turn 0 0 0,
   Call.turn 0 0 0, Call.turn 0 0 0, Call.turn 0 0 0, Call.turn 0 0 0, Call.turn 0 0 0,
   Call.turn 0 0 0, Call.turn 0 0 0]

/-- A call of `roll_initiative` followed by ten calls of `turn` with skill slot 0 and target
position 0, every draw being 0. -/
def duel_calls : List Call :=
  [Call.roll_initiative 0, Call.turn 0 0 0, Call.turn 0 0 0, Call.turn 0 0 0, Call.turn 0 0 0,
   Call.turn 0 0 0, Call.turn 0 0 0, Call.turn 0 0 0, Call.turn 0 0 0, Call.turn 0 0 0,
   Call.turn 0 0 0]

/-! ## Theorems -/

/-- Values of `f32`: numbers with a 24-bit significand are kept (`1`, `0.5`, `180`,
`16777215 / 16777216`); `1 / 3` and `1 / 180` are rounded to the nearest multiple of the unit in
the last place; a tie goes to the even significand (`1 + 2^-24` down to `1`, `1 + 3 * 2^-24` up
to `1 + 2^-22`); negative numbers round like positive ones; below `2^-126` the unit stays
`2^-149`; and a magnitude that rounds to `2^128` is not finite. -/
theorem f32_examples :
    (f32 1 = some 1 ∧ f32 (1 / 2) = some (1 / 2) ∧ f32 180 = some 180 ∧
      f32 (16777215 / 16777216) = some (16777215 / 16777216)) ∧
    (f32 (1 / 3) = some (11184811 / 33554432) ∧
      f32 (1 / 180) = some (11930465 / 2147483648)) ∧
    (f32 (1 + 1 / 2 ^ 24) = some 1 ∧ f32 (1 + 3 / 2 ^ 24) = some (1 + 1 / 2 ^ 22)) ∧
    f32 (-(1 / 3)) = some (-(11184811 / 33554432)) ∧
    (f32 (3 / 2 ^ 150) = some (1 / 2 ^ 148) ∧ f32 (1 / 2 ^ 150) = some 0) ∧
    (f32 (2 ^ 128 - 2 ^ 104) = some (2 ^ 128 - 2 ^ 104) ∧ f32 (2 ^ 128 - 2 ^ 103) = none ∧
      f32 (2 ^ 128) = none) := by
  refine ⟨⟨by decide!, by decide!, by decide!, by decide!⟩, ⟨by decide!, by decide!⟩,
    ⟨by decide!, by decide!⟩, by decide!, ⟨by decide!, by decide!⟩,
    ⟨by decide!, by decide!, by decide!⟩⟩

/-- An invariant of the accumulator is kept by a fold in `Option` that returns. -/
theorem foldlM_option_invariant {α β : Type} (f : β → α → Option β) (P : β → Prop)
    (hf : ∀ b a b', P b → f b a = some b' → P b') :
    ∀ (l : List α) (b b' : β), P b → l.foldlM f b = some b' → P b' := by
  intro l
  induction l with
  | nil =>
    intro b b' hb h
    simp at h
    subst h
    exact hb
  | cons a l ih =>
    intro b b' hb h
    simp only [List.foldlM_cons, Option.bind_eq_bind, Option.bind_eq_some] at h
    obtain ⟨b1, h1, h2⟩ := h
    exact ih b1 b' (hf b a b1 hb h1) h2

/-- A fold in `Option` returns when every step returns on accumulators satisfying an invariant
that the steps keep. -/
theorem foldlM_option_total {α β : Type} (f : β → α → Option β) (P : β → Prop)
    (hf : ∀ b a, P b → ∃ b', f b a = some b' ∧ P b') :
    ∀ (l : List α) (b : β), P b → ∃ b', l.foldlM f b = some b' ∧ P b' := by
  intro l
  induction l with
  | nil =>
    intro b hb
    exact ⟨b, by simp, hb⟩
  | cons a l ih =>
    intro b hb
    obtain ⟨b1, h1, hb1⟩ := hf b a hb
    obtain ⟨b2, h2, hb2⟩ := ih b1 hb1
    exact ⟨b2, by simp [h1, h2], hb2⟩

/-- The damage block returns exactly when the maximum life of the slot is not zero. -/
theorem damage_slot_eq_some (ct : CharacterTable) (index : Fin 5) (damage : ℚ)
    (h : ct.lp index ≠ 0) : ∃ ct', damage_slot ct index damage = some ct' := by
  simp [damage_slot, h]

/-- With a positive maximum, the clamped life lies within `[0, lp]`. -/
theorem clamp_life_mem (life lp : ℚ) (hlp : 0 < lp) :
    0 ≤ clamp_life life lp ∧ clamp_life life lp ≤ lp := by
  simp only [clamp_life]
  constructor
  · split_ifs with h1 h2 h3
    · exact le_of_lt hlp
    · exact le_refl _
    · exact le_of_lt hlp
    · exact le_of_not_lt h1
  · split_ifs with h1 h2 h3
    · exact le_refl _
    · exact le_of_lt hlp
    · exact le_refl _
    · exact le_of_not_lt h3

/-- The damage block keeps the life of every slot within `[0, lp]`. -/
theorem damage_slot_life_clamped (ct ct' : CharacterTable) (index : Fin 5) (damage : ℚ)
    (hct : LifeClamped ct) (h : damage_slot ct index damage = some ct') : LifeClamped ct' := by
  unfold damage_slot at h
  have hlp := (hct index).1
  simp only [ne_of_gt hlp, if_false, Option.some.injEq] at h
  subst h
  intro i
  by_cases hi : i = index
  · subst hi
    simp only [Function.update_same]
    exact ⟨hlp, clamp_life_mem _ _ hlp⟩
  · simp only [Function.update_noteq hi]
    exact hct i

/-- A damage block keeps `LifeClamped`. -/
theorem damage_step_life_clamped (d : Fin 5 → ℚ) (ct ct' : CharacterTable) (pos : Fin 5)
    (hct : LifeClamped ct) (h : damage_step d ct pos = some ct') : LifeClamped ct' := by
  unfold damage_step at h
  split_ifs at h with hd
  · exact damage_slot_life_clamped _ _ _ _ hct h
  · simp only [Option.some.injEq] at h
    subst h
    exact hct

/-- A damage block returns on a table satisfying `LifeClamped`. -/
theorem damage_step_total (d : Fin 5 → ℚ) (ct : CharacterTable) (pos : Fin 5)
    (hlp : ∀ i, ct.lp i ≠ 0) : ∃ ct', damage_step d ct pos = some ct' := by
  unfold damage_step
  split_ifs
  · exact damage_slot_eq_some _ _ _ (hlp _)
  · exact ⟨_, rfl⟩

/-- One iteration of the damage loop keeps `LifeClamped` on both tables. -/
theorem apply_damage_life_clamped (e : Event) (cts cts' : CharacterTable × CharacterTable)
    (pos : Fin 5) (hcts : LifeClamped cts.1 ∧ LifeClamped cts.2)
    (h : apply_damage e cts pos = some cts') : LifeClamped cts'.1 ∧ LifeClamped cts'.2 := by
  unfold apply_damage at h
  simp only [Option.bind_eq_some] at h
  obtain ⟨other', h1, owner', h2, h3⟩ := h
  simp only [Option.some.injEq] at h3
  subst h3
  exact ⟨damage_step_life_clamped _ _ _ _ hcts.1 h2, damage_step_life_clamped _ _ _ _ hcts.2 h1⟩

/-- One iteration of the damage loop returns on tables satisfying `LifeClamped`. -/
theorem apply_damage_total (e : Event) (cts : CharacterTable × CharacterTable) (pos : Fin 5)
    (hcts : LifeClamped cts.1 ∧ LifeClamped cts.2) :
    ∃ cts', apply_damage e cts pos = some cts' ∧ LifeClamped cts'.1 ∧ LifeClamped cts'.2 := by
  obtain ⟨o1, ho1⟩ := damage_step_total e.other_pos_damage cts.2 pos
    (fun i => ne_of_gt (hcts.2 i).1)
  obtain ⟨o2, ho2⟩ := damage_step_total e.owner_pos_damage cts.1 pos
    (fun i => ne_of_gt (hcts.1 i).1)
  have h : apply_damage e cts pos = some (o2, o1) := by simp [apply_damage, ho1, ho2]
  exact ⟨(o2, o1), h, apply_damage_life_clamped e cts _ pos hcts h⟩

/-- The tables chosen by a team index satisfy `LifeClamped` when both tables of the state do. -/
theorem life_clamped_owner_other (s : CombatSystem) (t : Int) (h : LifeInvariant s) :
    LifeClamped (owner_table s t) ∧ LifeClamped (other_table s t) := by
  unfold owner_table other_table
  split_ifs
  · exact ⟨h.1, h.2⟩
  · exact ⟨h.2, h.1⟩

/-- Writing back two tables that satisfy `LifeClamped` gives a state with the invariant. -/
theorem life_invariant_set_tables (s : CombatSystem) (t : Int) (a b : CharacterTable)
    (ha : LifeClamped a) (hb : LifeClamped b) : LifeInvariant (set_tables s t a b) := by
  unfold set_tables LifeInvariant
  split_ifs
  · exact ⟨ha, hb⟩
  · exact ⟨hb, ha⟩

/-- C1. Life clamping invariant: when every slot of both tables has a positive maximum life and
a life within `[0, lp]`, then for every builder library and every event, `resolve_event` keeps
this on every slot of both tables.  A negated event returns the state as it is; for a
non-negated event the call returns whenever the resolve-mode builder call does, whatever pending
damage the builder wrote. -/
theorem C1_resolve_event_life_clamped (lib : SkillEnum → ActiveEventBuilder) (s : CombatSystem)
    (e : Event) (hs : LifeInvariant s) :
    (∀ s' e', resolve_event lib s e = some (s', e') → LifeInvariant s') ∧
    (e.is_negated = true → resolve_event lib s e = some (s, e)) ∧
    (e.is_negated = false → ∀ e1, resolve_builder lib s e = some e1 →
      ∃ s', resolve_event lib s e = some (s', e1) ∧ LifeInvariant s') := by
  have hoo := life_clamped_owner_other s e.intent.owner_team_index hs
  refine ⟨?_, ?_, ?_⟩
  · intro s' e' h
    unfold resolve_event at h
    split_ifs at h with hn
    · simp only [Option.some.injEq, Prod.mk.injEq] at h
      rw [← h.1]
      exact hs
    · simp only [Option.bind_eq_bind, Option.bind_eq_some, Option.some.injEq,
        Prod.mk.injEq] at h
      obtain ⟨e1, -, cts, hfold, hs', -⟩ := h
      have hinv := foldlM_option_invariant (apply_damage e1)
        (fun c => LifeClamped c.1 ∧ LifeClamped c.2)
        (fun b a b' hb hf => apply_damage_life_clamped e1 b b' a hb hf) positions _ cts hoo hfold
      rw [← hs']
      exact life_invariant_set_tables s _ _ _ hinv.1 hinv.2
  · intro hn
    simp [resolve_event, hn]
  · intro hn e1 he1
    obtain ⟨cts, hfold, hinv⟩ := foldlM_option_total (apply_damage e1)
      (fun c => LifeClamped c.1 ∧ LifeClamped c.2)
      (fun b a hb => apply_damage_total e1 b a hb) positions
      (owner_table s e.intent.owner_team_index, other_table s e.intent.owner_team_index) hoo
    refine ⟨set_tables s e.intent.owner_team_index cts.1 cts.2, ?_, ?_⟩
    · simp [resolve_event, hn, he1, hfold]
    · exact life_invariant_set_tables s _ _ _ hinv.1 hinv.2

/-- The damage block changes the life and the life bar of its slot and nothing else. -/
theorem damage_slot_spec (ct ct' : CharacterTable) (index : Fin 5) (damage : ℚ)
    (h : damage_slot ct index damage = some ct') :
    ct' = { ct with
      life := Function.update ct.life index
        (clamp_life (ct.life index - damage) (ct.lp index)),
      life_bar := Function.update ct.life_bar index
        (clamp_life (ct.life index - damage) (ct.lp index) / ct.lp index) } := by
  unfold damage_slot at h
  split_ifs at h with h0
  simp only [Option.some.injEq] at h
  exact h.symm

/-- The damage loop on one table whose position map is injective: only `life` and `life_bar`
change; a slot whose position carries positive damage gets the clamped difference, and a slot
whose position carries none keeps its values. -/
theorem damage_fold_spec (d : Fin 5 → ℚ) :
    ∀ (l : List (Fin 5)) (ct ct' : CharacterTable), l.Nodup →
      Function.Injective ct.pos_to_index → l.foldlM (damage_step d) ct = some ct' →
      ct' = { ct with life := ct'.life, life_bar := ct'.life_bar } ∧
      (∀ pos ∈ l, 0 < d pos →
        ct'.life (ct.pos_to_index pos) =
          clamp_life (ct.life (ct.pos_to_index pos) - d pos) (ct.lp (ct.pos_to_index pos)) ∧
        ct'.life_bar (ct.pos_to_index pos) =
          clamp_life (ct.life (ct.pos_to_index pos) - d pos) (ct.lp (ct.pos_to_index pos)) /
            ct.lp (ct.pos_to_index pos)) ∧
      (∀ i, (∀ pos ∈ l, 0 < d pos → ct.pos_to_index pos ≠ i) →
        ct'.life i = ct.life i ∧ ct'.life_bar i = ct.life_bar i) := by
  intro l
  induction l with
  | nil =>
    intro ct ct' _ _ h
    simp only [List.foldlM_nil, Option.pure_def, Option.some.injEq] at h
    subst h
    simp
  | cons a l ih =>
    intro ct ct' hnd hinj h
    simp only [List.foldlM_cons, Option.bind_eq_bind, Option.bind_eq_some] at h
    obtain ⟨ct1, h1, h2⟩ := h
    have hnd' := (List.nodup_cons.mp hnd)
    -- the first step
    have hstep : ct1 = ct ∧ ¬ 0 < d a ∨ (0 < d a ∧ ct1 = { ct with
        life := Function.update ct.life (ct.pos_to_index a)
          (clamp_life (ct.life (ct.pos_to_index a) - d a) (ct.lp (ct.pos_to_index a))),
        life_bar := Function.update ct.life_bar (ct.pos_to_index a)
          (clamp_life (ct.life (ct.pos_to_index a) - d a) (ct.lp (ct.pos_to_index a)) /
            ct.lp (ct.pos_to_index a)) }) := by
      unfold damage_step at h1
      split_ifs at h1 with hd
      · exact Or.inr ⟨hd, damage_slot_spec _ _ _ _ h1⟩
      · simp only [Option.some.injEq] at h1
        exact Or.inl ⟨h1.symm, hd⟩
    have hp1 : ct1.pos_to_index = ct.pos_to_index := by
      rcases hstep with ⟨h, -⟩ | ⟨-, h⟩ <;> rw [h]
    have hlp1 : ct1.lp = ct.lp := by
      rcases hstep with ⟨h, -⟩ | ⟨-, h⟩ <;> rw [h]
    have hinj1 : Function.Injective ct1.pos_to_index := by rw [hp1]; exact hinj
    obtain ⟨hframe, hdam, hkeep⟩ := ih ct1 ct' hnd'.2 hinj1 h2
    rw [hp1, hlp1] at hdam
    rw [hp1] at hkeep
    refine ⟨?_, ?_, ?_⟩
    · rw [hframe]
      rcases hstep with ⟨h, -⟩ | ⟨-, h⟩ <;> rw [h]
    · intro pos hpos hd
      rcases List.mem_cons.mp hpos with hpa | hpl
      · subst hpa
        have hk := hkeep (ct.pos_to_index pos) (fun q hq _ hqa =>
          hnd'.1 (by rw [← hinj hqa]; exact hq))
        rcases hstep with ⟨-, hnd0⟩ | ⟨-, h⟩
        · exact absurd hd hnd0
        · rw [hk.1, hk.2, h]
          simp
      · have hne : ct.pos_to_index pos ≠ ct.pos_to_index a := by
          intro hc
          have := hinj hc
          subst this
          exact hnd'.1 hpl
        have := hdam pos hpl hd
        rcases hstep with ⟨h, -⟩ | ⟨-, h⟩
        · rw [h] at this
          exact this
        · rw [h] at this
          simpa [Function.update_noteq hne] using this
    · intro i hi
      have hk := hkeep i (fun q hq hdq => hi q (List.mem_cons_of_mem _ hq) hdq)
      rw [hk.1, hk.2]
      rcases hstep with ⟨h, -⟩ | ⟨hd, h⟩
      · rw [h]
        exact ⟨rfl, rfl⟩
      · have hne : i ≠ ct.pos_to_index a := fun hc =>
          hi a (List.mem_cons_self _ _) hd hc.symm
        rw [h]
        simp [Function.update_noteq hne]

/-- The damage loop on the pair of tables is the damage loop on each table. -/
theorem apply_damage_fold (e : Event) :
    ∀ (l : List (Fin 5)) (cts cts' : CharacterTable × CharacterTable),
      l.foldlM (apply_damage e) cts = some cts' →
      l.foldlM (damage_step e.owner_pos_damage) cts.1 = some cts'.1 ∧
      l.foldlM (damage_step e.other_pos_damage) cts.2 = some cts'.2 := by
  intro l
  induction l with
  | nil =>
    intro cts cts' h
    simp only [List.foldlM_nil, Option.pure_def, Option.some.injEq] at h
    subst h
    simp
  | cons a l ih =>
    intro cts cts' h
    simp only [List.foldlM_cons, Option.bind_eq_bind, Option.bind_eq_some] at h
    obtain ⟨c1, h1, h2⟩ := h
    unfold apply_damage at h1
    simp only [Option.bind_eq_some, Option.some.injEq] at h1
    obtain ⟨o1, ho1, o2, ho2, hc⟩ := h1
    subst hc
    have := ih _ _ h2
    simp only [List.foldlM_cons, Option.bind_eq_bind, ho1, ho2, Option.some_bind]
    exact this

/-- The damage loop returns when no slot of either table has a zero maximum life. -/
theorem apply_damage_fold_total (e : Event) :
    ∀ (l : List (Fin 5)) (cts : CharacterTable × CharacterTable),
      (∀ i, cts.1.lp i ≠ 0) → (∀ i, cts.2.lp i ≠ 0) →
      ∃ cts', l.foldlM (apply_damage e) cts = some cts' := by
  intro l cts h1 h2
  have := foldlM_option_total (apply_damage e)
    (fun c => (∀ i, c.1.lp i ≠ 0) ∧ (∀ i, c.2.lp i ≠ 0)) ?_ l cts ⟨h1, h2⟩
  · obtain ⟨c, hc, -⟩ := this
    exact ⟨c, hc⟩
  · intro b a hb
    obtain ⟨o1, ho1⟩ := damage_step_total e.other_pos_damage b.2 a hb.2
    obtain ⟨o2, ho2⟩ := damage_step_total e.owner_pos_damage b.1 a hb.1
    refine ⟨(o2, o1), by simp [apply_damage, ho1, ho2], ?_, ?_⟩
    · have : o2.lp = b.1.lp := by
        unfold damage_step at ho2
        split_ifs at ho2
        · rw [damage_slot_spec _ _ _ _ ho2]
        · simp only [Option.some.injEq] at ho2
          rw [ho2]
      simpa [this] using hb.1
    · have : o1.lp = b.2.lp := by
        unfold damage_step at ho1
        split_ifs at ho1
        · rw [damage_slot_spec _ _ _ _ ho1]
        · simp only [Option.some.injEq] at ho1
          rw [ho1]
      simpa [this] using hb.2

/-- The loop positions are pairwise distinct. -/
theorem positions_nodup : positions.Nodup := by decide

/-- Every board position is visited by the loops. -/
theorem mem_positions (pos : Fin 5) : pos ∈ positions := by
  fin_cases pos <;> simp [positions]

/-- Below the maximum and with a positive damage, clamping is the maximum with zero. -/
theorem clamp_life_eq_max (life lp d : ℚ) (hlp : 0 < lp) (hle : life ≤ lp) (hd : 0 < d) :
    clamp_life (life - d) lp = max 0 (life - d) := by
  simp only [clamp_life]
  rcases lt_or_le (life - d) 0 with h | h
  · rw [if_pos h, if_neg (not_lt.mpr (le_of_lt hlp)), max_eq_left (le_of_lt h)]
  · rw [if_neg (not_lt.mpr h), if_neg (by linarith), max_eq_right h]

/-- Reading the owner table after writing both tables back. -/
theorem owner_table_set_tables (s : CombatSystem) (t : Int) (a b : CharacterTable) :
    owner_table (set_tables s t a b) t = a := by
  unfold owner_table set_tables
  split_ifs <;> rfl

/-- Reading the other table after writing both tables back. -/
theorem other_table_set_tables (s : CombatSystem) (t : Int) (a b : CharacterTable) :
    other_table (set_tables s t a b) t = b := by
  unfold other_table set_tables
  split_ifs <;> rfl

/-- The tables chosen by a team index have injective position maps when both tables do. -/
theorem injective_owner_other (s : CombatSystem) (t : Int)
    (ha : Function.Injective s.ally_character_table.pos_to_index)
    (ho : Function.Injective s.opponent_character_table.pos_to_index) :
    Function.Injective (owner_table s t).pos_to_index ∧
    Function.Injective (other_table s t).pos_to_index := by
  unfold owner_table other_table
  split_ifs
  · exact ⟨ha, ho⟩
  · exact ⟨ho, ha⟩

/-- What `resolve_event` returns for a non-negated event: the event is the output of the
resolve-mode builder call, and the tables are those of the damage loop. -/
theorem resolve_event_eq_some (lib : SkillEnum → ActiveEventBuilder) (s s' : CombatSystem)
    (e e' : Event) (hneg : e.is_negated = false) (h : resolve_event lib s e = some (s', e')) :
    resolve_builder lib s e = some e' ∧
    ∃ cts, positions.foldlM (apply_damage e')
      (owner_table s e.intent.owner_team_index, other_table s e.intent.owner_team_index)
        = some cts ∧
      s' = set_tables s e.intent.owner_team_index cts.1 cts.2 := by
  unfold resolve_event at h
  simp only [hneg, Bool.false_eq_true, if_false, Option.bind_eq_bind, Option.bind_eq_some,
    Option.some.injEq, Prod.mk.injEq] at h
  obtain ⟨e1, he1, cts, hfold, hs', hee⟩ := h
  subst hee
  exact ⟨he1, cts, hfold, hs'.symm⟩

/-- C2. Damage application postcondition: for a non-negated event on tables with injective
position maps, whenever `resolve_event` returns, its event `e'` is the output of the resolve-mode
builder call and, for every board position whose pending damage in `e'` is positive and whose slot
has `0 < lp` and `life ≤ lp`, the slot of the opposing table ends with life
`max 0 (life - d)` and life bar `(new life) / lp`; the same holds on the owner's table for
`owner_pos_damage`.  The call returns whenever the builder call does and no maximum life is 0. -/
theorem C2_resolve_event_damage (lib : SkillEnum → ActiveEventBuilder) (s : CombatSystem)
    (e : Event) (hneg : e.is_negated = false)
    (hally : Function.Injective s.ally_character_table.pos_to_index)
    (hopp : Function.Injective s.opponent_character_table.pos_to_index) :
    (∀ s' e', resolve_event lib s e = some (s', e') →
      resolve_builder lib s e = some e' ∧
      ∀ pos : Fin 5,
        DamageApplied (other_table s e.intent.owner_team_index)
          (other_table s' e.intent.owner_team_index) pos (e'.other_pos_damage pos) ∧
        DamageApplied (owner_table s e.intent.owner_team_index)
          (owner_table s' e.intent.owner_team_index) pos (e'.owner_pos_damage pos)) ∧
    (∀ e', resolve_builder lib s e = some e' →
      (∀ i, s.ally_character_table.lp i ≠ 0) → (∀ i, s.opponent_character_table.lp i ≠ 0) →
      ∃ s', resolve_event lib s e = some (s', e')) := by
  obtain ⟨hio, hit⟩ := injective_owner_other s e.intent.owner_team_index hally hopp
  constructor
  · intro s' e' h
    obtain ⟨he', cts, hfold, hs'⟩ := resolve_event_eq_some lib s s' e e' hneg h
    refine ⟨he', ?_⟩
    obtain ⟨hf1, hf2⟩ := apply_damage_fold e' positions _ cts hfold
    obtain ⟨hfr1, hd1, -⟩ := damage_fold_spec e'.owner_pos_damage positions _ _
      positions_nodup hio hf1
    obtain ⟨hfr2, hd2, -⟩ := damage_fold_spec e'.other_pos_damage positions _ _
      positions_nodup hit hf2
    intro pos
    subst hs'
    rw [owner_table_set_tables, other_table_set_tables]
    unfold DamageApplied
    constructor
    · intro hd hlp hle
      obtain ⟨hl, hb⟩ := hd2 pos (mem_positions pos) hd
      rw [hb, hl, clamp_life_eq_max _ _ _ hlp hle hd]
      exact ⟨rfl, rfl⟩
    · intro hd hlp hle
      obtain ⟨hl, hb⟩ := hd1 pos (mem_positions pos) hd
      rw [hb, hl, clamp_life_eq_max _ _ _ hlp hle hd]
      exact ⟨rfl, rfl⟩
  · intro e' he' hla hlo
    have hl : (∀ i, (owner_table s e.intent.owner_team_index).lp i ≠ 0) ∧
        (∀ i, (other_table s e.intent.owner_team_index).lp i ≠ 0) := by
      unfold owner_table other_table
      split_ifs
      · exact ⟨hla, hlo⟩
      · exact ⟨hlo, hla⟩
    obtain ⟨cts, hcts⟩ := apply_damage_fold_total e' positions
      (owner_table s e.intent.owner_team_index, other_table s e.intent.owner_team_index)
      hl.1 hl.2
    exact ⟨set_tables s e.intent.owner_team_index cts.1 cts.2, by
      simp [resolve_event, hneg, he', hcts]⟩

/-- C1 at a concrete input: the fully occupied encounter and an attack of the ally at index 0 on
board position 3. -/
theorem C1_witness :
    LifeInvariant full_encounter ∧
    ((∀ s' e', resolve_event (skill_library example_aliases) full_encounter example_event
        = some (s', e') → LifeInvariant s') ∧
     (example_event.is_negated = true →
        resolve_event (skill_library example_aliases) full_encounter example_event
          = some (full_encounter, example_event)) ∧
     (example_event.is_negated = false → ∀ e1,
        resolve_builder (skill_library example_aliases) full_encounter example_event = some e1 →
        ∃ s', resolve_event (skill_library example_aliases) full_encounter example_event
          = some (s', e1) ∧ LifeInvariant s')) :=
  ⟨by decide!, C1_resolve_event_life_clamped (skill_library example_aliases) full_encounter
    example_event (by decide!)⟩

/-- C2 at a concrete input: the fully occupied encounter and an attack of the ally at index 0 on
board position 3. -/
theorem C2_witness :
    example_event.is_negated = false ∧
    Function.Injective full_encounter.ally_character_table.pos_to_index ∧
    Function.Injective full_encounter.opponent_character_table.pos_to_index ∧
    ((∀ s' e', resolve_event (skill_library example_aliases) full_encounter example_event
        = some (s', e') →
      resolve_builder (skill_library example_aliases) full_encounter example_event = some e' ∧
      ∀ pos : Fin 5,
        DamageApplied (other_table full_encounter example_event.intent.owner_team_index)
          (other_table s' example_event.intent.owner_team_index) pos
          (e'.other_pos_damage pos) ∧
        DamageApplied (owner_table full_encounter example_event.intent.owner_team_index)
          (owner_table s' example_event.intent.owner_team_index) pos
          (e'.owner_pos_damage pos)) ∧
     (∀ e', resolve_builder (skill_library example_aliases) full_encounter example_event
        = some e' →
      (∀ i, full_encounter.ally_character_table.lp i ≠ 0) →
      (∀ i, full_encounter.opponent_character_table.lp i ≠ 0) →
      ∃ s', resolve_event (skill_library example_aliases) full_encounter example_event
        = some (s', e'))) :=
  ⟨rfl, by decide!, by decide!,
    C2_resolve_event_damage (skill_library example_aliases) full_encounter example_event rfl
      (by decide!) (by decide!)⟩

/-- Recording keeps `Fresh`, and keeps a non-empty candidate list non-empty. -/
theorem record_candidate_fresh (st st' : ScanState) (c : Intent) (spe : ℚ)
    (h : record_candidate st c spe = some st') (hst : st.Fresh) :
    st'.Fresh ∧ (st.candidates ≠ [] → st'.candidates ≠ []) := by
  unfold record_candidate at h
  split_ifs at h with h1 h2 h3
  · simp only [Option.some.injEq] at h
    subst h
    exact ⟨fun hc => absurd hc (by simp), fun _ => by simp⟩
  · simp only [Option.some.injEq] at h
    subst h
    exact ⟨fun hc => absurd hc (by simp), fun _ => by simp⟩
  · simp only [Option.some.injEq] at h
    subst h
    exact ⟨hst, id⟩

/-- Recording a combatant whose speed is at least `-1` leaves a non-empty candidate list. -/
theorem record_candidate_ne_nil (st st' : ScanState) (c : Intent) (spe : ℚ)
    (h : record_candidate st c spe = some st') (hst : st.Fresh) (hspe : -1 ≤ spe) :
    st'.candidates ≠ [] := by
  unfold record_candidate at h
  split_ifs at h with h1 h2 h3
  · simp only [Option.some.injEq] at h
    subst h
    simp
  · simp only [Option.some.injEq] at h
    subst h
    simp
  · simp only [Option.some.injEq] at h
    subst h
    intro hc
    have := hst hc
    rcases lt_trichotomy spe st.highest_speed with hlt | heq | hgt
    · rw [this] at hlt
      exact absurd hspe (not_le.mpr hlt)
    · exact h2 heq
    · exact h1 hgt

/-- The loop of `scan_fastest` over a list of entries: `Fresh` is kept, a non-empty candidate
list stays non-empty, and a valid entry in the list whose reactor has a speed of at least `-1`
leaves the candidate list non-empty. -/
theorem scan_fastest_fold (owner_ct other_ct : CharacterTable) (pt : PassiveTable) (e : Event) :
    ∀ (l : List Nat) (st st' : ScanState), st.Fresh →
      l.foldlM (scan_fastest_step owner_ct other_ct pt e) st = some st' →
      st'.Fresh ∧ (st.candidates ≠ [] → st'.candidates ≠ []) ∧
      ((∃ i ∈ l, ∃ j, passive_is_valid owner_ct other_ct pt e i = some true ∧
          idx5 (pt.intent i).owner_index = some j ∧ -1 ≤ other_ct.spe j) →
        st'.candidates ≠ []) := by
  intro l
  induction l with
  | nil =>
    intro st st' hst h
    simp only [List.foldlM_nil, Option.pure_def, Option.some.injEq] at h
    subst h
    exact ⟨hst, id, fun ⟨i, hi, _⟩ => absurd hi (List.not_mem_nil i)⟩
  | cons a l ih =>
    intro st st' hst h
    simp only [List.foldlM_cons, Option.bind_eq_bind, Option.bind_eq_some] at h
    obtain ⟨st1, h1, h2⟩ := h
    unfold scan_fastest_step at h1
    simp only [Option.bind_eq_bind, Option.bind_eq_some] at h1
    obtain ⟨valid, hvalid, h1⟩ := h1
    cases valid with
    | false =>
      simp only [Bool.false_eq_true, if_false, Option.some.injEq] at h1
      subst h1
      obtain ⟨hf, hne, hex⟩ := ih st st' hst h2
      refine ⟨hf, hne, ?_⟩
      rintro ⟨i, hi, j, hv, hj, hs⟩
      rcases List.mem_cons.mp hi with hia | hil
      · subst hia
        rw [hvalid] at hv
        simp at hv
      · exact hex ⟨i, hil, j, hv, hj, hs⟩
    | true =>
      simp only [if_true, Option.bind_eq_some] at h1
      obtain ⟨j0, hj0, hrec⟩ := h1
      obtain ⟨hf1, hne1⟩ := record_candidate_fresh _ _ _ _ hrec hst
      obtain ⟨hf, hne, hex⟩ := ih st1 st' hf1 h2
      refine ⟨hf, fun hc => hne (hne1 hc), ?_⟩
      rintro ⟨i, hi, j, hv, hj, hs⟩
      rcases List.mem_cons.mp hi with hia | hil
      · subst hia
        rw [hj0] at hj
        simp only [Option.some.injEq] at hj
        subst hj
        exact hne (record_candidate_ne_nil _ _ _ _ hrec hst hs)
      · exact hex ⟨i, hil, j, hv, hj, hs⟩

/-- Recording adds at most one candidate, and returns while fewer than eight are recorded. -/
theorem record_candidate_total (st : ScanState) (c : Intent) (spe : ℚ)
    (h : st.candidates.length < 8) :
    ∃ st', record_candidate st c spe = some st' ∧
      st'.candidates.length ≤ st.candidates.length + 1 := by
  unfold record_candidate
  split_ifs with h1 h2
  · exact ⟨_, rfl, by simp⟩
  · exact ⟨_, rfl, by simp⟩
  · exact ⟨_, rfl, by simp⟩

/-- The loop of `scan_fastest` returns when `passive_is_valid` is defined on every entry of the
list and the candidate array has room for all of them. -/
theorem scan_fastest_fold_total (owner_ct other_ct : CharacterTable) (pt : PassiveTable)
    (e : Event) :
    ∀ (l : List Nat) (st : ScanState),
      (∀ i ∈ l, passive_is_valid owner_ct other_ct pt e i ≠ none) →
      st.candidates.length + l.length ≤ 8 →
      ∃ st', l.foldlM (scan_fastest_step owner_ct other_ct pt e) st = some st' := by
  intro l
  induction l with
  | nil =>
    intro st _ _
    exact ⟨st, rfl⟩
  | cons a l ih =>
    intro st hdef hlen
    simp only [List.length_cons] at hlen
    have hstep : ∃ st1, scan_fastest_step owner_ct other_ct pt e st a = some st1 ∧
        st1.candidates.length ≤ st.candidates.length + 1 := by
      unfold scan_fastest_step
      cases hv : passive_is_valid owner_ct other_ct pt e a with
      | none => exact absurd hv (hdef a (List.mem_cons_self _ _))
      | some valid =>
        cases valid with
        | false => exact ⟨st, by simp, by omega⟩
        | true =>
          have hidx : ∃ j, idx5 (pt.intent a).owner_index = some j := by
            unfold passive_is_valid at hv
            cases hj : idx5 (pt.intent a).owner_index with
            | none => simp [hj] at hv
            | some j => exact ⟨j, rfl⟩
          obtain ⟨j, hj⟩ := hidx
          obtain ⟨st1, h1, h2⟩ := record_candidate_total st (pt.intent a) (other_ct.spe j)
            (by omega)
          exact ⟨st1, by simp [hj, h1], h2⟩
    obtain ⟨st1, h1, h2⟩ := hstep
    obtain ⟨st', h'⟩ := ih st1 (fun i hi => hdef i (List.mem_cons_of_mem _ hi)) (by omega)
    exact ⟨st', by simp [h1, h']⟩

/-- A negated event is returned by `resolve_event` together with the unchanged state. -/
theorem resolve_event_negated (lib : SkillEnum → ActiveEventBuilder) (s : CombatSystem)
    (e : Event) (h : e.is_negated = true) : resolve_event lib s e = some (s, e) := by
  simp [resolve_event, h]

/-- Consuming a turn bar changes no `life` and no `life_bar`. -/
theorem consume_turn_bar_life (s : CombatSystem) (t : Int) (i : Fin 5) :
    (consume_turn_bar s t i).ally_character_table.life = s.ally_character_table.life ∧
    (consume_turn_bar s t i).ally_character_table.life_bar = s.ally_character_table.life_bar ∧
    (consume_turn_bar s t i).opponent_character_table.life
      = s.opponent_character_table.life ∧
    (consume_turn_bar s t i).opponent_character_table.life_bar
      = s.opponent_character_table.life_bar := by
  unfold consume_turn_bar
  split_ifs <;> exact ⟨rfl, rfl, rfl, rfl⟩

/-- C3 (amended). Negation is decided by the negate pass, which `turn` does not run: when an
entry of the opposing negate registry is valid for an event `e` and its reactor has a
non-negative speed, `get_negate` flags `e` as negated (and returns when the registry has at most
eight entries on all of which `passive_is_valid` is defined), and `resolve_events` on the flagged
event leaves the life and the life bar of every slot of both tables unchanged. -/
theorem C3_negate_then_resolve (lib : SkillEnum → ActiveEventBuilder) (s : CombatSystem)
    (e : Event) (i : Nat) (j : Fin 5)
    (hi : i < (other_negate_table s e.intent.owner_team_index).count)
    (hvalid : passive_is_valid (owner_table s e.intent.owner_team_index)
      (other_table s e.intent.owner_team_index)
      (other_negate_table s e.intent.owner_team_index) e i = some true)
    (hj : idx5 ((other_negate_table s e.intent.owner_team_index).intent i).owner_index = some j)
    (hspe : 0 ≤ (other_table s e.intent.owner_team_index).spe j) :
    (∀ flag e1, get_negate (owner_table s e.intent.owner_team_index)
        (other_table s e.intent.owner_team_index)
        (other_negate_table s e.intent.owner_team_index) e = some (flag, e1) →
      flag = true ∧ e1 = { e with is_negated := true }) ∧
    (∀ k, idx5 s.main_intent.owner_index = some k →
      ∃ s', resolve_events lib s { e with is_negated := true }
          = some (s', { e with is_negated := true }) ∧
        s'.ally_character_table.life = s.ally_character_table.life ∧
        s'.ally_character_table.life_bar = s.ally_character_table.life_bar ∧
        s'.opponent_character_table.life = s.opponent_character_table.life ∧
        s'.opponent_character_table.life_bar = s.opponent_character_table.life_bar) ∧
    ((other_negate_table s e.intent.owner_team_index).count ≤ 8 →
      (∀ n < (other_negate_table s e.intent.owner_team_index).count,
        passive_is_valid (owner_table s e.intent.owner_team_index)
          (other_table s e.intent.owner_team_index)
          (other_negate_table s e.intent.owner_team_index) e n ≠ none) →
      get_negate (owner_table s e.intent.owner_team_index)
        (other_table s e.intent.owner_team_index)
        (other_negate_table s e.intent.owner_team_index) e
        = some (true, { e with is_negated := true })) := by
  have hflag : ∀ flag e1, get_negate (owner_table s e.intent.owner_team_index)
        (other_table s e.intent.owner_team_index)
        (other_negate_table s e.intent.owner_team_index) e = some (flag, e1) →
      flag = true ∧ e1 = { e with is_negated := true } := by
    intro flag e1 h
    unfold get_negate scan_fastest at h
    simp only [Option.bind_eq_bind, Option.bind_eq_some] at h
    obtain ⟨found, ⟨st, hfold, hfound⟩, h⟩ := h
    have hst := (scan_fastest_fold _ _ _ e _ ScanState.init st
      (fun _ => rfl) hfold).2.2 ⟨i, List.mem_range.mpr hi, j, hvalid, hj, by linarith⟩
    have hlen : st.candidates.length ≠ 0 := fun hc => hst (List.length_eq_zero.mp hc)
    simp only [hlen, if_false, Option.some.injEq] at hfound
    subst hfound
    simp only [Bool.not_true, Bool.false_eq_true, if_false, Option.some.injEq,
      Prod.mk.injEq] at h
    exact ⟨h.1.symm, h.2.symm⟩
  refine ⟨hflag, ?_, ?_⟩
  swap
  · intro hcount hdef
    obtain ⟨st, hst⟩ := scan_fastest_fold_total (owner_table s e.intent.owner_team_index)
      (other_table s e.intent.owner_team_index)
      (other_negate_table s e.intent.owner_team_index) e
      (List.range (other_negate_table s e.intent.owner_team_index).count) ScanState.init
      (fun n hn => hdef n (List.mem_range.mp hn))
      (by simpa [ScanState.init] using hcount)
    have hret : ∃ res, get_negate (owner_table s e.intent.owner_team_index)
        (other_table s e.intent.owner_team_index)
        (other_negate_table s e.intent.owner_team_index) e = some res := by
      unfold get_negate scan_fastest
      simp only [Option.bind_eq_bind, hst, Option.some_bind]
      split_ifs <;> simp
    obtain ⟨⟨flag, e1⟩, hres⟩ := hret
    obtain ⟨h1, h2⟩ := hflag flag e1 hres
    rw [hres, h1, h2]
  · intro k hk
    refine ⟨consume_turn_bar s e.intent.owner_team_index k, ?_, consume_turn_bar_life s _ k⟩
    simp [resolve_events, resolve_event, hk]

/-- C3 is false as stated: in the duel in which the Orc holds a negate passive that is valid for
the attack the Bat declares, `turn` still takes 200 from the life of the Orc. -/
theorem C3_counterexample :
    ((roll_initiative guarded_duel 0).bind fun s0 =>
      (turn_declare (skill_library example_aliases) s0 0 0).map fun s =>
        (s.opponent_negate_table.count,
         s.main_event_queue.event.map fun e =>
          passive_is_valid (owner_table s e.intent.owner_team_index)
            (other_table s e.intent.owner_team_index)
            (other_negate_table s e.intent.owner_team_index) e 0)) = some (1, [some true]) ∧
    ((roll_initiative guarded_duel 0).map fun s0 =>
      (s0.opponent_character_table.life 0, s0.opponent_character_table.life_bar 0))
      = some (1400, 1) ∧
    ((roll_initiative guarded_duel 0).bind fun s0 =>
      (turn (skill_library example_aliases) s0 0 0 0).map fun s =>
        (s.opponent_character_table.life 0, s.opponent_character_table.life_bar 0))
      = some (1200, 6 / 7) := by
  decide!

/-- C3 (amended) at a concrete input: the guarded duel and the attack declared by the Bat. -/
theorem C3_witness :
    (0 < (other_negate_table guarded_duel declared_attack.intent.owner_team_index).count ∧
     passive_is_valid (owner_table guarded_duel declared_attack.intent.owner_team_index)
      (other_table guarded_duel declared_attack.intent.owner_team_index)
      (other_negate_table guarded_duel declared_attack.intent.owner_team_index)
      declared_attack 0 = some true) ∧
    get_negate (owner_table guarded_duel declared_attack.intent.owner_team_index)
      (other_table guarded_duel declared_attack.intent.owner_team_index)
      (other_negate_table guarded_duel declared_attack.intent.owner_team_index)
      declared_attack = some (true, { declared_attack with is_negated := true }) ∧
    ∃ s', resolve_events (skill_library example_aliases) guarded_duel
          { declared_attack with is_negated := true }
          = some (s', { declared_attack with is_negated := true }) ∧
        s'.ally_character_table.life = guarded_duel.ally_character_table.life ∧
        s'.ally_character_table.life_bar = guarded_duel.ally_character_table.life_bar ∧
        s'.opponent_character_table.life = guarded_duel.opponent_character_table.life ∧
        s'.opponent_character_table.life_bar
          = guarded_duel.opponent_character_table.life_bar :=
  have h := C3_negate_then_resolve (skill_library example_aliases) guarded_duel declared_attack
    0 0 (by decide) (by decide!) (by decide) (by decide!)
  ⟨⟨by decide, by decide!⟩,
   h.2.2 (by decide) (fun n hn => by
     have h0 : n = 0 := Nat.lt_one_iff.mp hn
     subst h0
     decide!),
   h.2.1 0 (by decide)⟩

/-- The tables after consuming a turn bar: the slot of the owner's table has a zero bar, and
nothing else has changed in either table. -/
theorem consume_turn_bar_tables (s : CombatSystem) (t : Int) (k : Fin 5) :
    owner_table (consume_turn_bar s t k) t =
      { owner_table s t with turn_bar := Function.update (owner_table s t).turn_bar k 0 } ∧
    other_table (consume_turn_bar s t k) t = other_table s t := by
  unfold consume_turn_bar owner_table other_table
  split_ifs <;> exact ⟨rfl, rfl⟩

/-- C10. Negated events are skipped but still consume the turn: with `main_intent.owner_index`
a valid index `k`, `resolve_events` on a negated event returns the event unchanged, leaves the
other side's table unchanged and changes the table of the event owner's side only by setting
the turn bar of slot `k` to 0; for a non-negated event `resolve_events` returns whenever
`resolve_event` does, and the turn bar of slot `k` on the event owner's side is 0 afterwards. -/
theorem C10_resolve_events_consumes_turn (lib : SkillEnum → ActiveEventBuilder)
    (s : CombatSystem) (e : Event) (k : Fin 5) (hk : idx5 s.main_intent.owner_index = some k) :
    (e.is_negated = true →
      ∃ s', resolve_events lib s e = some (s', e) ∧
        owner_table s' e.intent.owner_team_index =
          { owner_table s e.intent.owner_team_index with
            turn_bar := Function.update (owner_table s e.intent.owner_team_index).turn_bar k 0 } ∧
        other_table s' e.intent.owner_team_index = other_table s e.intent.owner_team_index ∧
        (owner_table s' e.intent.owner_team_index).turn_bar k = 0) ∧
    (e.is_negated = false → ∀ s1 e1, resolve_event lib s e = some (s1, e1) →
      ∃ s', resolve_events lib s e = some (s', e1) ∧
        (owner_table s' e1.intent.owner_team_index).turn_bar k = 0) ∧
    (∀ s' e', resolve_events lib s e = some (s', e') →
      (owner_table s' e'.intent.owner_team_index).turn_bar k = 0) := by
  have hmain : ∀ s1 e1, resolve_event lib s e = some (s1, e1) →
      s1.main_intent = s.main_intent := by
    intro s1 e1 h
    unfold resolve_event at h
    split_ifs at h with hn
    · simp only [Option.some.injEq, Prod.mk.injEq] at h
      rw [← h.1]
    · simp only [Option.bind_eq_bind, Option.bind_eq_some, Option.some.injEq,
        Prod.mk.injEq] at h
      obtain ⟨e2, -, cts, -, hs, -⟩ := h
      rw [← hs]
      unfold set_tables
      split_ifs <;> rfl
  have hzero : ∀ (s1 : CombatSystem) (t : Int),
      (owner_table (consume_turn_bar s1 t k) t).turn_bar k = 0 := by
    intro s1 t
    rw [(consume_turn_bar_tables s1 t k).1]
    simp
  refine ⟨?_, ?_, ?_⟩
  · intro hn
    refine ⟨consume_turn_bar s e.intent.owner_team_index k, ?_,
      (consume_turn_bar_tables s _ k).1, (consume_turn_bar_tables s _ k).2, hzero s _⟩
    simp [resolve_events, resolve_event, hn, hk]
  · intro _ s1 e1 h1
    have hk1 : idx5 s1.main_intent.owner_index = some k := by rw [hmain s1 e1 h1]; exact hk
    exact ⟨consume_turn_bar s1 e1.intent.owner_team_index k,
      by simp [resolve_events, h1, hk1], hzero s1 _⟩
  · intro s' e' h
    unfold resolve_events at h
    simp only [Option.bind_eq_bind, Option.bind_eq_some, Option.some.injEq,
      Prod.mk.injEq] at h
    obtain ⟨⟨s1, e1⟩, h1, k', hk', hs', he'⟩ := h
    simp only at hk' hs' he'
    have hk1 : idx5 s1.main_intent.owner_index = some k := by rw [hmain s1 e1 h1]; exact hk
    rw [hk1] at hk'
    simp only [Option.some.injEq] at hk'
    subst hk' hs' he'
    exact hzero s1 _

/-- C10 at a concrete input: the duel and the negated attack of the Bat. -/
theorem C10_witness :
    idx5 duel.main_intent.owner_index = some 0 ∧
    ∃ s', resolve_events (skill_library example_aliases) duel
          { declared_attack with is_negated := true }
          = some (s', { declared_attack with is_negated := true }) ∧
        owner_table s' 0 =
          { owner_table duel 0 with
            turn_bar := Function.update (owner_table duel 0).turn_bar 0 0 } ∧
        other_table s' 0 = other_table duel 0 ∧
        (owner_table s' 0).turn_bar 0 = 0 :=
  ⟨by decide,
   (C10_resolve_events_consumes_turn (skill_library example_aliases) duel
     { declared_attack with is_negated := true } 0 (by decide)).1 rfl⟩

/-- The loop body of `scan` is `scan_entry` on the entry of the position. -/
theorem scan_step_eq (ct : CharacterTable) (team_index : Int) (st : ScanState) (pos : Fin 5) :
    scan_step ct team_index st pos = scan_entry st (table_entry ct team_index pos) := rfl

/-- The loop body of `rescan` is `rescan_entry` on the entry of the position. -/
theorem rescan_step_eq (ct : CharacterTable) (team_index : Int) (st : ScanState)
    (pos : Fin 5) :
    rescan_step ct team_index st pos = rescan_entry st (table_entry ct team_index pos) := rfl

/-- A fold in `Option` over a mapped list. -/
theorem foldlM_option_map {α β γ : Type} (g : α → β) (f : γ → β → Option γ) :
    ∀ (l : List α) (c : γ), (l.map g).foldlM f c = l.foldlM (fun c a => f c (g a)) c := by
  intro l
  induction l with
  | nil => intro c; rfl
  | cons a l ih =>
    intro c
    simp only [List.map_cons, List.foldlM_cons, Option.bind_eq_bind]
    cases f c (g a) with
    | none => rfl
    | some c1 => simpa using ih c1

/-- The lambda `scan` is a fold of `scan_entry` over the entries of the table. -/
theorem scan_eq (ct : CharacterTable) (team_index : Int) (st : ScanState) :
    scan ct team_index st = (table_entries ct team_index).foldlM scan_entry st := by
  unfold scan table_entries
  rw [foldlM_option_map]
  rfl

/-- The lambda `rescan` is a fold of `rescan_entry` over the entries of the table. -/
theorem rescan_eq (ct : CharacterTable) (team_index : Int) (st : ScanState) :
    rescan ct team_index st = (table_entries ct team_index).foldlM rescan_entry st := by
  unfold rescan table_entries
  rw [foldlM_option_map]
  rfl

/-- The two calls of `scan` are one fold over the entries of both tables. -/
theorem scan_both_eq (ally opponent : CharacterTable) (st : ScanState) :
    (scan ally 0 st).bind (scan opponent 1) =
      (all_entries ally opponent).foldlM scan_entry st := by
  unfold all_entries
  rw [List.foldlM_append, scan_eq]
  simp only [Option.bind_eq_bind]
  congr 1

/-- The two calls of `rescan` are one fold over the entries of both tables. -/
theorem rescan_both_eq (ally opponent : CharacterTable) (st : ScanState) :
    (rescan ally 0 st).bind (rescan opponent 1) =
      (all_entries ally opponent).foldlM rescan_entry st := by
  unfold all_entries
  rw [List.foldlM_append, rescan_eq]
  simp only [Option.bind_eq_bind]
  congr 1

/-- The greatest speed after one more entry. -/
theorem best_speed_append (R : List Entry) (x : Entry) :
    best_speed (R ++ [x]) = max (best_speed R) x.spe := by
  simp [best_speed, List.foldl_append]

/-- The greatest speed is at least `-1` and at least the speed of every entry. -/
theorem best_speed_ge (R : List Entry) :
    -1 ≤ best_speed R ∧ ∀ x ∈ R, x.spe ≤ best_speed R := by
  induction R using List.reverseRecOn with
  | nil => exact ⟨le_refl _, fun x hx => absurd hx (List.not_mem_nil x)⟩
  | append_singleton R y ih =>
    rw [best_speed_append]
    refine ⟨le_trans ih.1 (le_max_left _ _), ?_⟩
    intro x hx
    rcases List.mem_append.mp hx with h | h
    · exact le_trans (ih.2 x h) (le_max_left _ _)
    · rw [List.mem_singleton.mp h]
      exact le_max_right _ _

/-- Without an entry faster than `-1`, the greatest speed is the initial `-1`. -/
theorem best_speed_eq_neg_one (R : List Entry) (h : ∀ x ∈ R, x.spe ≤ -1) :
    best_speed R = -1 := by
  induction R using List.reverseRecOn with
  | nil => rfl
  | append_singleton R z ih =>
    rw [best_speed_append, ih (fun x hx => h x (List.mem_append_left _ hx))]
    exact max_eq_left (h z (by simp))

/-- The greatest speed is attained by an entry when some entry has a speed of at least `-1`. -/
theorem best_speed_attained (R : List Entry) (h : ∃ x ∈ R, -1 ≤ x.spe) :
    ∃ x ∈ R, x.spe = best_speed R := by
  induction R using List.reverseRecOn with
  | nil =>
    obtain ⟨x, hx, -⟩ := h
    exact absurd hx (List.not_mem_nil x)
  | append_singleton R y ih =>
    rw [best_speed_append]
    rcases le_total (best_speed R) y.spe with hle | hle
    · exact ⟨y, by simp, by rw [max_eq_right hle]⟩
    · rw [max_eq_left hle]
      by_cases hex : ∃ x ∈ R, -1 ≤ x.spe
      · obtain ⟨x, hx, hx1⟩ := ih hex
        exact ⟨x, List.mem_append_left _ hx, hx1⟩
      · push_neg at hex
        have hbest := best_speed_eq_neg_one R (fun x hx => le_of_lt (hex x hx))
        obtain ⟨x, hx, hx1⟩ := h
        rcases List.mem_append.mp hx with h' | h'
        · exact absurd hx1 (not_le.mpr (hex x h'))
        · rw [List.mem_singleton.mp h'] at hx1
          rw [hbest] at hle ⊢
          exact ⟨y, by simp, le_antisymm hle hx1⟩

/-- The initial scan state has recorded no entry. -/
theorem tracked_init : Tracked ScanState.init [] := ⟨rfl, rfl⟩

/-- Recording an entry: the candidate variables follow the list of recorded entries. -/
theorem record_candidate_tracked (st st' : ScanState) (R : List Entry) (x : Entry)
    (hst : Tracked st R) (h : record_candidate st x.intent x.spe = some st') :
    Tracked st' (R ++ [x]) ∧ st'.found_full = st.found_full ∧ st'.min_step = st.min_step := by
  obtain ⟨hhs, hc⟩ := hst
  have hge := (best_speed_ge R).2
  unfold record_candidate at h
  unfold Tracked fastest
  rw [best_speed_append]
  split_ifs at h with h1 h2 h3
  · simp only [Option.some.injEq] at h
    subst h
    rw [hhs] at h1
    refine ⟨⟨by simp [max_eq_right (le_of_lt h1)], ?_⟩, rfl, rfl⟩
    rw [max_eq_right (le_of_lt h1), List.filter_append]
    have hnone : R.filter (fun y => decide (y.spe = x.spe)) = [] := by
      rw [List.filter_eq_nil_iff]
      intro y hy
      have := hge y hy
      simp only [decide_eq_true_eq]
      intro heq
      rw [heq] at this
      exact absurd h1 (not_lt.mpr this)
    simp [hnone]
  · simp only [Option.some.injEq] at h
    subst h
    rw [hhs] at h2
    refine ⟨⟨by simp [h2, hhs], ?_⟩, rfl, rfl⟩
    rw [h2, max_self, List.filter_append]
    simp [hc, fastest, h2]
  · simp only [Option.some.injEq] at h
    subst h
    rw [hhs] at h1 h2
    have hlt : x.spe < best_speed R := lt_of_le_of_ne (not_lt.mp h1) h2
    refine ⟨⟨by rw [hhs, max_eq_left (le_of_lt hlt)], ?_⟩, rfl, rfl⟩
    rw [max_eq_left (le_of_lt hlt), List.filter_append]
    simp [hc, fastest, h2]

/-- Recording an entry returns when at most eight recorded entries have its speed. -/
theorem record_candidate_returns (st : ScanState) (R : List Entry) (x : Entry)
    (hst : Tracked st R)
    (hlen : ((R ++ [x]).filter fun y => decide (y.spe = x.spe)).length ≤ 8) :
    ∃ st', record_candidate st x.intent x.spe = some st' := by
  obtain ⟨hhs, hc⟩ := hst
  unfold record_candidate
  split_ifs with h1 h2 h3
  · exact ⟨_, rfl⟩
  · exact ⟨_, rfl⟩
  · exfalso
    apply h3
    rw [hc, fastest, List.length_map, ← hhs, ← h2]
    rw [List.filter_append] at hlen
    simp at hlen
    omega
  · exact ⟨_, rfl⟩

/-- One step of `scan` on an entry: the candidate variables follow the ready entries, the flag
`found_full` is raised by a ready entry, and `min_step` changes only on an entry that is not
ready. -/
theorem scan_entry_tracked (st st' : ScanState) (R : List Entry) (x : Entry)
    (hst : Tracked st R) (h : scan_entry st x = some st') :
    Tracked st' (R ++ [x].filter Entry.ready) ∧
    (st'.found_full = true ↔ st.found_full = true ∨ x.ready = true) := by
  unfold scan_entry at h
  by_cases hr : x.turn_bar ≥ 1
  · have hready : x.ready = true := by simp [Entry.ready, hr]
    rw [if_pos hr] at h
    have ht : Tracked { st with found_full := true } R := hst
    obtain ⟨h1, h2, -⟩ := record_candidate_tracked _ _ R x ht h
    refine ⟨by simpa [List.filter, hready] using h1, ?_⟩
    rw [h2]
    simp [hready]
  · have hready : x.ready = false := by simp [Entry.ready, hr]
    rw [if_neg hr] at h
    have hsame : st'.highest_speed = st.highest_speed ∧ st'.candidates = st.candidates ∧
        st'.found_full = st.found_full := by
      split at h
      all_goals split_ifs at h
      all_goals simp only [Option.some.injEq] at h
      all_goals subst h
      all_goals exact ⟨rfl, rfl, rfl⟩
    refine ⟨?_, ?_⟩
    · simp only [List.filter, hready, List.append_nil]
      exact ⟨by rw [hsame.1]; exact hst.1, by rw [hsame.2.1]; exact hst.2⟩
    · rw [hsame.2.2]
      simp [hready]

/-- The loop of `scan` over a list of entries. -/
theorem scan_fold_tracked :
    ∀ (E R : List Entry) (st st' : ScanState), Tracked st R →
      E.foldlM scan_entry st = some st' →
      Tracked st' (R ++ E.filter Entry.ready) ∧
      (st'.found_full = true ↔ st.found_full = true ∨ ∃ x ∈ E, x.ready = true) := by
  intro E
  induction E with
  | nil =>
    intro R st st' hst h
    simp only [List.foldlM_nil, Option.pure_def, Option.some.injEq] at h
    subst h
    simpa using hst
  | cons x E ih =>
    intro R st st' hst h
    simp only [List.foldlM_cons, Option.bind_eq_bind, Option.bind_eq_some] at h
    obtain ⟨st1, h1, h2⟩ := h
    obtain ⟨ht1, hf1⟩ := scan_entry_tracked st st1 R x hst h1
    obtain ⟨ht, hf⟩ := ih _ st1 st' ht1 h2
    constructor
    · have : R ++ (x :: E).filter Entry.ready
          = (R ++ [x].filter Entry.ready) ++ E.filter Entry.ready := by
        rw [List.append_assoc, ← List.filter_append]
        rfl
      rw [this]
      exact ht
    · rw [hf, hf1]
      simp only [List.mem_cons, exists_eq_or_imp]
      tauto

/-- The loop of `rescan` over a list of entries. -/
theorem rescan_fold_tracked :
    ∀ (E R : List Entry) (st st' : ScanState), Tracked st R →
      E.foldlM rescan_entry st = some st' →
      Tracked st' (R ++ E.filter Entry.ready) := by
  intro E
  induction E with
  | nil =>
    intro R st st' hst h
    simp only [List.foldlM_nil, Option.pure_def, Option.some.injEq] at h
    subst h
    simpa using hst
  | cons x E ih =>
    intro R st st' hst h
    simp only [List.foldlM_cons, Option.bind_eq_bind, Option.bind_eq_some] at h
    obtain ⟨st1, h1, h2⟩ := h
    have hrw : R ++ (x :: E).filter Entry.ready
        = (R ++ [x].filter Entry.ready) ++ E.filter Entry.ready := by
      rw [List.append_assoc, ← List.filter_append]
      rfl
    rw [hrw]
    apply ih _ st1 st' _ h2
    unfold rescan_entry at h1
    by_cases hr : x.turn_bar ≥ 1
    · have hready : x.ready = true := by simp [Entry.ready, hr]
      rw [if_pos hr] at h1
      simpa [List.filter, hready] using (record_candidate_tracked _ _ R x hst h1).1
    · have hready : x.ready = false := by simp [Entry.ready, hr]
      rw [if_neg hr] at h1
      simp only [Option.some.injEq] at h1
      subst h1
      simpa [List.filter, hready] using hst

/-- One step of `scan` returns when the candidate array has room and the speed of the entry is
not negative. -/
theorem scan_entry_returns (st : ScanState) (R : List Entry) (x : Entry) (hst : Tracked st R)
    (hlen : ∀ v : ℚ, ((R ++ [x].filter Entry.ready).filter
      fun y => decide (y.spe = v)).length ≤ 8)
    (hspe : 0 ≤ x.spe) :
    ∃ st', scan_entry st x = some st' := by
  unfold scan_entry
  by_cases hr : x.turn_bar ≥ 1
  · have hready : x.ready = true := by simp [Entry.ready, hr]
    rw [if_pos hr]
    have ht : Tracked { st with found_full := true } R := hst
    apply record_candidate_returns _ R x ht
    simpa [List.filter, hready] using hlen x.spe
  · rw [if_neg hr]
    split
    · split_ifs <;> exact ⟨_, rfl⟩
    · rw [if_pos hspe]
      exact ⟨_, rfl⟩

/-- A list has no more entries of a given speed than its extension by another list. -/
theorem filter_length_le_append (A B : List Entry) (v : ℚ) :
    (A.filter fun y => decide (y.spe = v)).length ≤
      ((A ++ B).filter fun y => decide (y.spe = v)).length := by
  rw [List.filter_append, List.length_append]
  omega

/-- The loop of `scan` returns when no speed is shared by more than eight ready entries and no
speed is negative. -/
theorem scan_fold_returns :
    ∀ (E R : List Entry) (st : ScanState), Tracked st R →
      (∀ v : ℚ, ((R ++ E.filter Entry.ready).filter fun y => decide (y.spe = v)).length ≤ 8) →
      (∀ x ∈ E, 0 ≤ x.spe) →
      ∃ st', E.foldlM scan_entry st = some st' := by
  intro E
  induction E with
  | nil => intro R st _ _ _; exact ⟨st, rfl⟩
  | cons x E ih =>
    intro R st hst hlen hspe
    have hrw : R ++ (x :: E).filter Entry.ready
        = (R ++ [x].filter Entry.ready) ++ E.filter Entry.ready := by
      rw [List.append_assoc, ← List.filter_append]
      rfl
    rw [hrw] at hlen
    obtain ⟨st1, h1⟩ := scan_entry_returns st R x hst
      (fun v => le_trans (filter_length_le_append _ _ v) (hlen v))
      (hspe x (List.mem_cons_self x E))
    obtain ⟨st', h'⟩ := ih _ st1 (scan_entry_tracked st st1 R x hst h1).1 hlen
      (fun y hy => hspe y (List.mem_cons_of_mem x hy))
    exact ⟨st', by simp [h1, h']⟩

/-- Every slot of a table with an injective position map has its entry among the entries. -/
theorem slot_entry_mem (ct : CharacterTable) (team_index : Int)
    (hinj : Function.Injective ct.pos_to_index) (j : Fin 5) :
    ({ intent := candidate_intent team_index j, turn_bar := ct.turn_bar j, spe := ct.spe j }
      : Entry) ∈ table_entries ct team_index := by
  obtain ⟨pos, hpos⟩ := Finite.surjective_of_injective hinj j
  unfold table_entries
  refine List.mem_map.mpr ⟨pos, mem_positions pos, ?_⟩
  unfold table_entry
  rw [hpos]

/-- An entry of a table is the entry of one of its slots. -/
theorem mem_table_entries (ct : CharacterTable) (team_index : Int) (x : Entry)
    (h : x ∈ table_entries ct team_index) :
    ∃ j : Fin 5, x.intent = candidate_intent team_index j ∧ x.turn_bar = ct.turn_bar j ∧
      x.spe = ct.spe j := by
  unfold table_entries at h
  obtain ⟨pos, -, hx⟩ := List.mem_map.mp h
  exact ⟨ct.pos_to_index pos, by rw [← hx]; rfl, by rw [← hx]; rfl, by rw [← hx]; rfl⟩

/-- The index of a candidate intent is a valid index. -/
theorem idx5_candidate_intent (team_index : Int) (j : Fin 5) :
    idx5 (candidate_intent team_index j).owner_index = some j := by
  unfold idx5 candidate_intent
  have h : (0 : Int) ≤ (j.val : Int) ∧ (j.val : Int) < 5 := ⟨by omega, by omega⟩
  simp [h]

/-- Membership in the list of fastest intents. -/
theorem mem_fastest (R : List Entry) (i : Intent) :
    i ∈ fastest R ↔ ∃ x ∈ R, x.spe = best_speed R ∧ x.intent = i := by
  unfold fastest
  simp only [List.mem_map, List.mem_filter, decide_eq_true_eq]
  constructor
  · rintro ⟨x, ⟨hx, hs⟩, hi⟩
    exact ⟨x, hx, hs, hi⟩
  · rintro ⟨x, hx, hs, hi⟩
    exact ⟨x, ⟨hx, hs⟩, hi⟩

/-- The candidate read by `pick_candidate` is one of the recorded candidates. -/
theorem pick_candidate_mem (st : ScanState) (r : Nat) (i : Intent)
    (h : pick_candidate st r = some i) : i ∈ st.candidates := by
  unfold pick_candidate at h
  split_ifs at h
  exact List.get?_mem h

/-- The read of `pick_candidate` returns when a candidate is recorded. -/
theorem pick_candidate_returns (st : ScanState) (r : Nat) (h : st.candidates ≠ []) :
    ∃ i, pick_candidate st r = some i := by
  unfold pick_candidate
  have hlen : st.candidates.length ≠ 0 := fun hc => h (List.length_eq_zero.mp hc)
  rw [if_neg hlen]
  have hlt : r % st.candidates.length < st.candidates.length :=
    Nat.mod_lt _ (Nat.pos_of_ne_zero hlen)
  exact ⟨st.candidates.get ⟨_, hlt⟩, List.get?_eq_get hlt⟩

/-- The entries of a given speed among the entries of a table with an injective position map
are as many as the slots of that speed. -/
theorem table_entries_speed_count (ct : CharacterTable) (team_index : Int) (v : ℚ)
    (hinj : Function.Injective ct.pos_to_index) :
    ((table_entries ct team_index).filter fun y => decide (y.spe = v)).length
      = (positions.filter fun i => decide (ct.spe i = v)).length := by
  unfold table_entries
  have hperm : (positions.map ct.pos_to_index).Perm positions := by
    rw [List.perm_ext_iff_of_nodup (positions_nodup.map hinj) positions_nodup]
    intro a
    constructor
    · intro _; exact mem_positions a
    · intro _
      obtain ⟨pos, hpos⟩ := Finite.surjective_of_injective hinj a
      exact List.mem_map.mpr ⟨pos, mem_positions pos, hpos⟩
  have h1 : (positions.map (table_entry ct team_index)).filter (fun y => decide (y.spe = v))
      = ((positions.filter fun pos => decide (ct.spe (ct.pos_to_index pos) = v)).map
          (table_entry ct team_index)) := by
    rw [List.filter_map]
    rfl
  rw [h1, List.length_map]
  have h2 : (positions.filter fun pos => decide (ct.spe (ct.pos_to_index pos) = v)).length
      = ((positions.map ct.pos_to_index).filter fun i => decide (ct.spe i = v)).length := by
    rw [List.filter_map, List.length_map]
    rfl
  rw [h2]
  exact (hperm.filter _).length_eq

/-- No speed is shared by more ready entries than by combatants. -/
theorem ready_filter_length_le (ally opponent : CharacterTable) (v : ℚ)
    (ha : Function.Injective ally.pos_to_index)
    (ho : Function.Injective opponent.pos_to_index) :
    (((all_entries ally opponent).filter Entry.ready).filter
      fun y => decide (y.spe = v)).length ≤ speed_count ally opponent v := by
  have h1 : (((all_entries ally opponent).filter Entry.ready).filter
      fun y => decide (y.spe = v)).length ≤
      ((all_entries ally opponent).filter fun y => decide (y.spe = v)).length := by
    rw [List.filter_filter]
    apply List.Sublist.length_le
    apply List.monotone_filter_right
    intro x hx
    simp only [Bool.and_eq_true] at hx
    exact hx.1
  refine le_trans h1 (le_of_eq ?_)
  unfold all_entries speed_count
  rw [List.filter_append, List.length_append, table_entries_speed_count ally 0 v ha,
    table_entries_speed_count opponent 1 v ho]

/-- `get_next_character` as folds over the entries of both tables. -/
theorem get_next_character_eq (s : CombatSystem) (r : Nat) :
    get_next_character s r =
      ((all_entries s.ally_character_table s.opponent_character_table).foldlM scan_entry
        ScanState.init).bind fun st =>
        if st.found_full then (pick_candidate st r).bind fun intent => some (s, intent)
        else st.min_step.bind fun min_step =>
          (fill min_step s.ally_character_table).bind fun ally =>
            (fill min_step s.opponent_character_table).bind fun opponent =>
              ((all_entries ally opponent).foldlM rescan_entry st).bind
                fun st2 => (pick_candidate st2 r).bind fun intent =>
                  some ({ s with ally_character_table := ally,
                                 opponent_character_table := opponent }, intent) := by
  have h1 : get_next_character s r =
      ((scan s.ally_character_table 0 ScanState.init).bind
        (scan s.opponent_character_table 1)).bind fun st =>
        if st.found_full then (pick_candidate st r).bind fun intent => some (s, intent)
        else st.min_step.bind fun min_step =>
          (fill min_step s.ally_character_table).bind fun ally =>
            (fill min_step s.opponent_character_table).bind fun opponent =>
              ((rescan ally 0 st).bind (rescan opponent 1)).bind
                fun st2 => (pick_candidate st2 r).bind fun intent =>
                  some ({ s with ally_character_table := ally,
                                 opponent_character_table := opponent }, intent) := by
    unfold get_next_character
    simp only [Option.bind_eq_bind, Option.bind_assoc]
  rw [h1, scan_both_eq]
  congr 1
  funext st
  split_ifs
  · rfl
  · congr 1
    funext ms
    congr 1
    funext ally
    congr 1
    funext opponent
    rw [rescan_both_eq]

/-- With a ready combatant, `get_next_character` changes no part of the state and returns one of
the fastest ready combatants; it returns when no speed is shared by more than eight ready
combatants and no speed is negative. -/
theorem get_next_character_found_full (s : CombatSystem) (r : Nat)
    (hready : ∃ x ∈ all_entries s.ally_character_table s.opponent_character_table,
      x.ready = true) :
    (∀ s' intent, get_next_character s r = some (s', intent) →
      s' = s ∧ intent ∈ fastest
        ((all_entries s.ally_character_table s.opponent_character_table).filter
          Entry.ready)) ∧
    ((∀ v : ℚ, (((all_entries s.ally_character_table s.opponent_character_table).filter
        Entry.ready).filter fun y => decide (y.spe = v)).length ≤ 8) →
      (∀ x ∈ all_entries s.ally_character_table s.opponent_character_table, 0 ≤ x.spe) →
      ∃ intent, get_next_character s r = some (s, intent)) := by
  rw [get_next_character_eq]
  constructor
  · intro s' intent h
    simp only [Option.bind_eq_some] at h
    obtain ⟨st, hscan, h⟩ := h
    obtain ⟨ht, hf⟩ := scan_fold_tracked _ [] ScanState.init st tracked_init hscan
    have hff : st.found_full = true := hf.mpr (Or.inr hready)
    rw [if_pos hff] at h
    simp only [Option.bind_eq_some, Option.some.injEq, Prod.mk.injEq] at h
    obtain ⟨i, hi, hs, hii⟩ := h
    subst hii
    refine ⟨hs.symm, ?_⟩
    have := pick_candidate_mem st r i hi
    rw [ht.2] at this
    simpa using this
  · intro hlen hspe
    obtain ⟨st, hscan⟩ := scan_fold_returns _ [] ScanState.init tracked_init
      (by simpa using hlen) hspe
    obtain ⟨ht, hf⟩ := scan_fold_tracked _ [] ScanState.init st tracked_init hscan
    have hff : st.found_full = true := hf.mpr (Or.inr hready)
    have hne : st.candidates ≠ [] := by
      rw [ht.2]
      simp only [List.nil_append]
      obtain ⟨x, hx, hxr⟩ := hready
      have hx1 : -1 ≤ x.spe := by linarith [hspe x hx]
      obtain ⟨y, hy, hys⟩ := best_speed_attained
        ((all_entries s.ally_character_table s.opponent_character_table).filter Entry.ready)
        ⟨x, List.mem_filter.mpr ⟨hx, hxr⟩, hx1⟩
      intro hnil
      have : y.intent ∈ fastest ((all_entries s.ally_character_table
          s.opponent_character_table).filter Entry.ready) :=
        (mem_fastest _ _).mpr ⟨y, hy, hys, rfl⟩
      rw [hnil] at this
      exact absurd this (List.not_mem_nil _)
    obtain ⟨i, hi⟩ := pick_candidate_returns st r hne
    exact ⟨i, by simp [hscan, hff, hi]⟩

/-- An entry of both tables is the entry of a slot of one of them. -/
theorem mem_all_entries (ally opponent : CharacterTable) (x : Entry)
    (h : x ∈ all_entries ally opponent) :
    ∃ (t : Int) (j : Fin 5), (t = 0 ∨ t = 1) ∧ x.intent = candidate_intent t j ∧
      x.turn_bar = (if t = 0 then ally else opponent).turn_bar j ∧
      x.spe = (if t = 0 then ally else opponent).spe j := by
  unfold all_entries at h
  rcases List.mem_append.mp h with h | h
  · obtain ⟨j, h1, h2, h3⟩ := mem_table_entries ally 0 x h
    exact ⟨0, j, Or.inl rfl, h1, by simpa using h2, by simpa using h3⟩
  · obtain ⟨j, h1, h2, h3⟩ := mem_table_entries opponent 1 x h
    exact ⟨1, j, Or.inr rfl, h1, by simpa using h2, by simpa using h3⟩

/-- One of the fastest ready intents names a slot with a full bar and the greatest ready
speed. -/
theorem fastest_ready_decode (ally opponent : CharacterTable) (intent : Intent)
    (h : intent ∈ fastest ((all_entries ally opponent).filter Entry.ready)) :
    ∃ (t : Int) (k : Fin 5), (t = 0 ∨ t = 1) ∧ intent = candidate_intent t k ∧
      1 ≤ (if t = 0 then ally else opponent).turn_bar k ∧
      (if t = 0 then ally else opponent).spe k
        = best_speed ((all_entries ally opponent).filter Entry.ready) := by
  obtain ⟨x, hx, hs, hi⟩ := (mem_fastest _ _).mp h
  obtain ⟨hxE, hxr⟩ := List.mem_filter.mp hx
  obtain ⟨t, j, ht, h1, h2, h3⟩ := mem_all_entries ally opponent x hxE
  refine ⟨t, j, ht, by rw [← hi, h1], ?_, by rw [← h3, hs]⟩
  rw [← h2]
  simpa [Entry.ready] using hxr

/-- A slot with a full bar gives a ready entry. -/
theorem ready_entry_of_slot (ally opponent : CharacterTable)
    (ha : Function.Injective ally.pos_to_index)
    (ho : Function.Injective opponent.pos_to_index) (j : Fin 5)
    (h : 1 ≤ ally.turn_bar j ∨ 1 ≤ opponent.turn_bar j) :
    ∃ x ∈ all_entries ally opponent, x.ready = true ∧
      (x.spe = ally.spe j ∨ x.spe = opponent.spe j) := by
  rcases h with h | h
  · exact ⟨_, List.mem_append_left _ (slot_entry_mem ally 0 ha j),
      by simpa [Entry.ready] using h, Or.inl rfl⟩
  · exact ⟨_, List.mem_append_right _ (slot_entry_mem opponent 1 ho j),
      by simpa [Entry.ready] using h, Or.inr rfl⟩

/-- The table of a team index that is 0 or 1. -/
theorem owner_table_eq_ite (s : CombatSystem) (t : Int) :
    owner_table s t = if t = 0 then s.ally_character_table else s.opponent_character_table :=
  rfl

/-- C6. Selection does not consume or advance meters when someone is already ready: on tables
with injective position maps in which some combatant has a meter of at least 1, whenever
`get_next_character` returns, the whole state (every meter and every other field of both tables)
is unchanged, and the selected actor still has a meter of at least 1; the call returns when all
speeds are positive and no speed is shared by more than eight combatants. -/
theorem C6_selection_keeps_meters (s : CombatSystem) (r : Nat)
    (ha : Function.Injective s.ally_character_table.pos_to_index)
    (ho : Function.Injective s.opponent_character_table.pos_to_index)
    (hready : ∃ j : Fin 5, 1 ≤ s.ally_character_table.turn_bar j ∨
      1 ≤ s.opponent_character_table.turn_bar j) :
    (∀ s' intent, get_next_character s r = some (s', intent) →
      s' = s ∧ ∃ k, idx5 intent.owner_index = some k ∧
        1 ≤ (owner_table s' intent.owner_team_index).turn_bar k) ∧
    ((∀ i, 0 < s.ally_character_table.spe i ∧ 0 < s.opponent_character_table.spe i) →
      (∀ v, speed_count s.ally_character_table s.opponent_character_table v ≤ 8) →
      ∃ intent, get_next_character s r = some (s, intent)) := by
  obtain ⟨j, hj⟩ := hready
  obtain ⟨x, hx, hxr, -⟩ := ready_entry_of_slot _ _ ha ho j hj
  obtain ⟨h1, h2⟩ := get_next_character_found_full s r ⟨x, hx, hxr⟩
  constructor
  · intro s' intent h
    obtain ⟨hs, hi⟩ := h1 s' intent h
    refine ⟨hs, ?_⟩
    obtain ⟨t, k, -, hik, hbar, -⟩ := fastest_ready_decode _ _ intent hi
    refine ⟨k, by rw [hik]; exact idx5_candidate_intent t k, ?_⟩
    rw [hs, hik, owner_table_eq_ite]
    exact hbar
  · intro hspe hties
    apply h2
    · intro v
      exact le_trans (ready_filter_length_le _ _ v ha ho) (hties v)
    · intro y hy
      obtain ⟨t, k, -, -, -, h3⟩ := mem_all_entries _ _ y hy
      rw [h3]
      split_ifs
      · exact le_of_lt (hspe k).1
      · exact le_of_lt (hspe k).2

/-- The loop of `roll_initiative` sets every life bar to 1 and every turn bar to 0. -/
theorem reset_bars_spec (ct : CharacterTable) :
    reset_bars ct = { ct with life_bar := fun _ => 1, turn_bar := fun _ => 0 } := by
  unfold reset_bars positions reset_bars_step
  simp only [List.foldl_cons, List.foldl_nil]
  congr 1
  · funext i
    fin_cases i <;> simp [Function.update]
  · funext i
    fin_cases i <;> simp [Function.update]

/-- The tie bound holds for every speed when it holds for the speed of every combatant. -/
theorem speed_count_le_of_slots (ally opponent : CharacterTable)
    (h : ∀ i : Fin 5, speed_count ally opponent (ally.spe i) ≤ 8 ∧
      speed_count ally opponent (opponent.spe i) ≤ 8) (v : ℚ) :
    speed_count ally opponent v ≤ 8 := by
  by_cases hv : ∃ i : Fin 5, ally.spe i = v ∨ opponent.spe i = v
  · obtain ⟨i, hi⟩ := hv
    rcases hi with hi | hi <;> rw [← hi]
    · exact (h i).1
    · exact (h i).2
  · push_neg at hv
    have h1 : (positions.filter fun i => decide (ally.spe i = v)) = [] := by
      rw [List.filter_eq_nil_iff]
      intro i _
      simpa using (hv i).1
    have h2 : (positions.filter fun i => decide (opponent.spe i = v)) = [] := by
      rw [List.filter_eq_nil_iff]
      intro i _
      simpa using (hv i).2
    unfold speed_count
    rw [h1, h2]
    simp

/-- C6 at a concrete input: the fully occupied encounter with a full bar at ally index 0. -/
theorem C6_witness :
    (Function.Injective ready_encounter.ally_character_table.pos_to_index ∧
     Function.Injective ready_encounter.opponent_character_table.pos_to_index ∧
     ∃ j : Fin 5, 1 ≤ ready_encounter.ally_character_table.turn_bar j ∨
      1 ≤ ready_encounter.opponent_character_table.turn_bar j) ∧
    (∀ s' intent, get_next_character ready_encounter 5 = some (s', intent) →
      s' = ready_encounter ∧ ∃ k, idx5 intent.owner_index = some k ∧
        1 ≤ (owner_table s' intent.owner_team_index).turn_bar k) ∧
    ∃ intent, get_next_character ready_encounter 5 = some (ready_encounter, intent) :=
  have h := C6_selection_keeps_meters ready_encounter 5 (by decide!) (by decide!)
    (by decide!)
  ⟨⟨by decide!, by decide!, by decide!⟩, h.1,
   h.2 (by decide!) (speed_count_le_of_slots _ _ (by decide!))⟩

/-- `LifeFrame` is reflexive. -/
theorem lifeFrame_refl (ct : CharacterTable) : LifeFrame ct ct := rfl

/-- `LifeFrame` is transitive. -/
theorem lifeFrame_trans (a b c : CharacterTable) (h1 : LifeFrame a b) (h2 : LifeFrame b c) :
    LifeFrame a c := by
  unfold LifeFrame at *
  rw [h2, h1]

/-- A damage block changes at most `life` and `life_bar`. -/
theorem damage_step_frame (d : Fin 5 → ℚ) (ct ct' : CharacterTable) (pos : Fin 5)
    (h : damage_step d ct pos = some ct') : LifeFrame ct ct' := by
  unfold damage_step at h
  split_ifs at h
  · rw [damage_slot_spec _ _ _ _ h]
    rfl
  · simp only [Option.some.injEq] at h
    rw [← h]
    rfl

/-- The damage loop on one table changes at most `life` and `life_bar`. -/
theorem damage_fold_frame (d : Fin 5 → ℚ) (l : List (Fin 5)) (ct ct' : CharacterTable)
    (h : l.foldlM (damage_step d) ct = some ct') : LifeFrame ct ct' :=
  foldlM_option_invariant (damage_step d) (fun c => LifeFrame ct c)
    (fun b a b' hb hf => lifeFrame_trans ct b b' hb (damage_step_frame d b b' a hf))
    l ct ct' (lifeFrame_refl ct) h

/-- The damage loop over positions without positive damage changes nothing. -/
theorem damage_fold_none (d : Fin 5 → ℚ) :
    ∀ (l : List (Fin 5)) (ct : CharacterTable), (∀ pos ∈ l, ¬ 0 < d pos) →
      l.foldlM (damage_step d) ct = some ct := by
  intro l
  induction l with
  | nil => intro ct _; rfl
  | cons a l ih =>
    intro ct h
    have ha : damage_step d ct a = some ct := by
      unfold damage_step
      rw [if_neg (h a (List.mem_cons_self _ _))]
    simp only [List.foldlM_cons, Option.bind_eq_bind, ha, Option.some_bind]
    exact ih ct (fun pos hpos => h pos (List.mem_cons_of_mem _ hpos))

/-- The damage loop over distinct positions of which only `p` carries positive damage is the
damage block of `p`. -/
theorem damage_fold_single (d : Fin 5 → ℚ) (p : Fin 5) (hp : 0 < d p) :
    ∀ (l : List (Fin 5)) (ct : CharacterTable), l.Nodup → p ∈ l →
      (∀ pos ∈ l, pos ≠ p → ¬ 0 < d pos) →
      l.foldlM (damage_step d) ct = damage_slot ct (ct.pos_to_index p) (d p) := by
  intro l
  induction l with
  | nil => intro ct _ hmem; exact absurd hmem (List.not_mem_nil p)
  | cons a l ih =>
    intro ct hnd hmem h
    obtain ⟨ha, hl⟩ := List.nodup_cons.mp hnd
    by_cases hap : a = p
    · subst hap
      have hstep : damage_step d ct a = damage_slot ct (ct.pos_to_index a) (d a) := by
        unfold damage_step
        rw [if_pos hp]
      simp only [List.foldlM_cons, Option.bind_eq_bind, hstep]
      cases hds : damage_slot ct (ct.pos_to_index a) (d a) with
      | none => rfl
      | some ct1 =>
        simp only [Option.some_bind]
        apply damage_fold_none
        intro pos hpos
        exact h pos (List.mem_cons_of_mem _ hpos) (fun hc => ha (hc ▸ hpos))
    · have hstep : damage_step d ct a = some ct := by
        unfold damage_step
        rw [if_neg (h a (List.mem_cons_self _ _) hap)]
      simp only [List.foldlM_cons, Option.bind_eq_bind, hstep, Option.some_bind]
      have hmem' : p ∈ l := by
        rcases List.mem_cons.mp hmem with hc | hc
        · exact absurd hc.symm hap
        · exact hc
      exact ih ct hl hmem' (fun pos hpos => h pos (List.mem_cons_of_mem _ hpos))

/-- The damage loop on the pair of tables returns the results of the loops on each table. -/
theorem apply_damage_fold_of (e : Event) :
    ∀ (l : List (Fin 5)) (cts : CharacterTable × CharacterTable) (o t : CharacterTable),
      l.foldlM (damage_step e.owner_pos_damage) cts.1 = some o →
      l.foldlM (damage_step e.other_pos_damage) cts.2 = some t →
      l.foldlM (apply_damage e) cts = some (o, t) := by
  intro l
  induction l with
  | nil =>
    intro cts o t h1 h2
    simp only [List.foldlM_nil, Option.pure_def, Option.some.injEq] at h1 h2
    simp [← h1, ← h2]
  | cons a l ih =>
    intro cts o t h1 h2
    simp only [List.foldlM_cons, Option.bind_eq_bind, Option.bind_eq_some] at h1 h2
    obtain ⟨o1, ho1, ho⟩ := h1
    obtain ⟨t1, ht1, ht⟩ := h2
    have hstep : apply_damage e cts a = some (o1, t1) := by
      simp [apply_damage, ho1, ht1]
    simp only [List.foldlM_cons, Option.bind_eq_bind, hstep, Option.some_bind]
    exact ih (o1, t1) o t ho ht

/-- An index in range converts to `uint8_t` without change. -/
theorem idx5_to_uint8 (i : Int) (k : Fin 5) (h : idx5 i = some k) :
    idx5 (to_uint8 i) = some k := by
  unfold idx5 at h
  split_ifs at h with hr
  have : to_uint8 i = i := by
    unfold to_uint8
    omega
  rw [this]
  unfold idx5
  rw [dif_pos hr]
  exact h

/-- The damage expression `200*100/100`. -/
theorem int_damage_200 : int_damage 200 100 100 = some 200 := by decide!

/-- The conversion of the float 100 to `int`. -/
theorem float_to_int_100 : float_to_int 100 = some 100 := by decide!

/-- The declare mode of a library skill pushes its declared event. -/
theorem skill_library_declare (A : Aliases) (skill : SkillEnum) (o t : CharacterTable)
    (intent : Intent) :
    (skill_library A skill).declare o t intent = some [declared_event A skill intent] := by
  cases skill <;> rfl

/-- The declare part of `turn` with a library skill: `main_intent` holds the chosen skill slot
and target, and the main queue holds the declared event alone. -/
theorem turn_declare_skill_library (A : Aliases) (s : CombatSystem)
    (skill_slot target_pos : Int) (k : Fin 5) (skill : SkillEnum)
    (hk : idx5 s.main_intent.owner_index = some k)
    (hsheet : ((owner_table s s.main_intent.owner_team_index).character_sheet
      k).skills.active_event_builder skill_slot = some skill) :
    turn_declare (skill_library A) s skill_slot target_pos =
      some { s with
        main_intent := turn_intent s skill_slot target_pos,
        main_event_queue :=
          { event := [declared_event A skill (turn_intent s skill_slot target_pos)] } } := by
  unfold turn_declare build_main_event_queue
  have ho : owner_table { s with
      main_intent := { s.main_intent with skill_slot := skill_slot, target_pos := target_pos },
      main_event_queue := EventQueue.clear s.main_event_queue }
      s.main_intent.owner_team_index = owner_table s s.main_intent.owner_team_index := by
    unfold owner_table
    split_ifs <;> rfl
  simp only [Option.bind_eq_bind, hk, Option.some_bind, ho, hsheet, skill_library_declare,
    List.foldl_cons, List.foldl_nil]
  rfl

/-- What `resolve_events` returns. -/
theorem resolve_events_eq_some (lib : SkillEnum → ActiveEventBuilder) (s s' : CombatSystem)
    (e e' : Event) (h : resolve_events lib s e = some (s', e')) :
    ∃ s1 k, resolve_event lib s e = some (s1, e') ∧ idx5 s1.main_intent.owner_index = some k ∧
      s' = consume_turn_bar s1 e'.intent.owner_team_index k := by
  unfold resolve_events at h
  simp only [Option.bind_eq_bind, Option.bind_eq_some, Option.some.injEq,
    Prod.mk.injEq] at h
  obtain ⟨⟨s1, e1⟩, h1, k, hk, hs', he'⟩ := h
  simp only at hk hs' he'
  subst he'
  exact ⟨s1, k, h1, hk, hs'.symm⟩

/-- The loop of `turn` over a main queue that holds one event. -/
theorem turn_resolve_single (lib : SkillEnum → ActiveEventBuilder) (s s2 : CombatSystem)
    (skill_slot target_pos : Int) (e0 : Event)
    (hdecl : turn_declare lib s skill_slot target_pos = some s2)
    (hq : s2.main_event_queue.event = [e0]) :
    turn_resolve lib s skill_slot target_pos =
      (resolve_events lib s2 e0).bind fun p =>
        some { p.1 with
          main_event_queue := { event := p.1.main_event_queue.event.set 0 p.2 } } := by
  unfold turn_resolve
  have hr : List.range 1 = [0] := rfl
  simp only [Option.bind_eq_bind, hdecl, Option.some_bind, EventQueue.count, hq,
    List.length_singleton, hr, List.foldlM_cons, List.foldlM_nil, turn_step,
    List.get?_cons_zero]
  cases resolve_events lib s2 e0 with
  | none => rfl
  | some p => rfl

/-- One iteration of the loop of `fill` changes one turn bar. -/
theorem fill_step_eq_some (ms : ℚ) (ct ct' : CharacterTable) (pos : Fin 5)
    (h : fill_step ms ct pos = some ct') :
    ∃ product sum, f32 (ms * ct.spe (ct.pos_to_index pos)) = some product ∧
      f32 (ct.turn_bar (ct.pos_to_index pos) + product) = some sum ∧
      ct' = { ct with turn_bar := Function.update ct.turn_bar (ct.pos_to_index pos) sum } := by
  unfold fill_step at h
  simp only [Option.bind_eq_bind, Option.bind_eq_some, Option.some.injEq] at h
  obtain ⟨product, hp, sum, hs, hct⟩ := h
  exact ⟨product, sum, hp, hs, hct.symm⟩

/-- The fill changes at most the turn bars. -/
theorem fill_frame (ms : ℚ) (ct ct' : CharacterTable) (h : fill ms ct = some ct') :
    ct' = { ct with turn_bar := ct'.turn_bar } := by
  unfold fill at h
  have key := foldlM_option_invariant (fill_step ms)
    (fun c => ∃ tb, c = { ct with turn_bar := tb }) (by
      intro b a b' hb hf
      obtain ⟨tb, hb⟩ := hb
      obtain ⟨product, sum, -, -, hb'⟩ := fill_step_eq_some ms b b' a hf
      subst hb
      exact ⟨_, hb'⟩) positions ct ct' ⟨ct.turn_bar, rfl⟩ h
  obtain ⟨tb, hct⟩ := key
  rw [hct]

/-- `get_next_character` changes at most the turn bars of the two tables. -/
theorem get_next_character_frame (s s' : CombatSystem) (r : Nat) (intent : Intent)
    (h : get_next_character s r = some (s', intent)) :
    s' = { s with
      ally_character_table :=
        { s.ally_character_table with turn_bar := s'.ally_character_table.turn_bar },
      opponent_character_table :=
        { s.opponent_character_table with
          turn_bar := s'.opponent_character_table.turn_bar } } := by
  rw [get_next_character_eq] at h
  simp only [Option.bind_eq_some] at h
  obtain ⟨st, -, h⟩ := h
  split_ifs at h
  · simp only [Option.bind_eq_some, Option.some.injEq, Prod.mk.injEq] at h
    obtain ⟨_, _, hs, _⟩ := h
    rw [← hs]
  · simp only [Option.bind_eq_some, Option.some.injEq, Prod.mk.injEq] at h
    obtain ⟨ms, _, ally, hfa, opponent, hfo, _, _, _, _, hs, _⟩ := h
    have ha := fill_frame ms _ ally hfa
    have ho := fill_frame ms _ opponent hfo
    rw [← hs]
    simp only
    rw [← ha, ← ho]

/-- C8. End-to-end single-target turn: when the current actor (valid index `k`) has attack 100 and
submits `turn` with a skill slot holding `demo_attack` against a board position `p` whose
combatant is not undead and has defense 100, maximum life `L > 0` and life `l` with
`200 ≤ l ≤ L`, the declare/resolve/apply steps of `turn` return a state in which the target has
life `l - 200` and life bar `(l - 200) / L` and no other combatant's life or life bar has
changed; the same holds for every state `turn` returns after its final scheduling step. -/
theorem C8_single_target_turn (A : Aliases) (s : CombatSystem) (skill_slot target_pos : Int)
    (k p : Fin 5) (L l : ℚ)
    (hk : idx5 s.main_intent.owner_index = some k)
    (hp : idx5 target_pos = some p)
    (hsheet : ((owner_table s s.main_intent.owner_team_index).character_sheet
      k).skills.active_event_builder skill_slot = some SkillEnum.DEMO_ATTACK)
    (hskill : ((owner_table s s.main_intent.owner_team_index).skills
      k).active_event_builder skill_slot = some SkillEnum.DEMO_ATTACK)
    (hatk : (owner_table s s.main_intent.owner_team_index).atk k = 100)
    (hdef : (other_table s s.main_intent.owner_team_index).def_
      ((other_table s s.main_intent.owner_team_index).pos_to_index p) = 100)
    (htype : ((other_table s s.main_intent.owner_team_index).character_sheet
      ((other_table s s.main_intent.owner_team_index).pos_to_index p)).creature_sheet.type
        ≠ TypeEnum.UNDEAD)
    (hlp : (other_table s s.main_intent.owner_team_index).lp
      ((other_table s s.main_intent.owner_team_index).pos_to_index p) = L)
    (hlife : (other_table s s.main_intent.owner_team_index).life
      ((other_table s s.main_intent.owner_team_index).pos_to_index p) = l)
    (hL : 0 < L) (h200 : 200 ≤ l) (hlL : l ≤ L) :
    (∃ sR, turn_resolve (skill_library A) s skill_slot target_pos = some sR ∧
      OnlyTargetDamaged s sR s.main_intent.owner_team_index
        ((other_table s s.main_intent.owner_team_index).pos_to_index p)
        (l - 200) ((l - 200) / L)) ∧
    (∀ r s', turn (skill_library A) s skill_slot target_pos r = some s' →
      OnlyTargetDamaged s s' s.main_intent.owner_team_index
        ((other_table s s.main_intent.owner_team_index).pos_to_index p)
        (l - 200) ((l - 200) / L)) := by
  -- the declare step
  have hdecl := turn_declare_skill_library A s skill_slot target_pos k SkillEnum.DEMO_ATTACK
    hk hsheet
  generalize hs2 : ({ s with
        main_intent := turn_intent s skill_slot target_pos,
        main_event_queue :=
          { event := [declared_event A SkillEnum.DEMO_ATTACK
            (turn_intent s skill_slot target_pos)] } } : CombatSystem) = s2 at hdecl
  have hown : owner_table s2 s.main_intent.owner_team_index
      = owner_table s s.main_intent.owner_team_index := by
    rw [← hs2]; unfold owner_table; split_ifs <;> rfl
  have hoth : other_table s2 s.main_intent.owner_team_index
      = other_table s s.main_intent.owner_team_index := by
    rw [← hs2]; unfold other_table; split_ifs <;> rfl
  have hmi : s2.main_intent = turn_intent s skill_slot target_pos := by rw [← hs2]
  have hq : s2.main_event_queue.event = [declared_event A SkillEnum.DEMO_ATTACK
      (turn_intent s skill_slot target_pos)] := by rw [← hs2]
  generalize he0 : declared_event A SkillEnum.DEMO_ATTACK
      (turn_intent s skill_slot target_pos) = e0 at hq
  have he0i : e0.intent = turn_intent s skill_slot target_pos := by rw [← he0]; rfl
  have he0n : e0.is_negated = false := by rw [← he0]; rfl
  have he0d : e0.other_pos_damage = fun _ => 0 := by rw [← he0]; rfl
  have he0o : e0.owner_pos_damage = fun _ => 0 := by rw [← he0]; rfl
  have hteam : e0.intent.owner_team_index = s.main_intent.owner_team_index := by
    rw [he0i]; rfl
  -- the resolve-mode builder call
  have hbuild : resolve_builder (skill_library A) s2 e0 =
      some { e0 with other_pos_damage := Function.update e0.other_pos_damage p 200 } := by
    unfold resolve_builder
    have h1 : idx5 e0.intent.owner_index = some k := by rw [he0i]; exact hk
    have h2 : e0.intent.skill_slot = skill_slot := by rw [he0i]; rfl
    have h3 : idx5 (to_uint8 e0.intent.owner_index) = some k := idx5_to_uint8 _ _ h1
    have h4 : idx5 (to_uint8 e0.intent.target_pos) = some p := by
      apply idx5_to_uint8
      rw [he0i]
      exact hp
    have h5 : demo_attack_damage (other_table s s.main_intent.owner_team_index)
        ((other_table s s.main_intent.owner_team_index).pos_to_index p) 100 100
        = some 200 := by
      unfold demo_attack_damage
      rw [if_neg htype]
      exact int_damage_200
    simp only [Option.bind_eq_bind, hteam, hown, hoth, h1, h2, Option.some_bind, hskill,
      skill_library, demo_attack, h3, h4, hatk, hdef, float_to_int_100, h5]
  generalize he1 : ({ e0 with other_pos_damage := Function.update e0.other_pos_damage p 200 }
      : Event) = e1 at hbuild
  have he1d : e1.other_pos_damage = Function.update (fun _ => 0) p 200 := by
    rw [← he1, he0d]
  have he1o : e1.owner_pos_damage = fun _ => 0 := by rw [← he1, he0o]
  have he1i : e1.intent = e0.intent := by rw [← he1]
  -- the damage loop
  have hclamp : clamp_life (l - 200) L = l - 200 := by
    have h1 : ¬ (l - 200 < 0) := by linarith
    have h2 : ¬ (l - 200 > L) := by linarith
    simp only [clamp_life, h1, h2, if_false]
  have hfo : positions.foldlM (damage_step e1.owner_pos_damage)
      (owner_table s s.main_intent.owner_team_index)
      = some (owner_table s s.main_intent.owner_team_index) := by
    apply damage_fold_none
    intro pos _
    rw [he1o]
    exact lt_irrefl 0
  have hft : positions.foldlM (damage_step e1.other_pos_damage)
      (other_table s s.main_intent.owner_team_index)
      = some { other_table s s.main_intent.owner_team_index with
          life := Function.update (other_table s s.main_intent.owner_team_index).life
            ((other_table s s.main_intent.owner_team_index).pos_to_index p) (l - 200),
          life_bar := Function.update (other_table s s.main_intent.owner_team_index).life_bar
            ((other_table s s.main_intent.owner_team_index).pos_to_index p)
            ((l - 200) / L) } := by
    rw [damage_fold_single e1.other_pos_damage p (by rw [he1d]; simp) positions _
      positions_nodup (mem_positions p) (by
        intro pos _ hne
        rw [he1d, Function.update_noteq hne]
        exact lt_irrefl 0)]
    unfold damage_slot
    rw [he1d]
    simp only [Function.update_same, hlp, hlife, hclamp, if_neg (ne_of_gt hL)]
  have hfold := apply_damage_fold_of e1 positions
    (owner_table s s.main_intent.owner_team_index,
      other_table s s.main_intent.owner_team_index) _ _ hfo hft
  generalize hother' : ({ other_table s s.main_intent.owner_team_index with
          life := Function.update (other_table s s.main_intent.owner_team_index).life
            ((other_table s s.main_intent.owner_team_index).pos_to_index p) (l - 200),
          life_bar := Function.update (other_table s s.main_intent.owner_team_index).life_bar
            ((other_table s s.main_intent.owner_team_index).pos_to_index p)
            ((l - 200) / L) } : CharacterTable) = other' at hfold
  have hres : resolve_events (skill_library A) s2 e0 =
      some (consume_turn_bar (set_tables s2 s.main_intent.owner_team_index
        (owner_table s s.main_intent.owner_team_index) other')
          s.main_intent.owner_team_index k, e1) := by
    have hmi3 : (set_tables s2 s.main_intent.owner_team_index
        (owner_table s s.main_intent.owner_team_index) other').main_intent.owner_index
        = s.main_intent.owner_index := by
      unfold set_tables
      split_ifs <;> simp only [hmi] <;> rfl
    unfold resolve_events resolve_event
    simp only [he0n, Bool.false_eq_true, if_false, Option.bind_eq_bind, hbuild,
      Option.some_bind, hteam, hown, hoth, hfold, hmi3, hk, he1i]
  have hturn := turn_resolve_single (skill_library A) s s2 skill_slot target_pos e0 hdecl hq
  rw [hres] at hturn
  simp only [Option.some_bind] at hturn
  -- the state after the loop of `turn`
  have hpost : ∀ sR : CombatSystem,
      owner_table sR s.main_intent.owner_team_index =
        { owner_table s s.main_intent.owner_team_index with
          turn_bar := Function.update
            (owner_table s s.main_intent.owner_team_index).turn_bar k 0 } →
      other_table sR s.main_intent.owner_team_index = other' →
      OnlyTargetDamaged s sR s.main_intent.owner_team_index
        ((other_table s s.main_intent.owner_team_index).pos_to_index p)
        (l - 200) ((l - 200) / L) := by
    intro sR h1 h2
    unfold OnlyTargetDamaged
    rw [h1, h2, ← hother']
    refine ⟨by simp, by simp, ?_, fun i => ⟨rfl, rfl⟩⟩
    intro i hi
    simp [Function.update_noteq hi]
  have htabs := consume_turn_bar_tables (set_tables s2 s.main_intent.owner_team_index
      (owner_table s s.main_intent.owner_team_index) other') s.main_intent.owner_team_index k
  rw [owner_table_set_tables, other_table_set_tables] at htabs
  have hR : ∀ sR, turn_resolve (skill_library A) s skill_slot target_pos = some sR →
      owner_table sR s.main_intent.owner_team_index =
        { owner_table s s.main_intent.owner_team_index with
          turn_bar := Function.update
            (owner_table s s.main_intent.owner_team_index).turn_bar k 0 } ∧
      other_table sR s.main_intent.owner_team_index = other' := by
    intro sR hsR
    rw [hturn] at hsR
    simp only [Option.some.injEq] at hsR
    rw [← hsR]
    constructor
    · refine Eq.trans ?_ htabs.1
      unfold owner_table
      split_ifs <;> rfl
    · refine Eq.trans ?_ htabs.2
      unfold other_table
      split_ifs <;> rfl
  constructor
  · exact ⟨_, hturn, hpost _ (hR _ hturn).1 (hR _ hturn).2⟩
  · intro r s' h
    unfold turn at h
    simp only [Option.bind_eq_bind, Option.bind_eq_some, Option.some.injEq] at h
    obtain ⟨sR, hsR, ⟨s4, intent⟩, hgnc, hs'⟩ := h
    have hfr := get_next_character_frame sR s4 r intent hgnc
    obtain ⟨h1, h2⟩ := hR sR hsR
    have hp1 := hpost sR h1 h2
    unfold OnlyTargetDamaged at hp1 ⊢
    have ho : (owner_table s' s.main_intent.owner_team_index).life
          = (owner_table sR s.main_intent.owner_team_index).life ∧
        (owner_table s' s.main_intent.owner_team_index).life_bar
          = (owner_table sR s.main_intent.owner_team_index).life_bar ∧
        (other_table s' s.main_intent.owner_team_index).life
          = (other_table sR s.main_intent.owner_team_index).life ∧
        (other_table s' s.main_intent.owner_team_index).life_bar
          = (other_table sR s.main_intent.owner_team_index).life_bar := by
      rw [← hs']
      simp only
      rw [hfr]
      unfold owner_table other_table
      split_ifs <;> exact ⟨rfl, rfl, rfl, rfl⟩
    rw [ho.1, ho.2.1, ho.2.2.1, ho.2.2.2]
    exact hp1

/-- C8 at a concrete input: in the duel the Bat (attack 100) attacks the Orc (defense 100, life
1400 of 1400) at board position 0. -/
theorem C8_witness :
    (idx5 duel.main_intent.owner_index = some 0 ∧ idx5 0 = some (0 : Fin 5) ∧
     (owner_table duel duel.main_intent.owner_team_index).atk 0 = 100 ∧
     (other_table duel duel.main_intent.owner_team_index).def_
      ((other_table duel duel.main_intent.owner_team_index).pos_to_index 0) = 100) ∧
    (∃ sR, turn_resolve (skill_library example_aliases) duel 0 0 = some sR ∧
      OnlyTargetDamaged duel sR duel.main_intent.owner_team_index
        ((other_table duel duel.main_intent.owner_team_index).pos_to_index 0)
        (1400 - 200) ((1400 - 200) / 1400)) ∧
    (∀ r s', turn (skill_library example_aliases) duel 0 0 r = some s' →
      OnlyTargetDamaged duel s' duel.main_intent.owner_team_index
        ((other_table duel duel.main_intent.owner_team_index).pos_to_index 0)
        (1400 - 200) ((1400 - 200) / 1400)) ∧
    (turn (skill_library example_aliases) duel 0 0 0).isSome = true :=
  have h := C8_single_target_turn example_aliases duel 0 0 0 0 1400 1400 (by decide)
    (by decide) (by decide!) (by decide!) (by decide!) (by decide!) (by decide!) (by decide!)
    (by decide!) (by norm_num) (by norm_num) (by norm_num)
  ⟨⟨by decide, by decide, by decide!, by decide!⟩, h.1, h.2, by decide!⟩

/-- The lambda `get_negate` sets the flag of the event when `scan_fastest` finds an entry and
leaves the event as it is otherwise. -/
theorem get_negate_eq_some (owner_ct other_ct : CharacterTable) (pt : PassiveTable)
    (e e1 : Event) (flag : Bool) (h : get_negate owner_ct other_ct pt e = some (flag, e1)) :
    scan_fastest owner_ct other_ct pt e = some flag ∧
    e1 = if flag then { e with is_negated := true } else e := by
  unfold get_negate at h
  simp only [Option.bind_eq_bind, Option.bind_eq_some] at h
  obtain ⟨found, hfound, h⟩ := h
  cases found with
  | false =>
    simp only [Bool.not_false, if_true, Option.some.injEq, Prod.mk.injEq] at h
    rw [← h.1, ← h.2]
    exact ⟨hfound, by simp⟩
  | true =>
    simp only [Bool.not_true, Bool.false_eq_true, if_false, Option.some.injEq,
      Prod.mk.injEq] at h
    rw [← h.1, ← h.2]
    exact ⟨hfound, by simp⟩

/-- Clearing the reaction queues changes neither character table and no registry. -/
theorem clear_reaction_queues_tables (s : CombatSystem) (t : Int) :
    owner_table (clear_reaction_queues s) t = owner_table s t ∧
    other_table (clear_reaction_queues s) t = other_table s t ∧
    other_negate_table (clear_reaction_queues s) t = other_negate_table s t ∧
    other_intercept_table (clear_reaction_queues s) t = other_intercept_table s t ∧
    other_react_table (clear_reaction_queues s) t = other_react_table s t := by
  unfold owner_table other_table other_negate_table other_intercept_table other_react_table
    clear_reaction_queues
  exact ⟨rfl, rfl, rfl, rfl, rfl⟩

/-- The three passes of `get_passives`, one after the other. -/
theorem get_passives_eq_some (plib : SkillEnum → PassiveEventBuilder) (candidate : Intent)
    (s s' : CombatSystem) (e e' : Event)
    (h : get_passives plib candidate s e = some (s', e')) :
    ∃ f1 f2 f3 s2,
      get_negate (owner_table s e.intent.owner_team_index)
        (other_table s e.intent.owner_team_index)
        (other_negate_table s e.intent.owner_team_index) e = some (f1, e') ∧
      get_intercept plib candidate (clear_reaction_queues s)
        (owner_table s e.intent.owner_team_index) (other_table s e.intent.owner_team_index)
        (other_intercept_table s e.intent.owner_team_index) e' = some (f2, s2) ∧
      get_reacts plib s2 (owner_table s2 e.intent.owner_team_index)
        (other_table s2 e.intent.owner_team_index)
        (other_react_table s2 e.intent.owner_team_index) e' = some (f3, s') := by
  unfold get_passives at h
  obtain ⟨h1, h2, h3, h4, h5⟩ := clear_reaction_queues_tables s e.intent.owner_team_index
  simp only [h1, h2, h3, h4, h5, Option.bind_eq_bind, Option.bind_eq_some,
    Option.some.injEq, Prod.mk.injEq, Prod.exists] at h
  obtain ⟨f1, e1, hneg, f2, s2, hint, f3, s3, hre, hs, he⟩ := h
  subst hs he
  exact ⟨f1, f2, f3, s2, hneg, hint, hre⟩

/-- With an empty registry `scan_fastest` finds nothing. -/
theorem scan_fastest_empty (owner_ct other_ct : CharacterTable) (pt : PassiveTable) (e : Event)
    (h : pt.count = 0) : scan_fastest owner_ct other_ct pt e = some false := by
  unfold scan_fastest
  rw [h]
  rfl

/-- The lambda `get_intercept` after its scan: nothing happens when no entry was found, and
otherwise `build_passive` is called once, on the local `candidate`. -/
theorem get_intercept_of_scan (plib : SkillEnum → PassiveEventBuilder) (candidate : Intent)
    (s : CombatSystem) (owner_ct other_ct : CharacterTable) (pt : PassiveTable) (e : Event)
    (found : Bool) (h : scan_fastest owner_ct other_ct pt e = some found) :
    get_intercept plib candidate s owner_ct other_ct pt e =
      if found then (build_passive plib s candidate).map fun s1 => (true, s1)
      else some (false, s) := by
  unfold get_intercept
  rw [h]
  cases found with
  | false => rfl
  | true =>
    simp only [Option.bind_eq_bind, Option.some_bind, Bool.not_true, Bool.false_eq_true,
      if_false, if_true]
    cases build_passive plib s candidate <;> rfl

/-- The loop of `scan_all`, whenever it returns, has appended the intents of the valid entries
in the order of the loop. -/
theorem scan_all_fold (owner_ct other_ct : CharacterTable) (pt : PassiveTable) (e : Event) :
    ∀ (l : List Nat) (c c' : List Intent),
      l.foldlM (scan_all_step owner_ct other_ct pt e) c = some c' →
      c' = c ++ (l.filter fun i =>
        decide (passive_is_valid owner_ct other_ct pt e i = some true)).map pt.intent := by
  intro l
  induction l with
  | nil =>
    intro c c' h
    simp only [List.foldlM_nil, Option.pure_def, Option.some.injEq] at h
    simp [h]
  | cons a l ih =>
    intro c c' h
    simp only [List.foldlM_cons, Option.bind_eq_bind, Option.bind_eq_some] at h
    obtain ⟨c1, h1, h2⟩ := h
    unfold scan_all_step at h1
    simp only [Option.bind_eq_bind, Option.bind_eq_some] at h1
    obtain ⟨valid, hvalid, h1⟩ := h1
    rw [ih c1 c' h2]
    cases valid with
    | false =>
      simp only [Bool.false_eq_true, if_false, Option.some.injEq] at h1
      subst h1
      simp [List.filter_cons, hvalid]
    | true =>
      simp only [if_true] at h1
      split_ifs at h1 with hlen
      simp only [Option.some.injEq] at h1
      subst h1
      simp [List.filter_cons, hvalid]

/-- The loop of `scan_all` returns when the validity test is defined on every entry and the
valid entries fit the array of eight candidates. -/
theorem scan_all_fold_total (owner_ct other_ct : CharacterTable) (pt : PassiveTable)
    (e : Event) :
    ∀ (l : List Nat) (c : List Intent),
      (∀ i ∈ l, passive_is_valid owner_ct other_ct pt e i ≠ none) →
      c.length + (l.filter fun i =>
        decide (passive_is_valid owner_ct other_ct pt e i = some true)).length ≤ 8 →
      ∃ c', l.foldlM (scan_all_step owner_ct other_ct pt e) c = some c' := by
  intro l
  induction l with
  | nil =>
    intro c _ _
    exact ⟨c, rfl⟩
  | cons a l ih =>
    intro c hdef hlen
    have ha := hdef a (List.mem_cons_self a l)
    obtain ⟨valid, hvalid⟩ := Option.ne_none_iff_exists'.mp ha
    have hl : ∀ i ∈ l, passive_is_valid owner_ct other_ct pt e i ≠ none :=
      fun i hi => hdef i (List.mem_cons_of_mem a hi)
    cases valid with
    | false =>
      have hstep : scan_all_step owner_ct other_ct pt e c a = some c := by
        simp [scan_all_step, hvalid]
      have hlen' : c.length + (l.filter fun i =>
          decide (passive_is_valid owner_ct other_ct pt e i = some true)).length ≤ 8 := by
        simpa [List.filter_cons, hvalid] using hlen
      obtain ⟨c', hc'⟩ := ih c hl hlen'
      exact ⟨c', by simp [hstep, hc']⟩
    | true =>
      have hlen2 : c.length + ((l.filter fun i =>
          decide (passive_is_valid owner_ct other_ct pt e i = some true)).length + 1) ≤ 8 := by
        simpa [List.filter_cons, hvalid] using hlen
      have hstep : scan_all_step owner_ct other_ct pt e c a = some (c ++ [pt.intent a]) := by
        have : c.length < 8 := by omega
        simp [scan_all_step, hvalid, this]
      obtain ⟨c', hc'⟩ := ih (c ++ [pt.intent a]) hl
        (by simp only [List.length_append, List.length_singleton]; omega)
      exact ⟨c', by simp [hstep, hc']⟩

/-- The lambda `get_reacts`, whenever it returns, has called `build_passive` on the intents of
the valid entries, in registry order, and returns whether there was one. -/
theorem get_reacts_eq_some (plib : SkillEnum → PassiveEventBuilder) (s s' : CombatSystem)
    (owner_ct other_ct : CharacterTable) (pt : PassiveTable) (e : Event) (flag : Bool)
    (h : get_reacts plib s owner_ct other_ct pt e = some (flag, s')) :
    (valid_intents owner_ct other_ct pt e).foldlM (build_passive plib) s = some s' ∧
    (flag = true ↔ valid_intents owner_ct other_ct pt e ≠ []) := by
  unfold get_reacts scan_all at h
  simp only [Option.bind_eq_bind, Option.bind_eq_some, Option.some.injEq, Prod.exists,
    Prod.mk.injEq] at h
  obtain ⟨found, c, ⟨c1, hfold, hfound, hc⟩, h⟩ := h
  subst hc
  have hc := scan_all_fold owner_ct other_ct pt e _ [] c1 hfold
  rw [List.nil_append] at hc
  have hvi : valid_intents owner_ct other_ct pt e = c1 := by
    rw [hc]
    rfl
  rw [hvi]
  by_cases hnil : c1 = []
  · subst hnil
    simp only [List.length_nil, gt_iff_lt, lt_self_iff_false, decide_False] at hfound
    subst hfound
    simp only [Bool.not_false, if_true, Option.some.injEq, Prod.mk.injEq] at h
    rw [← h.1, ← h.2]
    simp
  · have hpos : 0 < c1.length := List.length_pos.mpr hnil
    simp only [gt_iff_lt, hpos, decide_True] at hfound
    subst hfound
    simp only [Bool.not_true, Bool.false_eq_true, if_false, Option.bind_eq_some,
      Option.some.injEq, Prod.mk.injEq] at h
    obtain ⟨s1, hs1, hflag, hs⟩ := h
    subst hs
    rw [← hflag]
    exact ⟨hs1, by simp [hnil]⟩

/-- The three passes of `get_passives` compose to its result. -/
theorem get_passives_of_passes (plib : SkillEnum → PassiveEventBuilder) (candidate : Intent)
    (s s2 s3 : CombatSystem) (e e1 : Event) (f1 f2 f3 : Bool)
    (h1 : get_negate (owner_table s e.intent.owner_team_index)
      (other_table s e.intent.owner_team_index)
      (other_negate_table s e.intent.owner_team_index) e = some (f1, e1))
    (h2 : get_intercept plib candidate (clear_reaction_queues s)
      (owner_table s e.intent.owner_team_index) (other_table s e.intent.owner_team_index)
      (other_intercept_table s e.intent.owner_team_index) e1 = some (f2, s2))
    (h3 : get_reacts plib s2 (owner_table s2 e.intent.owner_team_index)
      (other_table s2 e.intent.owner_team_index)
      (other_react_table s2 e.intent.owner_team_index) e1 = some (f3, s3)) :
    get_passives plib candidate s e = some (s3, e1) := by
  unfold get_passives
  obtain ⟨t1, t2, t3, t4, t5⟩ := clear_reaction_queues_tables s e.intent.owner_team_index
  simp only [t1, t2, t3, t4, t5, h1, h2, h3, Option.bind_eq_bind, Option.some_bind]

/-- The react pass as a function of the valid entries: when the validity test is defined on every
entry and at most eight entries are valid, `get_reacts` is the sequence of `build_passive` calls
on the intents of the valid entries. -/
theorem get_reacts_eq (plib : SkillEnum → PassiveEventBuilder) (s : CombatSystem)
    (owner_ct other_ct : CharacterTable) (pt : PassiveTable) (e : Event)
    (hdef : ∀ i < pt.count, passive_is_valid owner_ct other_ct pt e i ≠ none)
    (hlen : (valid_entries owner_ct other_ct pt e).length ≤ 8) :
    get_reacts plib s owner_ct other_ct pt e =
      ((valid_intents owner_ct other_ct pt e).foldlM (build_passive plib) s).map fun s1 =>
        (decide (valid_intents owner_ct other_ct pt e ≠ []), s1) := by
  obtain ⟨c, hc⟩ := scan_all_fold_total owner_ct other_ct pt e (List.range pt.count) []
    (fun i hi => hdef i (List.mem_range.mp hi)) (by simpa [valid_entries] using hlen)
  have hc2 := scan_all_fold owner_ct other_ct pt e _ [] c hc
  rw [List.nil_append] at hc2
  have hvi : valid_intents owner_ct other_ct pt e = c := by
    rw [hc2]
    rfl
  rw [hvi]
  unfold get_reacts scan_all
  simp only [hc, Option.bind_eq_bind, Option.some_bind]
  by_cases hnil : c = []
  · subst hnil
    simp
  · have hpos : 0 < c.length := List.length_pos.mpr hnil
    simp only [gt_iff_lt, hpos, decide_True, Bool.not_true, Bool.false_eq_true, if_false,
      ne_eq, hnil, not_false_eq_true]
    cases List.foldlM (build_passive plib) s c <;> rfl

/-- The loop of `scan_fastest`, started without a candidate: a candidate at the end comes from a
valid entry whose reactor has a speed of at least `-1`. -/
theorem scan_fastest_fold_witness (owner_ct other_ct : CharacterTable) (pt : PassiveTable)
    (e : Event) :
    ∀ (l : List Nat) (st st' : ScanState), st.candidates = [] → st.highest_speed = -1 →
      l.foldlM (scan_fastest_step owner_ct other_ct pt e) st = some st' →
      st'.candidates ≠ [] →
      ∃ i ∈ l, ∃ j, passive_is_valid owner_ct other_ct pt e i = some true ∧
        idx5 (pt.intent i).owner_index = some j ∧ -1 ≤ other_ct.spe j := by
  intro l
  induction l with
  | nil =>
    intro st st' hc _ h hne
    simp only [List.foldlM_nil, Option.pure_def, Option.some.injEq] at h
    subst h
    exact absurd hc hne
  | cons a l ih =>
    intro st st' hc hs h hne
    simp only [List.foldlM_cons, Option.bind_eq_bind, Option.bind_eq_some] at h
    obtain ⟨st1, h1, h2⟩ := h
    unfold scan_fastest_step at h1
    simp only [Option.bind_eq_bind, Option.bind_eq_some] at h1
    obtain ⟨valid, hvalid, h1⟩ := h1
    cases valid with
    | false =>
      simp only [Bool.false_eq_true, if_false, Option.some.injEq] at h1
      subst h1
      obtain ⟨i, hi, hrest⟩ := ih st st' hc hs h2 hne
      exact ⟨i, List.mem_cons_of_mem a hi, hrest⟩
    | true =>
      simp only [if_true, Option.bind_eq_some] at h1
      obtain ⟨j, hj, hrec⟩ := h1
      by_cases hspe : -1 ≤ other_ct.spe j
      · exact ⟨a, List.mem_cons_self a l, j, hvalid, hj, hspe⟩
      · have hst1 : st1 = st := by
          unfold record_candidate at hrec
          rw [hs] at hrec
          have h1 : ¬ other_ct.spe j > -1 := fun hgt => hspe (le_of_lt hgt)
          have h2 : ¬ other_ct.spe j = -1 := fun heq => hspe (le_of_eq heq.symm)
          simp only [h1, h2, if_false, Option.some.injEq] at hrec
          exact hrec.symm
        subst hst1
        obtain ⟨i, hi, hrest⟩ := ih st1 st' hc hs h2 hne
        exact ⟨i, List.mem_cons_of_mem a hi, hrest⟩

/-- The flag `scan_fastest` returns: it is true exactly when an entry of the registry is valid
and its reactor has a speed of at least `-1`, the initial `highest_speed` of the scan. -/
theorem scan_fastest_spec (owner_ct other_ct : CharacterTable) (pt : PassiveTable) (e : Event)
    (found : Bool) (h : scan_fastest owner_ct other_ct pt e = some found) :
    found = true ↔ ∃ i < pt.count, ∃ j,
      passive_is_valid owner_ct other_ct pt e i = some true ∧
      idx5 (pt.intent i).owner_index = some j ∧ -1 ≤ other_ct.spe j := by
  unfold scan_fastest at h
  simp only [Option.bind_eq_bind, Option.bind_eq_some] at h
  obtain ⟨st, hfold, hfound⟩ := h
  constructor
  · intro hf
    subst hf
    have hne : st.candidates ≠ [] := by
      intro hc
      rw [hc] at hfound
      simp at hfound
    obtain ⟨i, hi, hrest⟩ := scan_fastest_fold_witness owner_ct other_ct pt e _
      ScanState.init st rfl rfl hfold hne
    exact ⟨i, List.mem_range.mp hi, hrest⟩
  · rintro ⟨i, hi, j, hv, hj, hs⟩
    have hst := (scan_fastest_fold owner_ct other_ct pt e _ ScanState.init st
      (fun _ => rfl) hfold).2.2 ⟨i, List.mem_range.mpr hi, j, hv, hj, hs⟩
    have hlen : st.candidates.length ≠ 0 := fun hc => hst (List.length_eq_zero.mp hc)
    simp only [hlen, if_false, Option.some.injEq] at hfound
    exact hfound.symm

/-- The negate pass of `get_passives`: whenever `get_passives` returns, the event differs from the
given one at most in `is_negated`, and the flag is true exactly when it was true before or an
entry of the opposing negate registry is valid for the event and has a reactor whose speed is at
least `-1`, the initial `highest_speed` of the scan.  The negate pass calls no passive builder:
with empty intercept and react registries, and whatever the builder library, the state after
`get_passives` is the given state with the four reaction queues cleared, and the call returns
when the negate registry has at most eight entries on all of which the validity test is
defined. -/
theorem get_passives_negate_spec (plib : SkillEnum → PassiveEventBuilder) (candidate : Intent)
    (s : CombatSystem) (e : Event) :
    (∀ s' e', get_passives plib candidate s e = some (s', e') →
      e' = { e with is_negated := e'.is_negated } ∧
      (e'.is_negated = true ↔ e.is_negated = true ∨
        ∃ i < (other_negate_table s e.intent.owner_team_index).count, ∃ j,
          passive_is_valid (owner_table s e.intent.owner_team_index)
            (other_table s e.intent.owner_team_index)
            (other_negate_table s e.intent.owner_team_index) e i = some true ∧
          idx5 ((other_negate_table s e.intent.owner_team_index).intent i).owner_index
            = some j ∧
          -1 ≤ (other_table s e.intent.owner_team_index).spe j)) ∧
    ((other_intercept_table s e.intent.owner_team_index).count = 0 →
      (other_react_table s e.intent.owner_team_index).count = 0 →
      (∀ s' e', get_passives plib candidate s e = some (s', e') →
        s' = clear_reaction_queues s) ∧
      ((other_negate_table s e.intent.owner_team_index).count ≤ 8 →
        (∀ n < (other_negate_table s e.intent.owner_team_index).count,
          passive_is_valid (owner_table s e.intent.owner_team_index)
            (other_table s e.intent.owner_team_index)
            (other_negate_table s e.intent.owner_team_index) e n ≠ none) →
        ∃ e', get_passives plib candidate s e = some (clear_reaction_queues s, e'))) := by
  constructor
  · intro s' e' h
    obtain ⟨f1, f2, f3, s2, hneg, -, -⟩ := get_passives_eq_some plib candidate s s' e e' h
    obtain ⟨hscan, he'⟩ := get_negate_eq_some _ _ _ _ _ _ hneg
    have hiff := scan_fastest_spec _ _ _ e f1 hscan
    cases f1 with
    | false =>
      simp only [Bool.false_eq_true, if_false] at he'
      subst he'
      refine ⟨rfl, ?_⟩
      constructor
      · exact fun h => Or.inl h
      · rintro (h | h)
        · exact h
        · exact absurd (hiff.mpr h) (by decide)
    | true =>
      simp only [if_true] at he'
      subst he'
      exact ⟨rfl, fun _ => Or.inr (hiff.mp rfl), fun _ => rfl⟩
  · intro hint hreact
    have hI : ∀ e1, get_intercept plib candidate (clear_reaction_queues s)
        (owner_table s e.intent.owner_team_index) (other_table s e.intent.owner_team_index)
        (other_intercept_table s e.intent.owner_team_index) e1
          = some (false, clear_reaction_queues s) := by
      intro e1
      rw [get_intercept_of_scan plib candidate _ _ _ _ e1 false
        (scan_fastest_empty _ _ _ e1 hint)]
      rfl
    have hreact2 : (other_react_table (clear_reaction_queues s)
        e.intent.owner_team_index).count = 0 := by
      rw [(clear_reaction_queues_tables s e.intent.owner_team_index).2.2.2.2]
      exact hreact
    have hR : ∀ e1, get_reacts plib (clear_reaction_queues s)
        (owner_table (clear_reaction_queues s) e.intent.owner_team_index)
        (other_table (clear_reaction_queues s) e.intent.owner_team_index)
        (other_react_table (clear_reaction_queues s) e.intent.owner_team_index) e1
          = some (false, clear_reaction_queues s) := by
      intro e1
      unfold get_reacts scan_all
      rw [hreact2]
      rfl
    constructor
    · intro s' e' h
      obtain ⟨f1, f2, f3, s2, -, hi, hr⟩ := get_passives_eq_some plib candidate s s' e e' h
      rw [hI e'] at hi
      simp only [Option.some.injEq, Prod.mk.injEq] at hi
      rw [← hi.2, hR e'] at hr
      simp only [Option.some.injEq, Prod.mk.injEq] at hr
      exact hr.2.symm
    · intro hcount hdef
      obtain ⟨st, hst⟩ := scan_fastest_fold_total (owner_table s e.intent.owner_team_index)
        (other_table s e.intent.owner_team_index)
        (other_negate_table s e.intent.owner_team_index) e
        (List.range (other_negate_table s e.intent.owner_team_index).count) ScanState.init
        (fun n hn => hdef n (List.mem_range.mp hn))
        (by simpa [ScanState.init] using hcount)
      have hret : ∃ res, get_negate (owner_table s e.intent.owner_team_index)
          (other_table s e.intent.owner_team_index)
          (other_negate_table s e.intent.owner_team_index) e = some res := by
        unfold get_negate scan_fastest
        simp only [Option.bind_eq_bind, hst, Option.some_bind]
        split_ifs <;> simp
      obtain ⟨⟨f1, e1⟩, hres⟩ := hret
      exact ⟨e1, get_passives_of_passes plib candidate s _ _ e e1 f1 false false hres
        (hI e1) (hR e1)⟩

/-- C12. The intercept pass does not call the builder with the intent of a valid entry: in the
watched duel the entries 0 and 2 of the intercept registry are valid for the attack the Bat
declares, with the intents `⟨1, 0, 0, 0⟩` and `⟨1, 0, 1, 0⟩` of the Orc, and `get_intercept`
makes exactly the one call `build_passive(candidate)` on its own local `candidate`, whatever
value it holds: a zero-initialised `candidate` calls a builder of the Bat with the intent
`⟨0, 0, 0, 0⟩`, and a `candidate` whose index is out of range makes the call undefined. -/
theorem C12_intercept_calls_unwritten_candidate :
    valid_intents watched_duel.ally_character_table watched_duel.opponent_character_table
      watched_duel.opponent_intercept_table declared_attack = [⟨1, 0, 0, 0⟩, ⟨1, 0, 1, 0⟩] ∧
    (∀ candidate : Intent,
      get_intercept recording_library candidate watched_duel
        watched_duel.ally_character_table watched_duel.opponent_character_table
        watched_duel.opponent_intercept_table declared_attack =
      (build_passive recording_library watched_duel candidate).map fun s1 => (true, s1)) ∧
    (get_intercept recording_library ⟨0, 0, 0, 0⟩ watched_duel
        watched_duel.ally_character_table watched_duel.opponent_character_table
        watched_duel.opponent_intercept_table declared_attack).map
      (fun r => recorded_intents r.2) = some [⟨0, 0, 0, 0⟩] ∧
    (get_intercept recording_library ⟨0, 7, 0, 0⟩ watched_duel
        watched_duel.ally_character_table watched_duel.opponent_character_table
        watched_duel.opponent_intercept_table declared_attack).map
      (fun r => recorded_intents r.2) = none := by
  refine ⟨by decide!, ?_, by decide!, by decide!⟩
  intro candidate
  exact get_intercept_of_scan recording_library candidate watched_duel _ _ _ declared_attack
    true (by decide!)

/-- C13. React pass: for a registry on all of whose entries the validity test is defined and of
which at most eight are valid for the event, `get_reacts` is the sequence of `build_passive`
calls on the intents of the valid entries, which are the entries `i < count` with
`passive_is_valid` true, in increasing order of `i`, each once; and whenever `get_passives`
returns, its final state is reached by these calls from the state the intercept pass has left. -/
theorem C13_react_pass (plib : SkillEnum → PassiveEventBuilder) (s : CombatSystem)
    (owner_ct other_ct : CharacterTable) (pt : PassiveTable) (e : Event)
    (hdef : ∀ i < pt.count, passive_is_valid owner_ct other_ct pt e i ≠ none)
    (hlen : (valid_entries owner_ct other_ct pt e).length ≤ 8) :
    get_reacts plib s owner_ct other_ct pt e =
      ((((valid_entries owner_ct other_ct pt e).map pt.intent).foldlM
        (build_passive plib) s).map fun s1 =>
          (decide ((valid_entries owner_ct other_ct pt e).map pt.intent ≠ []), s1)) ∧
    (∀ i, i ∈ valid_entries owner_ct other_ct pt e ↔
      i < pt.count ∧ passive_is_valid owner_ct other_ct pt e i = some true) ∧
    (valid_entries owner_ct other_ct pt e).Sorted (fun a b => a < b) ∧
    (∀ candidate s' e', get_passives plib candidate s e = some (s', e') →
      ∃ s2, ((valid_entries (owner_table s2 e.intent.owner_team_index)
          (other_table s2 e.intent.owner_team_index)
          (other_react_table s2 e.intent.owner_team_index) e').map
          (other_react_table s2 e.intent.owner_team_index).intent).foldlM
            (build_passive plib) s2 = some s') := by
  refine ⟨get_reacts_eq plib s owner_ct other_ct pt e hdef hlen, ?_, ?_, ?_⟩
  · intro i
    simp [valid_entries]
  · unfold valid_entries
    exact List.Pairwise.sublist (List.filter_sublist _) (List.pairwise_lt_range _)
  · intro candidate s' e' h
    obtain ⟨f1, f2, f3, s2, -, -, hr⟩ := get_passives_eq_some plib candidate s s' e e' h
    exact ⟨s2, (get_reacts_eq_some plib s2 s' _ _ _ e' f3 hr).1⟩

/-- C13 at a concrete input: the react registry of the watched duel, whose entries 0 and 2 are
valid for the attack the Bat declares; the recording builders are called with the intents of
these two entries, in this order. -/
theorem C13_witness :
    (∀ i < watched_duel.opponent_react_table.count,
      passive_is_valid watched_duel.ally_character_table watched_duel.opponent_character_table
        watched_duel.opponent_react_table declared_attack i ≠ none) ∧
    valid_entries watched_duel.ally_character_table watched_duel.opponent_character_table
      watched_duel.opponent_react_table declared_attack = [0, 2] ∧
    (get_reacts recording_library watched_duel watched_duel.ally_character_table
      watched_duel.opponent_character_table watched_duel.opponent_react_table
      declared_attack).map (fun r => (r.1, recorded_intents r.2))
        = some (true, [⟨1, 0, 0, 0⟩, ⟨1, 0, 1, 0⟩]) ∧
    get_reacts recording_library watched_duel watched_duel.ally_character_table
      watched_duel.opponent_character_table watched_duel.opponent_react_table declared_attack =
      (((valid_entries watched_duel.ally_character_table
          watched_duel.opponent_character_table watched_duel.opponent_react_table
          declared_attack).map watched_duel.opponent_react_table.intent).foldlM
        (build_passive recording_library) watched_duel).map fun s1 =>
          (decide ((valid_entries watched_duel.ally_character_table
            watched_duel.opponent_character_table watched_duel.opponent_react_table
            declared_attack).map watched_duel.opponent_react_table.intent ≠ []), s1) :=
  ⟨by decide!, by decide!, by decide!,
    (C13_react_pass recording_library watched_duel watched_duel.ally_character_table
      watched_duel.opponent_character_table watched_duel.opponent_react_table declared_attack
      (by decide!) (by decide!)).1⟩

/-- C14. A reactor whose life is 0 still reacts: in the weakened duel the attack of the Bat
takes the life of the Orc from 150 to 0, the value at which `resolve_event` clamps it, and the
negate entry of the Orc is still valid for an attack of the Bat, since `passive_is_valid` rejects
a reactor only when its life is below 0. -/
theorem C14_dead_reactor_is_valid :
    ((roll_initiative weakened_duel 0).map fun s0 =>
      s0.opponent_character_table.life 0) = some 150 ∧
    ((roll_initiative weakened_duel 0).bind fun s0 =>
      (turn (skill_library example_aliases) s0 0 0 0).map fun s =>
        (s.opponent_character_table.life 0,
         (s.opponent_negate_table.intent 0).owner_index,
         passive_is_valid s.ally_character_table s.opponent_character_table
           s.opponent_negate_table declared_attack 0)) = some (0, 0, some true) := by
  decide!

/-- The tests of `passive_is_valid` in the order of the source, for a reactor index in range. -/
theorem passive_is_valid_eq (owner_ct other_ct : CharacterTable) (pt : PassiveTable)
    (e : Event) (i : Nat) (j : Fin 5) (hj : idx5 (pt.intent i).owner_index = some j) :
    passive_is_valid owner_ct other_ct pt e i =
      if other_ct.life j < 0 ∨ other_ct.index_to_pos j < 0 then some false
      else if (pt.observed_effect_bitmask i) &&& e.effect_bitmask = 0 then some false
      else (target_match other_ct pt e i).map fun tm =>
        (decide (pt.observed_caster_index i = -1) ||
          decide (pt.observed_caster_index i = e.intent.owner_index) || tm) &&
        pt.condition i owner_ct other_ct e.intent := by
  unfold passive_is_valid target_match
  simp only [hj, Option.bind_eq_bind, Option.some_bind]
  generalize pt.condition i owner_ct other_ct e.intent = c
  generalize (decide (pt.observed_caster_index i = -1) ||
    decide (pt.observed_caster_index i = e.intent.owner_index)) = cm
  by_cases h1 : other_ct.life j < 0 ∨ other_ct.index_to_pos j < 0
  · simp only [h1, if_true]
  · simp only [h1, if_false]
    by_cases h2 : (pt.observed_effect_bitmask i) &&& e.effect_bitmask = 0
    · simp only [h2, if_true]
    · simp only [h2, if_false]
      by_cases h3 : pt.observed_target_index i = -1
      · simp only [h3, if_true, Option.some_bind, Option.map_some']
        cases cm <;> cases c <;> rfl
      · simp only [h3, if_false]
        cases idx5 e.intent.target_pos with
        | none => rfl
        | some pos =>
          simp only [Option.map_some', Option.some_bind]
          generalize decide (pt.observed_target_index i =
            ((other_ct.pos_to_index pos).val : Int)) = tm
          cases cm <;> cases tm <;> cases c <;> rfl

/-- C15. Caster/target matching uses OR: for a registry entry whose reactor index `j` is in
range, `passive_is_valid` returns false when the bitmasks are disjoint, and returns false when
the guard returns false (the target test being defined).  When the reactor passes the
life/position check, the bitmasks have a bit in common and the guard returns true, it returns,
for a target position `p` in range, true exactly when `observed_caster_index` is `-1` or the
caster index of the event, or `observed_target_index` is `-1` or `pos_to_index[p]` of the
reacting table, and false otherwise; with `observed_target_index = -1` it returns true whatever
the target position. -/
theorem C15_caster_target_or (owner_ct other_ct : CharacterTable) (pt : PassiveTable)
    (e : Event) (i : Nat) (j : Fin 5) (hj : idx5 (pt.intent i).owner_index = some j) :
    (¬ (other_ct.life j < 0 ∨ other_ct.index_to_pos j < 0) →
      (pt.observed_effect_bitmask i) &&& e.effect_bitmask ≠ 0 →
      pt.condition i owner_ct other_ct e.intent = true →
      (∀ p, idx5 e.intent.target_pos = some p →
        passive_is_valid owner_ct other_ct pt e i = some (decide
          ((pt.observed_caster_index i = -1 ∨
            pt.observed_caster_index i = e.intent.owner_index) ∨
          (pt.observed_target_index i = -1 ∨
            pt.observed_target_index i = ((other_ct.pos_to_index p).val : Int))))) ∧
      (pt.observed_target_index i = -1 →
        passive_is_valid owner_ct other_ct pt e i = some true)) ∧
    ((pt.observed_effect_bitmask i) &&& e.effect_bitmask = 0 →
      passive_is_valid owner_ct other_ct pt e i = some false) ∧
    (pt.condition i owner_ct other_ct e.intent = false →
      passive_is_valid owner_ct other_ct pt e i ≠ some true ∧
      ((pt.observed_target_index i = -1 ∨ ∃ p, idx5 e.intent.target_pos = some p) →
        passive_is_valid owner_ct other_ct pt e i = some false)) := by
  rw [passive_is_valid_eq owner_ct other_ct pt e i j hj]
  refine ⟨?_, ?_, ?_⟩
  · intro hlive hbits hguard
    simp only [hlive, hbits, hguard, if_false, Bool.and_true]
    constructor
    · intro p hp
      unfold target_match
      by_cases hoti : pt.observed_target_index i = -1
      · simp [hoti]
      · simp [hoti, hp, Bool.decide_or]
    · intro hoti
      simp [target_match, hoti]
  · intro hbits
    simp only [hbits, if_true]
    split_ifs <;> rfl
  · intro hguard
    simp only [hguard, Bool.and_false]
    constructor
    · split_ifs
      · simp
      · simp
      · cases target_match other_ct pt e i <;> simp
    · intro hdef
      have hret : ∃ b, target_match other_ct pt e i = some b := by
        unfold target_match
        rcases hdef with hoti | ⟨p, hp⟩
        · exact ⟨true, by simp [hoti]⟩
        · split_ifs
          · exact ⟨_, rfl⟩
          · exact ⟨_, by rw [hp]; rfl⟩
      obtain ⟨b, hb⟩ := hret
      rw [hb]
      split_ifs <;> rfl

/-- C15 at a concrete input: the negate entry of the guarded duel, which observes every caster
and every target, and the attack declared by the Bat. -/
theorem C15_witness :
    idx5 (guard_all_table.intent 0).owner_index = some 0 ∧
    passive_is_valid guarded_duel.ally_character_table guarded_duel.opponent_character_table
      guard_all_table declared_attack 0 = some true :=
  ⟨by decide, ((C15_caster_target_or guarded_duel.ally_character_table
    guarded_duel.opponent_character_table guard_all_table declared_attack 0 0
    (by decide)).1 (by decide!) (by decide) (by decide)).2 (by decide)⟩

/-- The value of a defined damage expression `k*owner_atk/other_def`: the divisor is not zero
and the quotient is truncated. -/
theorem int_damage_eq_some (k a d : Int) (q : ℚ) (h : int_damage k a d = some q) :
    d ≠ 0 ∧ q = ((Int.tdiv (k * a) d : Int) : ℚ) := by
  unfold int_damage int_mul int_div at h
  simp only [Option.bind_eq_bind, Option.bind_eq_some] at h
  obtain ⟨p, hp, qt, hq, hres⟩ := h
  split_ifs at hp
  simp only [Option.some.injEq] at hp
  subst hp
  split_ifs at hq with hd
  simp only [Option.some.injEq] at hq hres
  subst hq
  exact ⟨hd, hres.symm⟩

/-- The damage expression is defined for a divisor other than zero and a product within the
range of `int`. -/
theorem int_damage_total (k a d : Int) (hd : d ≠ 0) (hlo : -2147483648 < k * a)
    (hhi : k * a < 2147483648) : ∃ q, int_damage k a d = some q := by
  have h1 : in_int_range (k * a) = true := by
    simp only [in_int_range, Bool.and_eq_true, decide_eq_true_eq]
    omega
  have habs : (Int.tdiv (k * a) d).natAbs ≤ (k * a).natAbs := by
    rw [Int.natAbs_tdiv]
    exact Nat.div_le_self _ _
  have h2 : in_int_range (Int.tdiv (k * a) d) = true := by
    simp only [in_int_range, Bool.and_eq_true, decide_eq_true_eq]
    omega
  exact ⟨((Int.tdiv (k * a) d : Int) : ℚ), by simp [int_damage, int_mul, int_div, h1, h2, hd]⟩

/-- The damage of `demo_cleave` is the damage expression with the factor of the target. -/
theorem demo_cleave_damage_eq (other_ct : CharacterTable) (target_index : Fin 5)
    (a d : Int) :
    demo_cleave_damage other_ct target_index a d =
      int_damage (cleave_factor other_ct target_index) a d := by
  unfold demo_cleave_damage cleave_factor
  split_ifs <;> rfl

/-- The resolve-mode loop of `demo_cleave` over a list of positions: only `other_pos_damage`
changes, at the positions of the list, and each of them receives the damage computed from the
stats at its table index. -/
theorem demo_cleave_fold (other_ct : CharacterTable) (atk : Int) :
    ∀ (l : List (Fin 5)) (ev ev' : Event),
      l.foldlM (demo_cleave_step other_ct atk) ev = some ev' →
      ev' = { ev with other_pos_damage := ev'.other_pos_damage } ∧
      (∀ pos, pos ∉ l → ev'.other_pos_damage pos = ev.other_pos_damage pos) ∧
      (l.Nodup → ∀ pos ∈ l, ∃ d,
        float_to_int (other_ct.def_ (other_ct.pos_to_index pos)) = some d ∧ d ≠ 0 ∧
        ev'.other_pos_damage pos =
          ((Int.tdiv (cleave_factor other_ct (other_ct.pos_to_index pos) * atk) d : Int)
            : ℚ)) := by
  intro l
  induction l with
  | nil =>
    intro ev ev' h
    simp only [List.foldlM_nil, Option.pure_def, Option.some.injEq] at h
    subst h
    exact ⟨rfl, fun _ _ => rfl, fun _ pos hpos => absurd hpos (List.not_mem_nil pos)⟩
  | cons a l ih =>
    intro ev ev' h
    simp only [List.foldlM_cons, Option.bind_eq_bind, Option.bind_eq_some] at h
    obtain ⟨ev1, h1, h2⟩ := h
    unfold demo_cleave_step at h1
    simp only [Option.bind_eq_bind, Option.bind_eq_some, Option.some.injEq] at h1
    obtain ⟨d, hd, dmg, hdmg, hev1⟩ := h1
    rw [demo_cleave_damage_eq] at hdmg
    obtain ⟨hd0, hq⟩ := int_damage_eq_some _ _ _ _ hdmg
    obtain ⟨hfr, hout, hin⟩ := ih ev1 ev' h2
    subst hev1
    refine ⟨?_, ?_, ?_⟩
    · rw [hfr]
    · intro pos hpos
      rw [hout pos (fun hc => hpos (List.mem_cons_of_mem a hc))]
      exact Function.update_noteq
        (fun hc : pos = a => hpos (by rw [hc]; exact List.mem_cons_self a l)) _ _
    · intro hnd pos hpos
      rcases List.mem_cons.mp hpos with hpa | hpl
      · subst hpa
        refine ⟨d, hd, hd0, ?_⟩
        rw [hout pos (List.nodup_cons.mp hnd).1, ← hq]
        exact Function.update_same _ _ _
      · exact hin (List.nodup_cons.mp hnd).2 pos hpl

/-- The resolve-mode loop of `demo_cleave` returns when every defense converts to an `int`
other than zero and the products stay within the range of `int`. -/
theorem demo_cleave_fold_total (other_ct : CharacterTable) (atk : Int)
    (hatk : -10000000 ≤ atk ∧ atk ≤ 10000000)
    (hdef : ∀ pos, ∃ d, float_to_int (other_ct.def_ (other_ct.pos_to_index pos)) = some d ∧
      d ≠ 0) :
    ∀ (l : List (Fin 5)) (ev : Event),
      ∃ ev', l.foldlM (demo_cleave_step other_ct atk) ev = some ev' := by
  intro l
  induction l with
  | nil => exact fun ev => ⟨ev, rfl⟩
  | cons a l ih =>
    intro ev
    obtain ⟨d, hd, hd0⟩ := hdef a
    have hk : cleave_factor other_ct (other_ct.pos_to_index a) = 200 ∨
        cleave_factor other_ct (other_ct.pos_to_index a) = 100 := by
      unfold cleave_factor
      split_ifs
      · exact Or.inl rfl
      · exact Or.inr rfl
    obtain ⟨q, hq⟩ := int_damage_total (cleave_factor other_ct (other_ct.pos_to_index a)) atk d
      hd0 (by rcases hk with h | h <;> rw [h] <;> omega)
      (by rcases hk with h | h <;> rw [h] <;> omega)
    have hstep : ∃ ev1, demo_cleave_step other_ct atk ev a = some ev1 := by
      unfold demo_cleave_step
      simp only [Option.bind_eq_bind, hd, Option.some_bind, demo_cleave_damage_eq, hq]
      exact ⟨_, rfl⟩
    obtain ⟨ev1, hev1⟩ := hstep
    obtain ⟨ev', hev'⟩ := ih ev1
    exact ⟨ev', by simp [hev1, hev']⟩

/-- Resolve mode of `demo_cleave` on every board position: whenever the call
returns, only `other_pos_damage` of the event has changed, and every opposing board position,
whether a combatant stands there or not, holds the damage `k*atk/def` of `int` arithmetic, with
`k = 200` for an undead sheet at its table index and `k = 100` otherwise, `atk` the attack of
the owner and `def`, not zero, the defense at that table index, both converted to `int`.  The
call returns when the owner index is in range, the attack is within 10^7 in absolute value
and every defense converts to an `int` other than zero. -/
theorem demo_cleave_resolve_spec (A : Aliases) (owner_ct other_ct : CharacterTable)
    (intent : Intent) (event : Event) :
    (∀ e', (demo_cleave A).resolve owner_ct other_ct intent event = some e' →
      e' = { event with other_pos_damage := e'.other_pos_damage } ∧
      ∃ j atk, idx5 intent.owner_index = some j ∧ float_to_int (owner_ct.atk j) = some atk ∧
        ∀ pos, ∃ d, float_to_int (other_ct.def_ (other_ct.pos_to_index pos)) = some d ∧
          d ≠ 0 ∧
          e'.other_pos_damage pos =
            ((Int.tdiv (cleave_factor other_ct (other_ct.pos_to_index pos) * atk) d : Int)
              : ℚ)) ∧
    (∀ j atk, idx5 intent.owner_index = some j → float_to_int (owner_ct.atk j) = some atk →
      -10000000 ≤ atk ∧ atk ≤ 10000000 →
      (∀ pos, ∃ d, float_to_int (other_ct.def_ (other_ct.pos_to_index pos)) = some d ∧
        d ≠ 0) →
      ∃ e', (demo_cleave A).resolve owner_ct other_ct intent event = some e') := by
  constructor
  · intro e' h
    simp only [demo_cleave, Option.bind_eq_bind, Option.bind_eq_some] at h
    obtain ⟨j, hj, atk, hatk, hfold⟩ := h
    obtain ⟨hfr, -, hin⟩ := demo_cleave_fold other_ct atk positions event e' hfold
    exact ⟨hfr, j, atk, hj, hatk, fun pos => hin positions_nodup pos (mem_positions pos)⟩
  · intro j atk hj hatk hrange hdef
    obtain ⟨e', he'⟩ := demo_cleave_fold_total other_ct atk hrange hdef positions event
    exact ⟨e', by simp only [demo_cleave, Option.bind_eq_bind, hj, hatk, Option.some_bind, he']⟩

/-- C17. Declare mode only declares: for an intent whose owner index `j` is in range and whose
skill slot holds `demo_attack` or `demo_cleave` in the sheet of the owner,
`build_main_event_queue` returns the given state with the main queue replaced by the queue of
exactly one event, whatever the queue held before; both character tables are unchanged.  The
event carries the intent, the effect bitmask `DAMAGE`, the target shape `single_target(intent)`
for `demo_attack` and `AOE` with `is_aoe` set for `demo_cleave`; it is not negated and both
arrays of pending damage are zero. -/
theorem C17_declare_only_declares (A : Aliases) (s : CombatSystem) (intent : Intent)
    (j : Fin 5) (skill : SkillEnum) (hj : idx5 intent.owner_index = some j)
    (hb : ((owner_table s intent.owner_team_index).character_sheet
      j).skills.active_event_builder intent.skill_slot = some skill) :
    ∃ s' e, build_main_event_queue (skill_library A) s intent = some s' ∧
      s' = { s with main_event_queue := { event := [e] } } ∧
      s'.main_event_queue.count = 1 ∧
      s'.ally_character_table = s.ally_character_table ∧
      s'.opponent_character_table = s.opponent_character_table ∧
      e.intent = intent ∧ e.effect_bitmask = A.DAMAGE ∧
      (skill = SkillEnum.DEMO_ATTACK →
        e.target_bitmask = A.single_target intent ∧ e.is_aoe = false) ∧
      (skill = SkillEnum.DEMO_CLEAVE → e.target_bitmask = A.AOE ∧ e.is_aoe = true) ∧
      e.is_negated = false ∧
      ∀ pos, e.other_pos_damage pos = 0 ∧ e.owner_pos_damage pos = 0 := by
  have hown : owner_table { s with main_event_queue := s.main_event_queue.clear }
      intent.owner_team_index = owner_table s intent.owner_team_index := by
    unfold owner_table
    split_ifs <;> rfl
  have hbuild : build_main_event_queue (skill_library A) s intent =
      some { s with main_event_queue := { event := [declared_event A skill intent] } } := by
    unfold build_main_event_queue
    simp only [hown, hj, hb, skill_library_declare, Option.bind_eq_bind, Option.some_bind,
      List.foldl_cons, List.foldl_nil]
    rfl
  refine ⟨_, declared_event A skill intent, hbuild, rfl, rfl, rfl, rfl, ?_⟩
  cases skill with
  | DEMO_ATTACK =>
    refine ⟨rfl, rfl, fun _ => ⟨rfl, rfl⟩, ?_, rfl, fun _ => ⟨rfl, rfl⟩⟩
    intro h
    exact absurd h (by decide)
  | DEMO_CLEAVE =>
    refine ⟨rfl, rfl, ?_, fun _ => ⟨rfl, rfl⟩, rfl, fun _ => ⟨rfl, rfl⟩⟩
    intro h
    exact absurd h (by decide)

/-- C17 at a concrete input: the Bat of the duel declares its cleave (skill slot 1) while the
main queue still holds another event. -/
theorem C17_witness :
    (idx5 (⟨0, 0, 1, 0⟩ : Intent).owner_index = some 0 ∧
      ((owner_table duel 0).character_sheet 0).skills.active_event_builder 1
        = some SkillEnum.DEMO_CLEAVE) ∧
    ((build_main_event_queue (skill_library example_aliases)
        { duel with main_event_queue := { event := [declared_attack] } } ⟨0, 0, 1, 0⟩).map
      fun s' => s'.main_event_queue.event.map
        fun e => (e.intent, e.target_bitmask, e.effect_bitmask, e.is_aoe, e.is_negated))
      = some [(⟨0, 0, 1, 0⟩, 31, 1, true, false)] := by
  refine ⟨⟨by decide, by decide⟩, ?_⟩
  obtain ⟨s', e, hs', hq, -, -, -, hi, hd, -, hc, hn, -⟩ :=
    C17_declare_only_declares example_aliases
      { duel with main_event_queue := { event := [declared_attack] } } ⟨0, 0, 1, 0⟩ 0
      SkillEnum.DEMO_CLEAVE (by decide) (by decide)
  rw [hs', hq]
  simp only [Option.map_some', List.map_cons, List.map_nil, hi, hd, (hc rfl).1, (hc rfl).2, hn]
  rfl

/-- When the greatest speed of a list of entries is attained, the entries of that speed are
those that no entry of the list exceeds. -/
theorem fastest_eq_filter_max (R : List Entry) (h : fastest R ≠ []) :
    fastest R = (R.filter fun x => decide (∀ y ∈ R, y.spe ≤ x.spe)).map Entry.intent := by
  obtain ⟨i, hi⟩ := List.exists_mem_of_ne_nil _ h
  obtain ⟨x0, hx0, hx0s, -⟩ := (mem_fastest R i).mp hi
  unfold fastest
  congr 1
  apply List.filter_congr
  intro x hx
  have hge := (best_speed_ge R).2
  by_cases hxs : x.spe = best_speed R
  · simp only [hxs, decide_True, true_eq_decide_iff]
    exact hge
  · have hlt : x.spe < best_speed R := lt_of_le_of_ne (hge x hx) hxs
    have : ¬ ∀ y ∈ R, y.spe ≤ x.spe := by
      intro hall
      have := hall x0 hx0
      rw [hx0s] at this
      exact absurd this (not_le.mpr hlt)
    simp [hxs, this]

/-- Recording a candidate keeps the candidate list within the eight elements of the array. -/
theorem record_candidate_length (st st' : ScanState) (c : Intent) (spe : ℚ)
    (h : record_candidate st c spe = some st') (hst : st.candidates.length ≤ 8) :
    st'.candidates.length ≤ 8 := by
  unfold record_candidate at h
  split_ifs at h with h1 h2 h3
  all_goals simp only [Option.some.injEq] at h
  all_goals subst h
  · simp
  · simp only [List.length_append, List.length_singleton]
    omega
  · exact hst

/-- The loops of `scan` and `rescan` keep the candidate list within eight elements. -/
theorem scan_fold_length (E : List Entry) (st st' : ScanState)
    (hst : st.candidates.length ≤ 8) :
    (E.foldlM scan_entry st = some st' → st'.candidates.length ≤ 8) ∧
    (E.foldlM rescan_entry st = some st' → st'.candidates.length ≤ 8) := by
  constructor
  · refine foldlM_option_invariant scan_entry (fun t => t.candidates.length ≤ 8) ?_ E st st' hst
    intro b a b' hb hf
    unfold scan_entry at hf
    by_cases hr : a.turn_bar ≥ 1
    · rw [if_pos hr] at hf
      exact record_candidate_length _ _ _ _ hf hb
    · rw [if_neg hr] at hf
      split at hf
      all_goals split_ifs at hf
      all_goals simp only [Option.some.injEq] at hf
      all_goals subst hf
      all_goals exact hb
  · refine foldlM_option_invariant rescan_entry (fun t => t.candidates.length ≤ 8) ?_ E st st'
      hst
    intro b a b' hb hf
    unfold rescan_entry at hf
    split_ifs at hf
    · exact record_candidate_length _ _ _ _ hf hb
    · simp only [Option.some.injEq] at hf
      subst hf
      exact hb

/-- The read of `pick_candidate`, when it returns. -/
theorem pick_candidate_eq (st : ScanState) (r : Nat) :
    st.candidates ≠ [] → pick_candidate st r = st.candidates.get? (r % st.candidates.length) := by
  intro h
  unfold pick_candidate
  have : st.candidates.length ≠ 0 := fun hc => h (List.length_eq_zero.mp hc)
  simp [this]

/-- A returned pick comes from a non-empty candidate list. -/
theorem pick_candidate_ne_nil (st : ScanState) (r : Nat) (i : Intent)
    (h : pick_candidate st r = some i) : st.candidates ≠ [] := by
  intro hc
  have := pick_candidate_mem st r i h
  rw [hc] at this
  exact absurd this (List.not_mem_nil _)

/-- The selection of `get_next_character`, whenever the call returns: the candidates are the
fastest ready entries of the returned state in scan order, at least one and at most eight, the
draw `r` selects the one at position `r mod k`, and every other draw returns the same state with
the candidate at its own position. -/
theorem get_next_character_pick (s s' : CombatSystem) (r : Nat) (intent : Intent)
    (h : get_next_character s r = some (s', intent)) :
    ∃ L, L = fastest ((all_entries s'.ally_character_table
        s'.opponent_character_table).filter Entry.ready) ∧
      L ≠ [] ∧ L.length ≤ 8 ∧ L.get? (r % L.length) = some intent ∧
      ∀ r2, get_next_character s r2 = (L.get? (r2 % L.length)).map fun i => (s', i) := by
  rw [get_next_character_eq] at h
  simp only [Option.bind_eq_some] at h
  obtain ⟨st, hscan, h⟩ := h
  obtain ⟨ht, hf⟩ := scan_fold_tracked _ [] ScanState.init st tracked_init hscan
  have hlen := (scan_fold_length _ ScanState.init st (by simp [ScanState.init])).1 hscan
  rw [List.nil_append] at ht
  cases hff : st.found_full with
  | true =>
    rw [hff] at h
    simp only [if_true, Option.bind_eq_some, Option.some.injEq, Prod.mk.injEq] at h
    obtain ⟨i, hi, hs, hii⟩ := h
    subst hii hs
    have hne := pick_candidate_ne_nil st r i hi
    rw [pick_candidate_eq st r hne] at hi
    refine ⟨st.candidates, ht.2, hne, hlen, hi, ?_⟩
    intro r2
    rw [get_next_character_eq]
    simp only [hscan, Option.some_bind, hff, if_true, pick_candidate_eq st r2 hne]
    cases st.candidates.get? (r2 % st.candidates.length) <;> rfl
  | false =>
    rw [hff] at h
    simp only [Bool.false_eq_true, if_false, Option.bind_eq_some, Option.some.injEq,
      Prod.mk.injEq] at h
    obtain ⟨ms, hms, ally, hfa, opponent, hfo, st2, hrescan, i, hi, hs, hii⟩ := h
    subst hii hs
    have hnone : (all_entries s.ally_character_table s.opponent_character_table).filter
        Entry.ready = [] := by
      rw [List.filter_eq_nil_iff]
      intro x hx hxr
      have := hf.mpr (Or.inr ⟨x, hx, hxr⟩)
      rw [hff] at this
      exact absurd this (by decide)
    rw [hnone] at ht
    have ht2 := rescan_fold_tracked _ [] st st2 ht hrescan
    rw [List.nil_append] at ht2
    have hlen2 := (scan_fold_length _ st st2 hlen).2 hrescan
    have hne := pick_candidate_ne_nil st2 r i hi
    rw [pick_candidate_eq st2 r hne] at hi
    refine ⟨st2.candidates, ht2.2, hne, hlen2, hi, ?_⟩
    intro r2
    rw [get_next_character_eq]
    simp only [hscan, Option.some_bind, hff, Bool.false_eq_true, if_false, hms, hfa, hfo,
      hrescan, pick_candidate_eq st2 r2 hne]
    cases st2.candidates.get? (r2 % st2.candidates.length) <;> rfl

/-- The candidate intents of the entries of both tables are pairwise distinct when the position
maps are injective. -/
theorem all_entries_intent_nodup (ally opponent : CharacterTable)
    (ha : Function.Injective ally.pos_to_index)
    (ho : Function.Injective opponent.pos_to_index) :
    ((all_entries ally opponent).map Entry.intent).Nodup := by
  have hinj : ∀ (ct : CharacterTable) (t : Int), Function.Injective ct.pos_to_index →
      Function.Injective (fun pos => (table_entry ct t pos).intent) := by
    intro ct t hct p q hpq
    simp only [table_entry, candidate_intent, Intent.mk.injEq, Nat.cast_inj, true_and,
      and_true] at hpq
    exact hct (Fin.ext hpq)
  unfold all_entries table_entries
  rw [List.map_append, List.map_map, List.map_map]
  refine List.Nodup.append ?_ ?_ ?_
  · exact List.Nodup.map (hinj ally 0 ha) positions_nodup
  · exact List.Nodup.map (hinj opponent 1 ho) positions_nodup
  · intro i hi1 hi2
    obtain ⟨p, -, hp⟩ := List.mem_map.mp hi1
    obtain ⟨q, -, hq⟩ := List.mem_map.mp hi2
    rw [← hq] at hp
    simp only [Function.comp, table_entry, candidate_intent, Intent.mk.injEq] at hp
    exact absurd hp.1 (by decide)

/-- The fastest intents of a sublist of the entries of both tables are pairwise distinct. -/
theorem fastest_ready_nodup (ally opponent : CharacterTable)
    (ha : Function.Injective ally.pos_to_index)
    (ho : Function.Injective opponent.pos_to_index) :
    (fastest ((all_entries ally opponent).filter Entry.ready)).Nodup := by
  unfold fastest
  refine List.Nodup.sublist ?_ (all_entries_intent_nodup ally opponent ha ho)
  exact List.Sublist.map _ ((List.filter_sublist _).trans (List.filter_sublist _))

/-- The tie-break of `get_next_character`: whenever the call returns for a draw `r`, the ready
combatants of maximum speed of the returned state, listed in scan order, are `k` candidates with
`1 ≤ k ≤ 8`, the call returns the one at position `r mod k`, and for every other draw it
returns the same state with the candidate at the position of that draw; with injective position
maps the candidates are pairwise distinct, so two draws select the same combatant exactly when
they agree modulo `k`. -/
theorem get_next_character_tie_break (s : CombatSystem) (r : Nat) :
    ∀ s' intent, get_next_character s r = some (s', intent) →
      1 ≤ (tied_set s').length ∧ (tied_set s').length ≤ 8 ∧
      (tied_set s').get? (r % (tied_set s').length) = some intent ∧
      (∀ r2, get_next_character s r2 =
        ((tied_set s').get? (r2 % (tied_set s').length)).map fun i => (s', i)) ∧
      (Function.Injective s.ally_character_table.pos_to_index →
        Function.Injective s.opponent_character_table.pos_to_index →
        (tied_set s').Nodup ∧
        ∀ r1 r2 i1 i2, get_next_character s r1 = some (s', i1) →
          get_next_character s r2 = some (s', i2) →
          (i1 = i2 ↔ r1 % (tied_set s').length = r2 % (tied_set s').length)) := by
  intro s' intent h
  obtain ⟨L, hL, hne, hlen, hget, hall⟩ := get_next_character_pick s s' r intent h
  have htied : tied_set s' = L := by
    rw [hL]
    rw [hL] at hne
    exact (fastest_eq_filter_max _ hne).symm
  rw [htied]
  have hpos : 0 < L.length := List.length_pos.mpr hne
  refine ⟨hpos, hlen, hget, hall, ?_⟩
  intro ha ho
  have hframe := get_next_character_frame s s' r intent h
  have ha' : s'.ally_character_table.pos_to_index = s.ally_character_table.pos_to_index := by
    rw [hframe]
  have ho' : s'.opponent_character_table.pos_to_index
      = s.opponent_character_table.pos_to_index := by
    rw [hframe]
  have hnd : L.Nodup := by
    rw [hL]
    exact fastest_ready_nodup _ _ (by rw [ha']; exact ha) (by rw [ho']; exact ho)
  refine ⟨hnd, ?_⟩
  intro r1 r2 i1 i2 h1 h2
  rw [hall r1] at h1
  rw [hall r2] at h2
  simp only [Option.map_eq_some', Prod.mk.injEq, true_and, exists_eq_right] at h1 h2
  constructor
  · intro hi
    rw [← hi, ← h1] at h2
    have := List.getElem?_inj (Nat.mod_lt r2 hpos) hnd
      (by simpa only [List.get?_eq_getElem?] using h2)
    exact this.symm
  · intro hr
    rw [hr, h2] at h1
    exact (Option.some.inj h1).symm

/-- Whether `get_next_character` returns does not depend on the draw. -/
theorem get_next_character_none_of_draw (s : CombatSystem) (r0 : Nat)
    (h : get_next_character s r0 = none) : ∀ r, get_next_character s r = none := by
  intro r
  cases hr : get_next_character s r with
  | none => rfl
  | some p =>
    obtain ⟨s', intent⟩ := p
    obtain ⟨L, -, hne, -, -, hall⟩ := get_next_character_pick s s' r intent hr
    have hlt : r0 % L.length < L.length := Nat.mod_lt r0 (List.length_pos.mpr hne)
    rw [hall r0, List.get?_eq_get hlt] at h
    simp at h

/-- Whether `turn` returns does not depend on the draw. -/
theorem turn_none_of_draw (lib : SkillEnum → ActiveEventBuilder) (s : CombatSystem)
    (skill_slot target_pos : Int) (r0 : Nat)
    (h : turn lib s skill_slot target_pos r0 = none) :
    ∀ r, turn lib s skill_slot target_pos r = none := by
  intro r
  unfold turn at h ⊢
  cases h3 : turn_resolve lib s skill_slot target_pos with
  | none => rfl
  | some s3 =>
    rw [h3] at h
    simp only [Option.bind_eq_bind, Option.some_bind] at h ⊢
    cases hg : get_next_character s3 r0 with
    | none => rw [get_next_character_none_of_draw s3 r0 hg r]; rfl
    | some p =>
      rw [hg] at h
      simp at h

/-- C18. The candidates array overflows below the maximum speed.  In the crowded encounter all
speeds are positive, the ready combatants of maximum speed are the Bat alone (`k = 1`), and
`get_next_character` returns for no draw: the nine ready Orcs, tied at speed 100, are scanned
before the Bat, and the ninth is written past the end of the array of eight candidates.  The same
happens in the course of an encounter: in the race encounter `roll_initiative` selects the swift
Bat; after its attack no bar is full, the least step is the binary32 value of `1/200`, the fill
brings all ten bars to 1, the swift Bat alone has the maximum speed among the ready combatants,
and the final `get_next_character` of `turn` is undefined for every draw. -/
theorem C18_candidates_overflow :
    (tied_set crowded_encounter = [⟨1, 4, 0, 0⟩] ∧
      (∀ i, 0 < crowded_encounter.ally_character_table.spe i ∧
        0 < crowded_encounter.opponent_character_table.spe i) ∧
      ∀ r, get_next_character crowded_encounter r = none) ∧
    ((roll_initiative race_encounter 0).map fun s0 => s0.main_intent) = some ⟨1, 4, 0, 0⟩ ∧
    ((roll_initiative race_encounter 0).bind fun s0 =>
      (turn_resolve (skill_library example_aliases) s0 0 0).bind fun s3 =>
        (fill (5368709 / 1073741824) s3.ally_character_table).bind fun ally =>
          (fill (5368709 / 1073741824) s3.opponent_character_table).map fun opponent =>
            ((scan s3.ally_character_table 0 ScanState.init).bind fun st =>
              (scan s3.opponent_character_table 1 st).map fun st2 =>
                (st2.found_full, st2.min_step),
             positions.map ally.turn_bar, positions.map opponent.turn_bar,
             tied_set { s3 with ally_character_table := ally,
                                opponent_character_table := opponent }))
      = some (some (false, some (5368709 / 1073741824)), [1, 1, 1, 1, 1], [1, 1, 1, 1, 1],
          [⟨1, 4, 0, 0⟩]) ∧
    ∀ r, ((roll_initiative race_encounter 0).bind fun s0 =>
      turn (skill_library example_aliases) s0 0 0 r) = none := by
  refine ⟨⟨by decide!, by decide!, ?_⟩, by decide!, by decide!, ?_⟩
  · have hscan : ((all_entries crowded_encounter.ally_character_table
        crowded_encounter.opponent_character_table).foldlM scan_entry ScanState.init).isNone
          = true := by decide!
    have h0 : get_next_character crowded_encounter 0 = none := by
      rw [get_next_character_eq, Option.isNone_iff_eq_none.mp hscan]
      rfl
    exact get_next_character_none_of_draw crowded_encounter 0 h0
  · intro r
    have h0 : Option.isNone ((roll_initiative race_encounter 0).bind fun s0 =>
        turn (skill_library example_aliases) s0 0 0 0) = true := by decide!
    have h0' := Option.isNone_iff_eq_none.mp h0
    cases hroll : roll_initiative race_encounter 0 with
    | none => rfl
    | some s0 =>
      rw [hroll] at h0'
      exact turn_none_of_draw (skill_library example_aliases) s0 0 0 0 h0' r

/-- `TableEvolves` is reflexive. -/
theorem tableEvolves_refl (ct : CharacterTable) : TableEvolves ct ct := ⟨rfl, fun _ h => h⟩

/-- `TableEvolves` is transitive. -/
theorem tableEvolves_trans (a b c : CharacterTable) (h1 : TableEvolves a b)
    (h2 : TableEvolves b c) : TableEvolves a c := by
  obtain ⟨hab, hab2⟩ := h1
  obtain ⟨hbc, hbc2⟩ := h2
  refine ⟨?_, fun i hi => hbc2 i (hab2 i hi)⟩
  rw [hbc, hab]

/-- `StateEvolves` is reflexive. -/
theorem stateEvolves_refl (s : CombatSystem) : StateEvolves s s :=
  ⟨tableEvolves_refl _, tableEvolves_refl _⟩

/-- `StateEvolves` is transitive. -/
theorem stateEvolves_trans (a b c : CombatSystem) (h1 : StateEvolves a b)
    (h2 : StateEvolves b c) : StateEvolves a c :=
  ⟨tableEvolves_trans _ _ _ h1.1 h2.1, tableEvolves_trans _ _ _ h1.2 h2.2⟩

/-- A write to the turn bars alone is a later value of the table. -/
theorem tableEvolves_turn_bar (ct : CharacterTable) (tb : Fin 5 → ℚ) :
    TableEvolves ct { ct with turn_bar := tb } := ⟨rfl, fun _ h => h⟩

/-- The damage block leaves a later value of the table. -/
theorem damage_slot_evolves (ct ct' : CharacterTable) (index : Fin 5) (damage : ℚ)
    (h : damage_slot ct index damage = some ct') : TableEvolves ct ct' := by
  unfold damage_slot at h
  split_ifs at h with hlp
  simp only [Option.some.injEq] at h
  subst h
  refine ⟨rfl, ?_⟩
  intro i hi
  by_cases hidx : i = index
  · subst hidx
    simp only [Function.update_same]
  · simp only [Function.update_noteq hidx]
    exact hi

/-- A damage block of the loop of `resolve_event` leaves a later value of the table. -/
theorem damage_step_evolves (d : Fin 5 → ℚ) (ct ct' : CharacterTable) (pos : Fin 5)
    (h : damage_step d ct pos = some ct') : TableEvolves ct ct' := by
  unfold damage_step at h
  split_ifs at h
  · exact damage_slot_evolves _ _ _ _ h
  · simp only [Option.some.injEq] at h
    subst h
    exact tableEvolves_refl ct

/-- The damage loop on one table leaves a later value of the table. -/
theorem damage_fold_evolves (d : Fin 5 → ℚ) (l : List (Fin 5)) (ct ct' : CharacterTable)
    (h : l.foldlM (damage_step d) ct = some ct') : TableEvolves ct ct' :=
  foldlM_option_invariant (damage_step d) (fun c => TableEvolves ct c)
    (fun b a b' hb hf => tableEvolves_trans ct b b' hb (damage_step_evolves d b b' a hf))
    l ct ct' (tableEvolves_refl ct) h

/-- `resolve_event` leaves later values of both tables. -/
theorem resolve_event_evolves (lib : SkillEnum → ActiveEventBuilder) (s s' : CombatSystem)
    (e e' : Event) (h : resolve_event lib s e = some (s', e')) : StateEvolves s s' := by
  cases hneg : e.is_negated with
  | true =>
    rw [resolve_event_negated lib s e hneg] at h
    simp only [Option.some.injEq, Prod.mk.injEq] at h
    rw [← h.1]
    exact stateEvolves_refl s
  | false =>
    obtain ⟨-, cts, hfold, hs'⟩ := resolve_event_eq_some lib s s' e e' hneg h
    obtain ⟨h1, h2⟩ := apply_damage_fold e' positions _ cts hfold
    have ho := damage_fold_evolves _ _ _ _ h1
    have ht := damage_fold_evolves _ _ _ _ h2
    subst hs'
    unfold owner_table at ho
    unfold other_table at ht
    unfold set_tables StateEvolves
    split_ifs with hteam
    · rw [if_pos hteam] at ho ht
      exact ⟨ho, ht⟩
    · rw [if_neg hteam] at ho ht
      exact ⟨ht, ho⟩

/-- The write that consumes a turn bar leaves later values of both tables. -/
theorem consume_turn_bar_evolves (s : CombatSystem) (t : Int) (k : Fin 5) :
    StateEvolves s (consume_turn_bar s t k) := by
  unfold consume_turn_bar StateEvolves
  split_ifs
  · exact ⟨tableEvolves_turn_bar _ _, tableEvolves_refl _⟩
  · exact ⟨tableEvolves_refl _, tableEvolves_turn_bar _ _⟩

/-- `resolve_events` leaves later values of both tables. -/
theorem resolve_events_evolves (lib : SkillEnum → ActiveEventBuilder) (s s' : CombatSystem)
    (e e' : Event) (h : resolve_events lib s e = some (s', e')) : StateEvolves s s' := by
  obtain ⟨s1, k, h1, -, hs'⟩ := resolve_events_eq_some lib s s' e e' h
  rw [hs']
  exact stateEvolves_trans _ _ _ (resolve_event_evolves lib s s1 e e' h1)
    (consume_turn_bar_evolves s1 _ k)

/-- Pushing events on the main queue changes neither table. -/
theorem push_main_event_fold_tables (events : List Event) :
    ∀ s : CombatSystem,
      (events.foldl push_main_event s).ally_character_table = s.ally_character_table ∧
      (events.foldl push_main_event s).opponent_character_table
        = s.opponent_character_table := by
  induction events with
  | nil => exact fun s => ⟨rfl, rfl⟩
  | cons e l ih =>
    intro s
    simp only [List.foldl_cons]
    exact ih (push_main_event s e)

/-- `build_main_event_queue` changes neither table, whatever the builders declare. -/
theorem build_main_event_queue_tables (lib : SkillEnum → ActiveEventBuilder)
    (s s' : CombatSystem) (intent : Intent)
    (h : build_main_event_queue lib s intent = some s') :
    s'.ally_character_table = s.ally_character_table ∧
    s'.opponent_character_table = s.opponent_character_table := by
  unfold build_main_event_queue at h
  simp only [Option.bind_eq_bind, Option.bind_eq_some, Option.some.injEq] at h
  obtain ⟨j, -, b, -, events, -, hs'⟩ := h
  rw [← hs']
  exact push_main_event_fold_tables events _

/-- One iteration of the loop of `turn` leaves later values of both tables. -/
theorem turn_step_evolves (lib : SkillEnum → ActiveEventBuilder) (s s' : CombatSystem)
    (i : Nat) (h : turn_step lib s i = some s') : StateEvolves s s' := by
  unfold turn_step at h
  simp only [Option.bind_eq_bind, Option.bind_eq_some, Option.some.injEq, Prod.exists] at h
  obtain ⟨event, -, s1, e1, hres, hs'⟩ := h
  rw [← hs']
  exact resolve_events_evolves lib s s1 event e1 hres

/-- The part of `turn` before the final selection leaves later values of both tables. -/
theorem turn_resolve_evolves (lib : SkillEnum → ActiveEventBuilder) (s s' : CombatSystem)
    (skill_slot target_pos : Int) (h : turn_resolve lib s skill_slot target_pos = some s') :
    StateEvolves s s' := by
  unfold turn_resolve at h
  simp only [Option.bind_eq_bind, Option.bind_eq_some] at h
  obtain ⟨s2, hdecl, hfold⟩ := h
  unfold turn_declare at hdecl
  obtain ⟨ha, ho⟩ := build_main_event_queue_tables lib _ s2 _ hdecl
  have h2 : StateEvolves s s2 := by
    unfold StateEvolves
    rw [ha, ho]
    exact stateEvolves_refl s
  exact foldlM_option_invariant (turn_step lib) (fun c => StateEvolves s c)
    (fun b a b' hb hf => stateEvolves_trans s b b' hb (turn_step_evolves lib b b' a hf))
    _ s2 s' h2 hfold

/-- `get_next_character` leaves later values of both tables. -/
theorem get_next_character_evolves (s s' : CombatSystem) (r : Nat) (intent : Intent)
    (h : get_next_character s r = some (s', intent)) : StateEvolves s s' := by
  have hf := get_next_character_frame s s' r intent h
  unfold StateEvolves
  rw [hf]
  exact ⟨tableEvolves_turn_bar _ _, tableEvolves_turn_bar _ _⟩

/-- `turn` leaves later values of both tables. -/
theorem turn_evolves (lib : SkillEnum → ActiveEventBuilder) (s s' : CombatSystem)
    (skill_slot target_pos : Int) (r : Nat)
    (h : turn lib s skill_slot target_pos r = some s') : StateEvolves s s' := by
  unfold turn at h
  simp only [Option.bind_eq_bind, Option.bind_eq_some, Option.some.injEq, Prod.exists] at h
  obtain ⟨s3, h3, s4, intent, h4, hs'⟩ := h
  rw [← hs']
  exact stateEvolves_trans _ _ _ (turn_resolve_evolves lib s s3 _ _ h3)
    (get_next_character_evolves s3 s4 r intent h4)

/-- `roll_initiative` changes the tables at most in `life_bar`, which it sets to 1 in every
slot, and in `turn_bar`. -/
theorem roll_initiative_tables (s s' : CombatSystem) (r : Nat)
    (h : roll_initiative s r = some s') :
    s'.ally_character_table = { s.ally_character_table with
      life_bar := fun _ => 1, turn_bar := s'.ally_character_table.turn_bar } ∧
    s'.opponent_character_table = { s.opponent_character_table with
      life_bar := fun _ => 1, turn_bar := s'.opponent_character_table.turn_bar } := by
  unfold roll_initiative at h
  simp only [Option.bind_eq_bind, Option.bind_eq_some, Option.some.injEq, Prod.exists] at h
  obtain ⟨s2, intent, hg, hs'⟩ := h
  have hf := get_next_character_frame _ s2 r intent hg
  rw [← hs']
  simp only [reset_bars_spec] at hf
  constructor
  · show s2.ally_character_table = _
    rw [hf]
  · show s2.opponent_character_table = _
    rw [hf]

/-- One iteration of the loop of `fill_side`: the slot of the position gets the identity maps
and, for a party member, its maximum life as life and as maximum life and a full life bar; the
other slots keep these entries. -/
theorem fill_side_step_spec (party : Fin 5 → Option CharacterSheet) (ct : CharacterTable)
    (a : Fin 5) :
    ((fill_side_step party ct a).pos_to_index a = a ∧
      (fill_side_step party ct a).index_to_pos a = (a.val : Int) ∧
      ∀ cs, party a = some cs →
        (fill_side_step party ct a).life a = cs.stats.lp ∧
        (fill_side_step party ct a).lp a = cs.stats.lp ∧
        (fill_side_step party ct a).life_bar a = 1) ∧
    ∀ pos, pos ≠ a →
      (fill_side_step party ct a).pos_to_index pos = ct.pos_to_index pos ∧
      (fill_side_step party ct a).index_to_pos pos = ct.index_to_pos pos ∧
      (fill_side_step party ct a).life pos = ct.life pos ∧
      (fill_side_step party ct a).lp pos = ct.lp pos ∧
      (fill_side_step party ct a).life_bar pos = ct.life_bar pos := by
  unfold fill_side_step
  cases hp : party a with
  | none =>
    refine ⟨⟨by simp, by simp, fun cs hcs => by cases hcs⟩, ?_⟩
    intro pos hpos
    simp [Function.update_noteq hpos]
  | some cs0 =>
    refine ⟨⟨by simp, by simp, ?_⟩, ?_⟩
    · intro cs hcs
      simp only [Option.some.injEq] at hcs
      subst hcs
      simp
    · intro pos hpos
      simp [Function.update_noteq hpos]

/-- The loop of `fill_side` over a list of positions. -/
theorem fill_side_fold (party : Fin 5 → Option CharacterSheet) :
    ∀ (l : List (Fin 5)) (ct : CharacterTable),
      (∀ pos ∈ l,
        (l.foldl (fill_side_step party) ct).pos_to_index pos = pos ∧
        (l.foldl (fill_side_step party) ct).index_to_pos pos = (pos.val : Int) ∧
        ∀ cs, party pos = some cs →
          (l.foldl (fill_side_step party) ct).life pos = cs.stats.lp ∧
          (l.foldl (fill_side_step party) ct).lp pos = cs.stats.lp ∧
          (l.foldl (fill_side_step party) ct).life_bar pos = 1) ∧
      ∀ pos, pos ∉ l →
        (l.foldl (fill_side_step party) ct).pos_to_index pos = ct.pos_to_index pos ∧
        (l.foldl (fill_side_step party) ct).index_to_pos pos = ct.index_to_pos pos ∧
        (l.foldl (fill_side_step party) ct).life pos = ct.life pos ∧
        (l.foldl (fill_side_step party) ct).lp pos = ct.lp pos ∧
        (l.foldl (fill_side_step party) ct).life_bar pos = ct.life_bar pos := by
  intro l
  induction l with
  | nil =>
    intro ct
    exact ⟨fun pos hpos => absurd hpos (List.not_mem_nil pos),
      fun _ _ => ⟨rfl, rfl, rfl, rfl, rfl⟩⟩
  | cons a l ih =>
    intro ct
    simp only [List.foldl_cons]
    obtain ⟨hin, hout⟩ := ih (fill_side_step party ct a)
    obtain ⟨hat, hoff⟩ := fill_side_step_spec party ct a
    constructor
    · intro pos hpos
      by_cases hl : pos ∈ l
      · exact hin pos hl
      · have hpa : pos = a := by
          rcases List.mem_cons.mp hpos with h | h
          · exact h
          · exact absurd h hl
        subst hpa
        obtain ⟨h1, h2, h3, h4, h5⟩ := hout pos hl
        refine ⟨by rw [h1]; exact hat.1, by rw [h2]; exact hat.2.1, ?_⟩
        intro cs hcs
        obtain ⟨g1, g2, g3⟩ := hat.2.2 cs hcs
        exact ⟨by rw [h3]; exact g1, by rw [h4]; exact g2, by rw [h5]; exact g3⟩
    · intro pos hpos
      have hpa : pos ≠ a := fun h => hpos (h ▸ List.mem_cons_self a l)
      have hpl : pos ∉ l := fun h => hpos (List.mem_cons_of_mem a h)
      obtain ⟨h1, h2, h3, h4, h5⟩ := hout pos hpl
      obtain ⟨g1, g2, g3, g4, g5⟩ := hoff pos hpa
      exact ⟨h1.trans g1, h2.trans g2, h3.trans g3, h4.trans g4, h5.trans g5⟩

/-- The table `fill_side` leaves: both maps are the identity, and the slot of every party member
holds its maximum life as life and as maximum life, with a full life bar. -/
theorem fill_side_spec (ct : CharacterTable) (party : Fin 5 → Option CharacterSheet)
    (pos : Fin 5) :
    (fill_side ct party).pos_to_index pos = pos ∧
    (fill_side ct party).index_to_pos pos = (pos.val : Int) ∧
    ∀ cs, party pos = some cs →
      (fill_side ct party).life pos = cs.stats.lp ∧
      (fill_side ct party).lp pos = cs.stats.lp ∧
      (fill_side ct party).life_bar pos = 1 :=
  (fill_side_fold party positions ct).1 pos (mem_positions pos)

/-- Identity maps are mutual inverses. -/
theorem mutualInverse_of_identity (ct : CharacterTable)
    (h : ∀ pos, ct.pos_to_index pos = pos ∧ ct.index_to_pos pos = (pos.val : Int)) :
    MutualInverse ct := by
  intro p
  refine ⟨by rw [(h p).1]; exact (h p).2, p, ?_, (h p).1⟩
  rw [(h p).2]
  unfold idx5
  have hp : (0 : Int) ≤ (p.val : Int) ∧ (p.val : Int) < 5 := ⟨by omega, by omega⟩
  simp [hp]

/-- Later values of the tables have the same maps. -/
theorem sameMaps_of_evolves (s s' : CombatSystem) (h : StateEvolves s s') : SameMaps s s' := by
  obtain ⟨⟨ha, -⟩, ⟨ho, -⟩⟩ := h
  unfold SameMaps
  rw [ha, ho]
  exact ⟨rfl, rfl, rfl, rfl⟩

/-- `roll_initiative` keeps the maps. -/
theorem roll_initiative_sameMaps (s s' : CombatSystem) (r : Nat)
    (h : roll_initiative s r = some s') : SameMaps s s' := by
  obtain ⟨ha, ho⟩ := roll_initiative_tables s s' r h
  unfold SameMaps
  rw [ha, ho]
  exact ⟨rfl, rfl, rfl, rfl⟩

/-- `SameMaps` is transitive. -/
theorem sameMaps_trans (a b c : CombatSystem) (h1 : SameMaps a b) (h2 : SameMaps b c) :
    SameMaps a c :=
  ⟨h2.1.trans h1.1, h2.2.1.trans h1.2.1, h2.2.2.1.trans h1.2.2.1, h2.2.2.2.trans h1.2.2.2⟩

/-- Every call keeps the maps. -/
theorem run_call_sameMaps (lib : SkillEnum → ActiveEventBuilder) (s s' : CombatSystem)
    (c : Call) (h : run_call lib s c = some s') : SameMaps s s' := by
  cases c with
  | roll_initiative r => exact roll_initiative_sameMaps s s' r h
  | turn a b r => exact sameMaps_of_evolves s s' (turn_evolves lib s s' a b r h)

/-- Every finite sequence of calls keeps the maps. -/
theorem run_calls_sameMaps (lib : SkillEnum → ActiveEventBuilder) (s s' : CombatSystem)
    (calls : List Call) (h : run_calls lib s calls = some s') : SameMaps s s' :=
  foldlM_option_invariant (run_call lib) (fun c => SameMaps s c)
    (fun b a b' hb hf => sameMaps_trans s b b' hb (run_call_sameMaps lib b b' a hf))
    calls s s' ⟨rfl, rfl, rfl, rfl⟩ h

/-- An invariant of the accumulator is kept by a fold in `Option` that returns, when the steps on
the elements of the list keep it. -/
theorem foldlM_option_invariant_mem {α β : Type} (f : β → α → Option β) (P : β → Prop) :
    ∀ (l : List α) (b b' : β), (∀ b a b', a ∈ l → P b → f b a = some b' → P b') →
      P b → l.foldlM f b = some b' → P b' := by
  intro l
  induction l with
  | nil =>
    intro b b' _ hb h
    simp only [List.foldlM_nil, Option.pure_def, Option.some.injEq] at h
    subst h
    exact hb
  | cons a l ih =>
    intro b b' hf hb h
    simp only [List.foldlM_cons, Option.bind_eq_bind, Option.bind_eq_some] at h
    obtain ⟨b1, h1, h2⟩ := h
    exact ih b1 b' (fun c x c' hx => hf c x c' (List.mem_cons_of_mem a hx))
      (hf b a b1 (List.mem_cons_self a l) hb h1) h2

/-- `roll_initiative` keeps the slots of the party members fresh. -/
theorem roll_initiative_fresh (ally_party opponent_party : Fin 5 → Option CharacterSheet)
    (s s' : CombatSystem) (r : Nat) (h : roll_initiative s r = some s')
    (hs : FreshSlots ally_party s.ally_character_table ∧
      FreshSlots opponent_party s.opponent_character_table) :
    FreshSlots ally_party s'.ally_character_table ∧
    FreshSlots opponent_party s'.opponent_character_table := by
  obtain ⟨ha, ho⟩ := roll_initiative_tables s s' r h
  constructor
  · intro pos cs hcs
    rw [ha]
    exact ⟨(hs.1 pos cs hcs).1, (hs.1 pos cs hcs).2.1, rfl⟩
  · intro pos cs hcs
    rw [ho]
    exact ⟨(hs.2 pos cs hcs).1, (hs.2 pos cs hcs).2.1, rfl⟩

/-- Fresh slots with a maximum life other than zero satisfy the life-fraction invariant. -/
theorem lifeBarInvariant_of_fresh (party : Fin 5 → Option CharacterSheet)
    (ct : CharacterTable) (hlp : ∀ pos, ∀ cs ∈ party pos, cs.stats.lp ≠ 0)
    (h : FreshSlots party ct) : LifeBarInvariant party ct := by
  intro pos hpos
  obtain ⟨cs, hcs⟩ := Option.isSome_iff_exists.mp hpos
  obtain ⟨h1, h2, h3⟩ := h pos cs hcs
  rw [h1, h2, h3, div_self (hlp pos cs hcs)]

/-- A later value of a table satisfies the life-fraction invariant when the table does. -/
theorem lifeBarInvariant_of_evolves (party : Fin 5 → Option CharacterSheet)
    (ct ct' : CharacterTable) (h : TableEvolves ct ct') (hct : LifeBarInvariant party ct) :
    LifeBarInvariant party ct' :=
  fun pos hpos => h.2 pos (hct pos hpos)

/-- C19 (amended). Life-fraction invariant: in every state reached from a `setup_from_parties`
call, whose party members have a maximum life other than zero, by calls of `roll_initiative`
followed by any finite sequence of `turn` calls, whatever the skill builders compute, every
occupied slot of both tables satisfies `life_bar = life / lp`. -/
theorem C19_life_fraction_invariant (lib : SkillEnum → ActiveEventBuilder) (s : CombatSystem)
    (ally_party opponent_party : Fin 5 → Option CharacterSheet) (rolls turns : List Call)
    (hlp : ∀ pos, (∀ cs ∈ ally_party pos, cs.stats.lp ≠ 0) ∧
      (∀ cs ∈ opponent_party pos, cs.stats.lp ≠ 0))
    (hrolls : ∀ c ∈ rolls, c.is_turn = false) (hturns : ∀ c ∈ turns, c.is_turn = true)
    (s' : CombatSystem)
    (h : run_calls lib (setup_from_parties s ally_party opponent_party) (rolls ++ turns)
      = some s') :
    LifeBarInvariant ally_party s'.ally_character_table ∧
    LifeBarInvariant opponent_party s'.opponent_character_table := by
  unfold run_calls at h
  rw [List.foldlM_append] at h
  simp only [Option.bind_eq_bind, Option.bind_eq_some] at h
  obtain ⟨s1, h1, h2⟩ := h
  have hfresh0 : FreshSlots ally_party
        (setup_from_parties s ally_party opponent_party).ally_character_table ∧
      FreshSlots opponent_party
        (setup_from_parties s ally_party opponent_party).opponent_character_table :=
    ⟨fun pos cs hcs => (fill_side_spec _ ally_party pos).2.2 cs hcs,
      fun pos cs hcs => (fill_side_spec _ opponent_party pos).2.2 cs hcs⟩
  have hfresh1 := foldlM_option_invariant_mem (run_call lib)
    (fun c => FreshSlots ally_party c.ally_character_table ∧
      FreshSlots opponent_party c.opponent_character_table) rolls _ s1
    (by
      intro b c b' hc hb hrun
      cases c with
      | roll_initiative r => exact roll_initiative_fresh ally_party opponent_party b b' r hrun hb
      | turn a t r => exact absurd (hrolls _ hc) (by simp [Call.is_turn]))
    hfresh0 h1
  have hinv1 : LifeBarInvariant ally_party s1.ally_character_table ∧
      LifeBarInvariant opponent_party s1.opponent_character_table :=
    ⟨lifeBarInvariant_of_fresh _ _ (fun pos => (hlp pos).1) hfresh1.1,
      lifeBarInvariant_of_fresh _ _ (fun pos => (hlp pos).2) hfresh1.2⟩
  exact foldlM_option_invariant_mem (run_call lib)
    (fun c => LifeBarInvariant ally_party c.ally_character_table ∧
      LifeBarInvariant opponent_party c.opponent_character_table) turns s1 s'
    (by
      intro b c b' hc hb hrun
      cases c with
      | roll_initiative r => exact absurd (hturns _ hc) (by simp [Call.is_turn])
      | turn a t r =>
        obtain ⟨ea, eo⟩ := turn_evolves lib b b' a t r hrun
        exact ⟨lifeBarInvariant_of_evolves _ _ _ ea hb.1,
          lifeBarInvariant_of_evolves _ _ _ eo hb.2⟩)
    hinv1 h2

/-- C19 is false as stated: in the duel, after `roll_initiative`, the attack of the Bat and a
second `roll_initiative`, the occupied slot of the Orc has life 1200 of 1400 and a life bar of 1,
which `roll_initiative` has written without regard to the life. -/
theorem C19_counterexample :
    (lone_orc 0).isSome = true ∧
    (run_calls (skill_library example_aliases)
      (setup_from_parties idle_system lone_bat lone_orc)
      [Call.roll_initiative 0, Call.turn 0 0 0, Call.roll_initiative 0]).map
        (fun s' => (s'.opponent_character_table.life 0, s'.opponent_character_table.lp 0,
          s'.opponent_character_table.life_bar 0,
          decide (s'.opponent_character_table.life_bar 0 =
            s'.opponent_character_table.life 0 / s'.opponent_character_table.lp 0)))
      = some (1200, 1400, 1, false) := by
  decide!

/-- C19 (amended) at a concrete input: the duel after `roll_initiative` and two turns, the attack
of the Bat and the attack of the Orc. -/
theorem C19_witness :
    (∀ pos, (∀ cs ∈ lone_bat pos, cs.stats.lp ≠ 0) ∧ (∀ cs ∈ lone_orc pos, cs.stats.lp ≠ 0)) ∧
    (run_calls (skill_library example_aliases)
      (setup_from_parties idle_system lone_bat lone_orc)
      ([Call.roll_initiative 0] ++ [Call.turn 0 0 0, Call.turn 0 0 0])).map
        (fun s' => (s'.opponent_character_table.life 0, s'.opponent_character_table.life_bar 0,
          s'.ally_character_table.life 0, s'.ally_character_table.life_bar 0))
      = some (1200, 6 / 7, 720, 18 / 25) ∧
    ∃ s', run_calls (skill_library example_aliases)
        (setup_from_parties idle_system lone_bat lone_orc)
        ([Call.roll_initiative 0] ++ [Call.turn 0 0 0, Call.turn 0 0 0]) = some s' ∧
      LifeBarInvariant lone_bat s'.ally_character_table ∧
      LifeBarInvariant lone_orc s'.opponent_character_table := by
  have hlp : ∀ pos, (∀ cs ∈ lone_bat pos, cs.stats.lp ≠ 0) ∧
      (∀ cs ∈ lone_orc pos, cs.stats.lp ≠ 0) := by decide!
  have hret : (run_calls (skill_library example_aliases)
      (setup_from_parties idle_system lone_bat lone_orc)
      ([Call.roll_initiative 0] ++ [Call.turn 0 0 0, Call.turn 0 0 0])).isSome = true := by
    decide!
  obtain ⟨s', hs'⟩ := Option.isSome_iff_exists.mp hret
  exact ⟨hlp, by decide!, s', hs',
    C19_life_fraction_invariant (skill_library example_aliases) idle_system lone_bat lone_orc
      [Call.roll_initiative 0] [Call.turn 0 0 0, Call.turn 0 0 0] hlp (by decide) (by decide)
      s' hs'⟩

/-- C20. Position/index maps stay mutual inverses: after `setup_from_parties`, in both tables
`index_to_pos[pos_to_index[p]] = p` and `pos_to_index[index_to_pos[p]] = p` for every `p`;
`roll_initiative`, `get_next_character`, `build_main_event_queue`, `resolve_events` and `turn`
leave both maps of both tables as they are, whatever the builders do; so the maps are mutual
inverses in every state reached from the setup by calls of `roll_initiative` and `turn`. -/
theorem C20_maps_mutual_inverses (lib : SkillEnum → ActiveEventBuilder) (s : CombatSystem)
    (ally_party opponent_party : Fin 5 → Option CharacterSheet) :
    (MutualInverse (setup_from_parties s ally_party opponent_party).ally_character_table ∧
      MutualInverse
        (setup_from_parties s ally_party opponent_party).opponent_character_table) ∧
    (∀ s1 s2 : CombatSystem,
      (∀ r, roll_initiative s1 r = some s2 → SameMaps s1 s2) ∧
      (∀ r intent, get_next_character s1 r = some (s2, intent) → SameMaps s1 s2) ∧
      (∀ intent, build_main_event_queue lib s1 intent = some s2 → SameMaps s1 s2) ∧
      (∀ e e', resolve_events lib s1 e = some (s2, e') → SameMaps s1 s2) ∧
      (∀ skill_slot target_pos r, turn lib s1 skill_slot target_pos r = some s2 →
        SameMaps s1 s2)) ∧
    (∀ calls s', run_calls lib (setup_from_parties s ally_party opponent_party) calls
        = some s' →
      MutualInverse s'.ally_character_table ∧ MutualInverse s'.opponent_character_table) := by
  have hsetup : MutualInverse
        (setup_from_parties s ally_party opponent_party).ally_character_table ∧
      MutualInverse
        (setup_from_parties s ally_party opponent_party).opponent_character_table :=
    ⟨mutualInverse_of_identity _ fun pos =>
        ⟨(fill_side_spec _ ally_party pos).1, (fill_side_spec _ ally_party pos).2.1⟩,
      mutualInverse_of_identity _ fun pos =>
        ⟨(fill_side_spec _ opponent_party pos).1, (fill_side_spec _ opponent_party pos).2.1⟩⟩
  refine ⟨hsetup, ?_, ?_⟩
  · intro s1 s2
    refine ⟨fun r h => roll_initiative_sameMaps s1 s2 r h,
      fun r intent h => sameMaps_of_evolves s1 s2 (get_next_character_evolves s1 s2 r intent h),
      ?_, fun e e' h => sameMaps_of_evolves s1 s2 (resolve_events_evolves lib s1 s2 e e' h),
      fun a b r h => sameMaps_of_evolves s1 s2 (turn_evolves lib s1 s2 a b r h)⟩
    intro intent h
    obtain ⟨ha, ho⟩ := build_main_event_queue_tables lib s1 s2 intent h
    unfold SameMaps
    rw [ha, ho]
    exact ⟨rfl, rfl, rfl, rfl⟩
  · intro calls s' h
    obtain ⟨h1, h2, h3, h4⟩ := run_calls_sameMaps lib _ s' calls h
    unfold MutualInverse at hsetup ⊢
    rw [h1, h2, h3, h4]
    exact hsetup

/-- C20 at a concrete input: the duel after `roll_initiative` and the attack of the Bat. -/
theorem C20_witness :
    ∃ s', run_calls (skill_library example_aliases)
        (setup_from_parties idle_system lone_bat lone_orc)
        [Call.roll_initiative 0, Call.turn 0 0 0] = some s' ∧
      MutualInverse s'.ally_character_table ∧ MutualInverse s'.opponent_character_table := by
  have hret : (run_calls (skill_library example_aliases)
      (setup_from_parties idle_system lone_bat lone_orc)
      [Call.roll_initiative 0, Call.turn 0 0 0]).isSome = true := by decide!
  obtain ⟨s', hs'⟩ := Option.isSome_iff_exists.mp hret
  exact ⟨s', hs', (C20_maps_mutual_inverses (skill_library example_aliases) idle_system
    lone_bat lone_orc).2.2 _ s' hs'⟩

/-- One iteration of the loop of `fill` keeps the agreement of two tables: it is undefined on
both, or defined on both with results that agree. -/
theorem fill_step_schedulingEq (ms : ℚ) (ct ct' : CharacterTable) (pos : Fin 5)
    (h : SchedulingEq ct ct') :
    (fill_step ms ct pos = none ∧ fill_step ms ct' pos = none) ∨
    ∃ a a', fill_step ms ct pos = some a ∧ fill_step ms ct' pos = some a' ∧
      SchedulingEq a a' := by
  obtain ⟨h1, h2, h3⟩ := h
  unfold fill_step
  simp only [Option.bind_eq_bind]
  rw [← h1, ← h2, ← h3]
  cases f32 (ms * ct.spe (ct.pos_to_index pos)) with
  | none => exact Or.inl ⟨rfl, rfl⟩
  | some product =>
    simp only [Option.some_bind]
    cases f32 (ct.turn_bar (ct.pos_to_index pos) + product) with
    | none => exact Or.inl ⟨rfl, rfl⟩
    | some sum =>
      exact Or.inr ⟨_, _, rfl, rfl, rfl, rfl, rfl⟩

/-- The loop of `fill` keeps the agreement of two tables: it is undefined on both, or defined on
both with results that agree. -/
theorem fill_schedulingEq (ms : ℚ) (ct ct' : CharacterTable) (h : SchedulingEq ct ct') :
    (fill ms ct = none ∧ fill ms ct' = none) ∨
    ∃ a a', fill ms ct = some a ∧ fill ms ct' = some a' ∧ SchedulingEq a a' := by
  unfold fill
  have key : ∀ (l : List (Fin 5)) (c c' : CharacterTable), SchedulingEq c c' →
      (l.foldlM (fill_step ms) c = none ∧ l.foldlM (fill_step ms) c' = none) ∨
      ∃ a a', l.foldlM (fill_step ms) c = some a ∧ l.foldlM (fill_step ms) c' = some a' ∧
        SchedulingEq a a' := by
    intro l
    induction l with
    | nil => exact fun c c' hcc => Or.inr ⟨c, c', rfl, rfl, hcc⟩
    | cons p l ih =>
      intro c c' hcc
      simp only [List.foldlM_cons, Option.bind_eq_bind]
      rcases fill_step_schedulingEq ms c c' p hcc with ⟨e1, e2⟩ | ⟨a, a', e1, e2, haa⟩
      · rw [e1, e2]
        exact Or.inl ⟨rfl, rfl⟩
      · rw [e1, e2]
        exact ih a a' haa
  exact key positions ct ct' h

/-- Tables that agree on what the scheduler reads have the same entries. -/
theorem all_entries_schedulingEq (a a' o o' : CharacterTable) (ha : SchedulingEq a a')
    (ho : SchedulingEq o o') : all_entries a o = all_entries a' o' := by
  obtain ⟨a1, a2, a3⟩ := ha
  obtain ⟨o1, o2, o3⟩ := ho
  unfold all_entries table_entries table_entry
  rw [a1, a2, a3, o1, o2, o3]

/-- C27. Scheduling ignores life: for two states whose tables agree on the position maps, the
turn bars and the speeds, whatever their life and life bar values, `get_next_character` with the
same draw returns for both or for neither, with the same actor and the same turn bars; and the
call changes no life and no life bar. -/
theorem C27_scheduling_ignores_life (s1 s2 : CombatSystem) (r : Nat)
    (ha : SchedulingEq s1.ally_character_table s2.ally_character_table)
    (ho : SchedulingEq s1.opponent_character_table s2.opponent_character_table) :
    ((get_next_character s1 r).map fun p =>
        (p.2, p.1.ally_character_table.turn_bar, p.1.opponent_character_table.turn_bar)) =
      ((get_next_character s2 r).map fun p =>
        (p.2, p.1.ally_character_table.turn_bar, p.1.opponent_character_table.turn_bar)) ∧
    (∀ s' intent, get_next_character s1 r = some (s', intent) →
      s'.ally_character_table.life = s1.ally_character_table.life ∧
      s'.ally_character_table.life_bar = s1.ally_character_table.life_bar ∧
      s'.opponent_character_table.life = s1.opponent_character_table.life ∧
      s'.opponent_character_table.life_bar = s1.opponent_character_table.life_bar) := by
  constructor
  · rw [get_next_character_eq, get_next_character_eq,
      all_entries_schedulingEq _ _ _ _ ha ho]
    cases (all_entries s2.ally_character_table s2.opponent_character_table).foldlM scan_entry
      ScanState.init with
    | none => rfl
    | some st =>
      simp only [Option.some_bind]
      cases hff : st.found_full with
      | true =>
        simp only [if_true]
        cases pick_candidate st r with
        | none => rfl
        | some i =>
          simp only [Option.some_bind, Option.map_some', Option.some.injEq, Prod.mk.injEq,
            true_and]
          exact ⟨ha.2.1, ho.2.1⟩
      | false =>
        simp only [Bool.false_eq_true, if_false]
        cases st.min_step with
        | none => rfl
        | some ms =>
          simp only [Option.some_bind]
          rcases fill_schedulingEq ms _ _ ha with ⟨e1, e2⟩ | ⟨a, a', e1, e2, hfa⟩
          · rw [e1, e2]
            rfl
          · rw [e1, e2]
            simp only [Option.some_bind]
            rcases fill_schedulingEq ms _ _ ho with ⟨g1, g2⟩ | ⟨o, o', g1, g2, hfo⟩
            · rw [g1, g2]
              rfl
            · rw [g1, g2]
              simp only [Option.some_bind]
              rw [all_entries_schedulingEq _ _ _ _ hfa hfo]
              cases (all_entries a' o').foldlM rescan_entry st with
              | none => rfl
              | some st2 =>
                simp only [Option.some_bind]
                cases pick_candidate st2 r with
                | none => rfl
                | some i =>
                  simp only [Option.some_bind, Option.map_some', Option.some.injEq,
                    Prod.mk.injEq, true_and]
                  exact ⟨hfa.2.1, hfo.2.1⟩
  · intro s' intent h
    have hf := get_next_character_frame s1 s' r intent h
    rw [hf]
    exact ⟨rfl, rfl, rfl, rfl⟩

/-- C27 at a concrete input: the duel and the duel in which the Orc has life 0 select the same
actors after the reset of `roll_initiative`; the Orc at life 0 is scheduled like a living one. -/
theorem C27_witness :
    (SchedulingEq duel.ally_character_table fallen_duel.ally_character_table ∧
      SchedulingEq duel.opponent_character_table fallen_duel.opponent_character_table) ∧
    ((get_next_character fallen_duel 0).bind fun p =>
      (get_next_character (consume_turn_bar p.1 0 0) 0).map fun q =>
        (p.2, q.2, q.1.opponent_character_table.life 0)) = some (⟨0, 0, 0, 0⟩, ⟨1, 0, 0, 0⟩, 0) ∧
    ((get_next_character duel 5).map fun p =>
        (p.2, p.1.ally_character_table.turn_bar, p.1.opponent_character_table.turn_bar)) =
      ((get_next_character fallen_duel 5).map fun p =>
        (p.2, p.1.ally_character_table.turn_bar, p.1.opponent_character_table.turn_bar)) :=
  ⟨⟨⟨rfl, rfl, rfl⟩, ⟨rfl, rfl, rfl⟩⟩, by decide!,
    (C27_scheduling_ignores_life duel fallen_duel 5 ⟨rfl, rfl, rfl⟩ ⟨rfl, rfl, rfl⟩).1⟩

/-- The damage loop on one table leaves the life and the life bar of every slot that no position
with positive damage maps to. -/
theorem damage_fold_untouched (d : Fin 5 → ℚ) :
    ∀ (l : List (Fin 5)) (ct ct' : CharacterTable),
      l.foldlM (damage_step d) ct = some ct' →
      ∀ i, (∀ pos ∈ l, 0 < d pos → ct.pos_to_index pos ≠ i) →
        ct'.life i = ct.life i ∧ ct'.life_bar i = ct.life_bar i := by
  intro l
  induction l with
  | nil =>
    intro ct ct' h i _
    simp only [List.foldlM_nil, Option.pure_def, Option.some.injEq] at h
    subst h
    exact ⟨rfl, rfl⟩
  | cons a l ih =>
    intro ct ct' h i hi
    simp only [List.foldlM_cons, Option.bind_eq_bind, Option.bind_eq_some] at h
    obtain ⟨ct1, h1, h2⟩ := h
    have hstep : ct1.pos_to_index = ct.pos_to_index ∧ ct1.life i = ct.life i ∧
        ct1.life_bar i = ct.life_bar i := by
      unfold damage_step at h1
      split_ifs at h1 with hd
      · have hne := hi a (List.mem_cons_self a l) hd
        rw [damage_slot_spec _ _ _ _ h1]
        exact ⟨rfl, Function.update_noteq (Ne.symm hne) _ _,
          Function.update_noteq (Ne.symm hne) _ _⟩
      · simp only [Option.some.injEq] at h1
        subst h1
        exact ⟨rfl, rfl, rfl⟩
    obtain ⟨hp, hl, hb⟩ := hstep
    obtain ⟨g1, g2⟩ := ih ct1 ct' h2 i
      (fun pos hpos hd => by rw [hp]; exact hi pos (List.mem_cons_of_mem a hpos) hd)
    exact ⟨g1.trans hl, g2.trans hb⟩

/-- `resolve_event`, whenever it returns, changes the state at most in the two character tables
and each table at most in `life` and `life_bar`. -/
theorem resolve_event_frame (lib : SkillEnum → ActiveEventBuilder) (s s' : CombatSystem)
    (e e' : Event) (h : resolve_event lib s e = some (s', e')) :
    s' = { s with ally_character_table := s'.ally_character_table,
                  opponent_character_table := s'.opponent_character_table } ∧
    LifeFrame s.ally_character_table s'.ally_character_table ∧
    LifeFrame s.opponent_character_table s'.opponent_character_table := by
  cases hneg : e.is_negated with
  | true =>
    rw [resolve_event_negated lib s e hneg] at h
    simp only [Option.some.injEq, Prod.mk.injEq] at h
    rw [← h.1]
    exact ⟨rfl, lifeFrame_refl _, lifeFrame_refl _⟩
  | false =>
    obtain ⟨-, cts, hfold, hs'⟩ := resolve_event_eq_some lib s s' e e' hneg h
    obtain ⟨h1, h2⟩ := apply_damage_fold e' positions _ cts hfold
    have hfo := damage_fold_frame _ _ _ _ h1
    have hft := damage_fold_frame _ _ _ _ h2
    subst hs'
    unfold owner_table at hfo
    unfold other_table at hft
    unfold set_tables
    split_ifs with ht
    · rw [if_pos ht] at hfo hft
      exact ⟨rfl, hfo, hft⟩
    · rw [if_neg ht] at hfo hft
      exact ⟨rfl, hft, hfo⟩

/-- C24. Frame of damage application: whenever `resolve_event` returns, the state differs from
the given one at most in the two character tables, each table differs from its former value at
most in `life` and `life_bar` (every turn bar, stat, skill table, sheet and position or index map
is unchanged), and a slot keeps its life and its life bar unless it is `pos_to_index[pos]` for a
board position `pos` whose pending damage, in the event after the resolve-mode builder call, is
strictly positive; a negated event changes nothing.  The call returns whenever the builder call
does and no maximum life is 0. -/
theorem C24_damage_frame (lib : SkillEnum → ActiveEventBuilder) (s : CombatSystem)
    (e : Event) :
    (∀ s' e', resolve_event lib s e = some (s', e') →
      s' = { s with ally_character_table := s'.ally_character_table,
                    opponent_character_table := s'.opponent_character_table } ∧
      LifeFrame s.ally_character_table s'.ally_character_table ∧
      LifeFrame s.opponent_character_table s'.opponent_character_table ∧
      (∀ i, (∀ pos, 0 < e'.other_pos_damage pos →
          (other_table s e.intent.owner_team_index).pos_to_index pos ≠ i) →
        (other_table s' e.intent.owner_team_index).life i =
          (other_table s e.intent.owner_team_index).life i ∧
        (other_table s' e.intent.owner_team_index).life_bar i =
          (other_table s e.intent.owner_team_index).life_bar i) ∧
      (∀ i, (∀ pos, 0 < e'.owner_pos_damage pos →
          (owner_table s e.intent.owner_team_index).pos_to_index pos ≠ i) →
        (owner_table s' e.intent.owner_team_index).life i =
          (owner_table s e.intent.owner_team_index).life i ∧
        (owner_table s' e.intent.owner_team_index).life_bar i =
          (owner_table s e.intent.owner_team_index).life_bar i) ∧
      (e.is_negated = true → s' = s ∧ e' = e)) ∧
    (e.is_negated = false → ∀ e', resolve_builder lib s e = some e' →
      (∀ i, s.ally_character_table.lp i ≠ 0) → (∀ i, s.opponent_character_table.lp i ≠ 0) →
      ∃ s', resolve_event lib s e = some (s', e')) := by
  constructor
  · intro s' e' h
    cases hneg : e.is_negated with
    | true =>
      rw [resolve_event_negated lib s e hneg] at h
      simp only [Option.some.injEq, Prod.mk.injEq] at h
      obtain ⟨hs, he⟩ := h
      subst hs he
      exact ⟨rfl, lifeFrame_refl _, lifeFrame_refl _, fun _ _ => ⟨rfl, rfl⟩,
        fun _ _ => ⟨rfl, rfl⟩, fun _ => ⟨rfl, rfl⟩⟩
    | false =>
      obtain ⟨hst, hfa, hfo⟩ := resolve_event_frame lib s s' e e' h
      obtain ⟨-, cts, hfold, hs'⟩ := resolve_event_eq_some lib s s' e e' hneg h
      obtain ⟨h1, h2⟩ := apply_damage_fold e' positions _ cts hfold
      have huo := damage_fold_untouched _ _ _ _ h1
      have hut := damage_fold_untouched _ _ _ _ h2
      refine ⟨hst, hfa, hfo, ?_, ?_, fun hc => absurd hc (by simp)⟩
      · intro i hi
        rw [hs', other_table_set_tables]
        exact hut i (fun pos _ hd => hi pos hd)
      · intro i hi
        rw [hs', owner_table_set_tables]
        exact huo i (fun pos _ hd => hi pos hd)
  · intro hneg e' he' hla hlo
    have hl : (∀ i, (owner_table s e.intent.owner_team_index).lp i ≠ 0) ∧
        (∀ i, (other_table s e.intent.owner_team_index).lp i ≠ 0) := by
      unfold owner_table other_table
      split_ifs
      · exact ⟨hla, hlo⟩
      · exact ⟨hlo, hla⟩
    obtain ⟨cts, hcts⟩ := apply_damage_fold_total e' positions
      (owner_table s e.intent.owner_team_index, other_table s e.intent.owner_team_index)
      hl.1 hl.2
    exact ⟨set_tables s e.intent.owner_team_index cts.1 cts.2, by
      simp [resolve_event, hneg, he', hcts]⟩

/-- C24 at a concrete input: in the wounded encounter a builder leaves the pending damage `-50`
at board position 1, 300 at position 3 and 0 elsewhere; the opponent at index 1 keeps its 500
life, the opponent at index 3 loses 300 of its 1000, and no other life changes. -/
theorem C24_witness :
    ((resolve_event (fun _ => fixed_damage
        (fun p => if p = 1 then -50 else if p = 3 then 300 else 0) (fun _ => 0))
      wounded_encounter example_event).map fun p =>
        (positions.map wounded_encounter.opponent_character_table.life,
         positions.map p.1.opponent_character_table.life,
         positions.map p.1.opponent_character_table.life_bar,
         positions.map p.1.ally_character_table.life))
      = some ([1200, 500, 1400, 1000, 1400], [1200, 500, 1400, 700, 1400],
          [1, 5 / 14, 1, 7 / 10, 1], [1000, 1200, 1400, 1000, 1000]) ∧
    ∃ s' e', resolve_event (fun _ => fixed_damage
        (fun p => if p = 1 then -50 else if p = 3 then 300 else 0) (fun _ => 0))
        wounded_encounter example_event = some (s', e') ∧
      LifeFrame wounded_encounter.opponent_character_table s'.opponent_character_table ∧
      s'.opponent_character_table.life 1 = 500 := by
  refine ⟨by decide!, ?_⟩
  have hC := C24_damage_frame (fun _ => fixed_damage
    (fun p => if p = 1 then -50 else if p = 3 then 300 else 0) (fun _ => 0))
    wounded_encounter example_event
  obtain ⟨s', hs'⟩ := hC.2 rfl _ (by
    show resolve_builder _ wounded_encounter example_event = some
      { example_event with
        other_pos_damage := fun p => if p = 1 then -50 else if p = 3 then 300 else 0,
        owner_pos_damage := fun _ => 0 }
    rfl) (by decide!) (by decide!)
  obtain ⟨-, -, hfo, hut, -, -⟩ := hC.1 s' _ hs'
  refine ⟨s', _, hs', hfo, ?_⟩
  exact (hut 1 (by decide!)).1

/-- The damage expression `k*owner_atk/other_def` for a positive divisor and a product within
the range of `int`: the truncated quotient. -/
theorem int_damage_of_pos (k a d : Int) (hd : 0 < d) (hrange : in_int_range (k * a) = true) :
    int_damage k a d = some ((Int.tdiv (k * a) d : Int) : ℚ) := by
  have hr := hrange
  simp only [in_int_range, Bool.and_eq_true, decide_eq_true_eq] at hr
  have habs : (Int.tdiv (k * a) d).natAbs ≤ (k * a).natAbs := by
    rw [Int.natAbs_tdiv]
    exact Nat.div_le_self _ _
  have hsign : k * a < 0 → Int.tdiv (k * a) d ≤ 0 := by
    intro hneg
    have h1 : 0 ≤ Int.tdiv (-(k * a)) d := Int.tdiv_nonneg (by omega) (le_of_lt hd)
    rw [Int.neg_tdiv] at h1
    omega
  have h2 : in_int_range (Int.tdiv (k * a) d) = true := by
    simp only [in_int_range, Bool.and_eq_true, decide_eq_true_eq]
    by_cases hneg : k * a < 0
    · have := hsign hneg
      omega
    · omega
  have hd0 : d ≠ 0 := ne_of_gt hd
  simp [int_damage, int_mul, int_div, hrange, h2, hd0]

/-- The damage of `demo_attack` is the damage expression with the factor of the target. -/
theorem demo_attack_damage_eq (other_ct : CharacterTable) (target_index : Fin 5)
    (a d : Int) :
    demo_attack_damage other_ct target_index a d =
      int_damage (attack_factor other_ct target_index) a d := by
  unfold demo_attack_damage attack_factor
  split_ifs <;> rfl

/-- An index in range is its own conversion to `uint8_t`. -/
theorem idx5_to_uint8_of_idx5 (i : Int) (q : Fin 5) (h : idx5 i = some q) :
    idx5 (to_uint8 i) = some q := by
  unfold idx5 at h
  split_ifs at h with hi
  have : to_uint8 i = i := by
    unfold to_uint8
    omega
  rw [this]
  unfold idx5
  rw [dif_pos hi]
  exact h

/-- C23. Resolve-mode arithmetic of `demo_attack`: with the owner index `j` and the target
position `p` (after their conversion to `uint8_t`, which leaves an index in range as it is), the
attack of the actor and the defense of the target converting to the `int`s `a` and `d`, `d > 0`
and the product within the range of `int`, the call returns the event with
`other_pos_damage[p]` set to the quotient, truncated toward zero, of `200*a` by `d` when the
sheet at the table index of the target is not undead and of `400*a` by `d` when it is; every
other entry of `other_pos_damage`, all of `owner_pos_damage` and every other field of the event
are unchanged.  The tables are passed by const reference and are not part of the result. -/
theorem C23_demo_attack_resolve (A : Aliases) (owner_ct other_ct : CharacterTable)
    (intent : Intent) (event : Event) (j p : Fin 5) (a d : Int)
    (hj : idx5 (to_uint8 intent.owner_index) = some j)
    (hp : idx5 (to_uint8 intent.target_pos) = some p)
    (ha : float_to_int (owner_ct.atk j) = some a)
    (hd : float_to_int (other_ct.def_ (other_ct.pos_to_index p)) = some d)
    (hpos : 0 < d)
    (hrange : in_int_range (attack_factor other_ct (other_ct.pos_to_index p) * a) = true) :
    (demo_attack A).resolve owner_ct other_ct intent event =
      some { event with
        other_pos_damage := Function.update event.other_pos_damage p
          ((Int.tdiv (attack_factor other_ct (other_ct.pos_to_index p) * a) d : Int) : ℚ) } ∧
    (∀ q, idx5 intent.target_pos = some q → q = p) ∧
    (∀ q, idx5 intent.owner_index = some q → q = j) := by
  refine ⟨?_, ?_, ?_⟩
  · simp only [demo_attack, Option.bind_eq_bind, hj, hp, ha, hd, Option.some_bind,
      demo_attack_damage_eq, int_damage_of_pos _ a d hpos hrange]
  · intro q hq
    rw [idx5_to_uint8_of_idx5 _ q hq] at hp
    exact Option.some.inj hp
  · intro q hq
    rw [idx5_to_uint8_of_idx5 _ q hq] at hj
    exact Option.some.inj hj

/-- C23 at a concrete input: in the fully occupied encounter the Skeleton at ally index 1
(attack 120) attacks the undead Skeleton at opposing position 0 (defense 100): the pending
damage is `400*120/100 = 480`. -/
theorem C23_witness :
    ((demo_attack example_aliases).resolve full_encounter.ally_character_table
      full_encounter.opponent_character_table ⟨0, 1, 0, 0⟩ example_event).map
        (fun e => positions.map e.other_pos_damage) = some [480, 0, 0, 0, 0] ∧
    (demo_attack example_aliases).resolve full_encounter.ally_character_table
      full_encounter.opponent_character_table ⟨0, 1, 0, 0⟩ example_event =
      some { example_event with
        other_pos_damage := Function.update example_event.other_pos_damage 0
          ((Int.tdiv (attack_factor full_encounter.opponent_character_table
            (full_encounter.opponent_character_table.pos_to_index 0) * 120) 100 : Int) : ℚ) } :=
  ⟨by decide!, (C23_demo_attack_resolve example_aliases full_encounter.ally_character_table
    full_encounter.opponent_character_table ⟨0, 1, 0, 0⟩ example_event 1 0 120 100
    (by decide) (by decide) (by decide!) (by decide!) (by decide) (by decide!)).1⟩

/-- `BarsConsumed` is reflexive. -/
theorem barsConsumed_refl (ct : CharacterTable) : BarsConsumed ct ct :=
  ⟨rfl, rfl, fun _ => Or.inl rfl⟩

/-- `BarsConsumed` is transitive. -/
theorem barsConsumed_trans (a b c : CharacterTable) (h1 : BarsConsumed a b)
    (h2 : BarsConsumed b c) : BarsConsumed a c := by
  refine ⟨h2.1.trans h1.1, h2.2.1.trans h1.2.1, fun i => ?_⟩
  rcases h2.2.2 i with h | h
  · rw [h]
    exact h1.2.2 i
  · exact Or.inr h

/-- A table that differs at most in `life` and `life_bar` has its bars unconsumed. -/
theorem barsConsumed_of_lifeFrame (ct ct' : CharacterTable) (h : LifeFrame ct ct') :
    BarsConsumed ct ct' := by
  unfold LifeFrame at h
  rw [h]
  exact ⟨rfl, rfl, fun _ => Or.inl rfl⟩

/-- `resolve_events` keeps the position maps and the speeds and changes the turn bars at most
by setting one to 0. -/
theorem resolve_events_bars (lib : SkillEnum → ActiveEventBuilder) (s s' : CombatSystem)
    (e e' : Event) (h : resolve_events lib s e = some (s', e')) :
    BarsConsumed s.ally_character_table s'.ally_character_table ∧
    BarsConsumed s.opponent_character_table s'.opponent_character_table := by
  obtain ⟨s1, k, h1, -, hs'⟩ := resolve_events_eq_some lib s s' e e' h
  obtain ⟨-, hfa, hfo⟩ := resolve_event_frame lib s s1 e e' h1
  have hstep : BarsConsumed s1.ally_character_table s'.ally_character_table ∧
      BarsConsumed s1.opponent_character_table s'.opponent_character_table := by
    rw [hs']
    unfold consume_turn_bar
    split_ifs
    · refine ⟨⟨rfl, rfl, fun i => ?_⟩, barsConsumed_refl _⟩
      by_cases hi : i = k
      · right
        rw [hi]
        exact Function.update_same _ _ _
      · left
        exact Function.update_noteq hi _ _
    · refine ⟨barsConsumed_refl _, ⟨rfl, rfl, fun i => ?_⟩⟩
      by_cases hi : i = k
      · right
        rw [hi]
        exact Function.update_same _ _ _
      · left
        exact Function.update_noteq hi _ _
  exact ⟨barsConsumed_trans _ _ _ (barsConsumed_of_lifeFrame _ _ hfa) hstep.1,
    barsConsumed_trans _ _ _ (barsConsumed_of_lifeFrame _ _ hfo) hstep.2⟩

/-- The part of `turn` before the final selection keeps the position maps and the speeds and
changes the turn bars at most by setting some to 0. -/
theorem turn_resolve_bars (lib : SkillEnum → ActiveEventBuilder) (s s' : CombatSystem)
    (skill_slot target_pos : Int) (h : turn_resolve lib s skill_slot target_pos = some s') :
    BarsConsumed s.ally_character_table s'.ally_character_table ∧
    BarsConsumed s.opponent_character_table s'.opponent_character_table := by
  unfold turn_resolve at h
  simp only [Option.bind_eq_bind, Option.bind_eq_some] at h
  obtain ⟨s2, hdecl, hfold⟩ := h
  unfold turn_declare at hdecl
  obtain ⟨ha, ho⟩ := build_main_event_queue_tables lib _ s2 _ hdecl
  have h2 : BarsConsumed s.ally_character_table s2.ally_character_table ∧
      BarsConsumed s.opponent_character_table s2.opponent_character_table := by
    rw [ha, ho]
    exact ⟨barsConsumed_refl _, barsConsumed_refl _⟩
  refine foldlM_option_invariant (turn_step lib)
    (fun c => BarsConsumed s.ally_character_table c.ally_character_table ∧
      BarsConsumed s.opponent_character_table c.opponent_character_table) ?_ _ s2 s' h2 hfold
  intro b i b' hb hf
  unfold turn_step at hf
  simp only [Option.bind_eq_bind, Option.bind_eq_some, Option.some.injEq, Prod.exists] at hf
  obtain ⟨event, -, s1, e1, hres, hs'⟩ := hf
  obtain ⟨g1, g2⟩ := resolve_events_bars lib b s1 event e1 hres
  rw [← hs']
  exact ⟨barsConsumed_trans _ _ _ hb.1 g1, barsConsumed_trans _ _ _ hb.2 g2⟩

/-- One iteration of the loop of `fill_side` on the speeds and the turn bars: the slot of an
absent member keeps its speed, and the turn bar of the slot at the position is set to 0. -/
theorem fill_side_step_spe (party : Fin 5 → Option CharacterSheet) (ct : CharacterTable)
    (a : Fin 5) :
    (fill_side_step party ct a).turn_bar a = 0 ∧
    (party a = none → (fill_side_step party ct a).spe = ct.spe) ∧
    ∀ pos, pos ≠ a →
      (fill_side_step party ct a).spe pos = ct.spe pos ∧
      (fill_side_step party ct a).turn_bar pos = ct.turn_bar pos := by
  unfold fill_side_step
  cases hp : party a with
  | none =>
    refine ⟨by simp, fun _ => rfl, ?_⟩
    intro pos hpos
    simp [Function.update_noteq hpos]
  | some cs0 =>
    refine ⟨by simp, ?_, ?_⟩
    · intro h
      exact absurd h (by simp)
    · intro pos hpos
      simp [Function.update_noteq hpos]

/-- The loop of `fill_side` over a list of positions, on the speeds and the turn bars. -/
theorem fill_side_fold_spe (party : Fin 5 → Option CharacterSheet) :
    ∀ (l : List (Fin 5)) (ct : CharacterTable),
      (∀ pos ∈ l, (l.foldl (fill_side_step party) ct).turn_bar pos = 0) ∧
      (∀ pos, party pos = none → (l.foldl (fill_side_step party) ct).spe pos = ct.spe pos) ∧
      ∀ pos, pos ∉ l → (l.foldl (fill_side_step party) ct).turn_bar pos = ct.turn_bar pos := by
  intro l
  induction l with
  | nil =>
    intro ct
    exact ⟨fun pos hpos => absurd hpos (List.not_mem_nil pos), fun _ _ => rfl, fun _ _ => rfl⟩
  | cons a l ih =>
    intro ct
    simp only [List.foldl_cons]
    obtain ⟨hin, hspe, hout⟩ := ih (fill_side_step party ct a)
    obtain ⟨hat, habs, hoff⟩ := fill_side_step_spe party ct a
    refine ⟨?_, ?_, ?_⟩
    · intro pos hpos
      by_cases hl : pos ∈ l
      · exact hin pos hl
      · have hpa : pos = a := by
          rcases List.mem_cons.mp hpos with h | h
          · exact h
          · exact absurd h hl
        subst hpa
        rw [hout pos hl]
        exact hat
    · intro pos hpos
      rw [hspe pos hpos]
      by_cases hpa : pos = a
      · subst hpa
        rw [habs hpos]
      · exact (hoff pos hpa).1
    · intro pos hpos
      have hpa : pos ≠ a := fun h => hpos (by rw [h]; exact List.mem_cons_self a l)
      rw [hout pos (fun h => hpos (List.mem_cons_of_mem a h))]
      exact (hoff pos hpa).2

/-- The table `fill_side` leaves has the speed the table had before in the slot of every absent
member, and turn bar 0 in every slot. -/
theorem fill_side_absent (ct : CharacterTable) (party : Fin 5 → Option CharacterSheet)
    (pos : Fin 5) :
    (fill_side ct party).turn_bar pos = 0 ∧
    (party pos = none → (fill_side ct party).spe pos = ct.spe pos) :=
  ⟨(fill_side_fold_spe party positions ct).1 pos (mem_positions pos),
    (fill_side_fold_spe party positions ct).2.1 pos⟩

/-- The binary32 value of 0 is 0. -/
theorem f32_zero : f32 0 = some 0 := if_pos rfl

/-- The fill keeps the position map and the speeds, and leaves at 0 the turn bar of every slot
whose speed and turn bar are 0. -/
theorem fill_idle (ms : ℚ) (ct ct' : CharacterTable) (h : fill ms ct = some ct') :
    ct'.pos_to_index = ct.pos_to_index ∧ ct'.spe = ct.spe ∧
    ∀ i, ct.spe i = 0 → ct.turn_bar i = 0 → ct'.turn_bar i = 0 := by
  unfold fill at h
  refine foldlM_option_invariant (fill_step ms)
    (fun c => c.pos_to_index = ct.pos_to_index ∧ c.spe = ct.spe ∧
      ∀ i, ct.spe i = 0 → ct.turn_bar i = 0 → c.turn_bar i = 0) ?_ positions ct ct'
    ⟨rfl, rfl, fun _ _ h0 => h0⟩ h
  intro b a b' hb hf
  obtain ⟨product, sum, hp, hs, hb'⟩ := fill_step_eq_some ms b b' a hf
  rw [hb']
  refine ⟨hb.1, hb.2.1, ?_⟩
  intro i hi0 hb0
  show Function.update b.turn_bar (b.pos_to_index a) sum i = 0
  by_cases hia : i = b.pos_to_index a
  · rw [hia, Function.update_same]
    rw [← hia, hb.2.1, hi0, mul_zero, f32_zero] at hp
    rw [← hia, hb.2.2 i hi0 hb0, ← Option.some.inj hp, add_zero, f32_zero] at hs
    exact (Option.some.inj hs).symm
  · rw [Function.update_noteq hia]
    exact hb.2.2 i hi0 hb0

/-- What `get_next_character` does to the tables: nothing, or the fill by some step. -/
theorem get_next_character_tables (s s' : CombatSystem) (r : Nat) (intent : Intent)
    (h : get_next_character s r = some (s', intent)) :
    s' = s ∨ ∃ ms ally opponent, fill ms s.ally_character_table = some ally ∧
      fill ms s.opponent_character_table = some opponent ∧
      s' = { s with ally_character_table := ally, opponent_character_table := opponent } := by
  rw [get_next_character_eq] at h
  simp only [Option.bind_eq_some] at h
  obtain ⟨st, -, h⟩ := h
  split_ifs at h
  · simp only [Option.bind_eq_some, Option.some.injEq, Prod.mk.injEq] at h
    obtain ⟨_, _, hs, _⟩ := h
    exact Or.inl hs.symm
  · simp only [Option.bind_eq_some, Option.some.injEq, Prod.mk.injEq] at h
    obtain ⟨ms, _, ally, hfa, opponent, hfo, _, _, _, _, hs, _⟩ := h
    exact Or.inr ⟨ms, ally, opponent, hfa, hfo, hs.symm⟩

/-- The intent `get_next_character` returns names a slot whose turn bar is full after the
call. -/
theorem get_next_character_selects_ready (s s' : CombatSystem) (r : Nat) (intent : Intent)
    (h : get_next_character s r = some (s', intent)) :
    ∃ (t : Int) (k : Fin 5), (t = 0 ∨ t = 1) ∧ intent = candidate_intent t k ∧
      1 ≤ (if t = 0 then s'.ally_character_table else s'.opponent_character_table).turn_bar k := by
  obtain ⟨L, hL, -, -, hget, -⟩ := get_next_character_pick s s' r intent h
  have hmem : intent ∈ L := List.get?_mem hget
  rw [hL] at hmem
  obtain ⟨t, k, ht, hi, hbar, -⟩ := fastest_ready_decode _ _ intent hmem
  exact ⟨t, k, ht, hi, hbar⟩

/-- `get_next_character` keeps the absent slots idle and selects the slot of a party member. -/
theorem get_next_character_absent (ally_party opponent_party : Fin 5 → Option CharacterSheet)
    (s s' : CombatSystem) (r : Nat) (intent : Intent)
    (hs : AbsentSlotsIdle ally_party opponent_party s)
    (h : get_next_character s r = some (s', intent)) :
    AbsentSlotsIdle ally_party opponent_party s' ∧
    SelectsPresent ally_party opponent_party intent := by
  obtain ⟨ha, ho, hia, hio⟩ := hs
  have hinv : AbsentSlotsIdle ally_party opponent_party s' := by
    rcases get_next_character_tables s s' r intent h with
      h1 | ⟨ms, ally, opponent, hfa, hfo, h1⟩
    · rw [h1]
      exact ⟨ha, ho, hia, hio⟩
    · obtain ⟨a2, a1, a3⟩ := fill_idle ms _ ally hfa
      obtain ⟨o2, o1, o3⟩ := fill_idle ms _ opponent hfo
      rw [h1]
      refine ⟨fun pos => ?_, fun pos => ?_, fun pos hp => ?_, fun pos hp => ?_⟩
      · show ally.pos_to_index pos = pos
        rw [a2]
        exact ha pos
      · show opponent.pos_to_index pos = pos
        rw [o2]
        exact ho pos
      · show ally.spe pos = 0 ∧ ally.turn_bar pos = 0
        rw [a1]
        exact ⟨(hia pos hp).1, a3 pos (hia pos hp).1 (hia pos hp).2⟩
      · show opponent.spe pos = 0 ∧ opponent.turn_bar pos = 0
        rw [o1]
        exact ⟨(hio pos hp).1, o3 pos (hio pos hp).1 (hio pos hp).2⟩
  refine ⟨hinv, ?_⟩
  obtain ⟨t, k, ht, hi, hbar⟩ := get_next_character_selects_ready s s' r intent h
  have hk : idx5 intent.owner_index = some k := by
    rw [hi]
    exact idx5_candidate_intent t k
  refine ⟨k, hk, ?_⟩
  rcases ht with ht | ht
  · left
    subst ht
    refine ⟨by rw [hi]; rfl, ?_⟩
    simp only [if_true] at hbar
    cases hp : ally_party k with
    | none =>
      rw [(hinv.2.2.1 k hp).2] at hbar
      exact absurd hbar (by norm_num)
    | some cs => rfl
  · right
    subst ht
    refine ⟨by rw [hi]; rfl, ?_⟩
    simp only [show ¬((1 : Int) = 0) by decide, if_false] at hbar
    cases hp : opponent_party k with
    | none =>
      rw [(hinv.2.2.2 k hp).2] at hbar
      exact absurd hbar (by norm_num)
    | some cs => rfl

/-- Consumed bars keep the absent slots idle. -/
theorem absentIdle_of_barsConsumed (party : Fin 5 → Option CharacterSheet)
    (ct ct' : CharacterTable) (h : BarsConsumed ct ct') (hct : AbsentIdle party ct) :
    AbsentIdle party ct' := by
  intro pos hp
  refine ⟨by rw [h.2.1]; exact (hct pos hp).1, ?_⟩
  rcases h.2.2 pos with hb | hb
  · rw [hb]
    exact (hct pos hp).2
  · exact hb

/-- `roll_initiative` keeps the absent slots idle and selects the slot of a party member. -/
theorem roll_initiative_absent (ally_party opponent_party : Fin 5 → Option CharacterSheet)
    (s s' : CombatSystem) (r : Nat) (hs : AbsentSlotsIdle ally_party opponent_party s)
    (h : roll_initiative s r = some s') :
    AbsentSlotsIdle ally_party opponent_party s' ∧
    SelectsPresent ally_party opponent_party s'.main_intent := by
  unfold roll_initiative at h
  simp only [Option.bind_eq_bind, Option.bind_eq_some, Option.some.injEq, Prod.exists] at h
  obtain ⟨s2, intent, hg, hs'⟩ := h
  obtain ⟨ha, ho, hia, hio⟩ := hs
  have h1 := get_next_character_absent ally_party opponent_party _ s2 r intent
    (by
      refine ⟨?_, ?_, ?_, ?_⟩
      · simp only [reset_bars_spec]
        exact ha
      · simp only [reset_bars_spec]
        exact ho
      · intro pos hp
        simp only [reset_bars_spec]
        exact ⟨(hia pos hp).1, trivial⟩
      · intro pos hp
        simp only [reset_bars_spec]
        exact ⟨(hio pos hp).1, trivial⟩) hg
  rw [← hs']
  exact ⟨h1.1, h1.2⟩

/-- `turn` keeps the absent slots idle and selects the slot of a party member, whatever the
skill builders compute. -/
theorem turn_absent (lib : SkillEnum → ActiveEventBuilder)
    (ally_party opponent_party : Fin 5 → Option CharacterSheet)
    (s s' : CombatSystem) (skill_slot target_pos : Int) (r : Nat)
    (hs : AbsentSlotsIdle ally_party opponent_party s)
    (h : turn lib s skill_slot target_pos r = some s') :
    AbsentSlotsIdle ally_party opponent_party s' ∧
    SelectsPresent ally_party opponent_party s'.main_intent := by
  unfold turn at h
  simp only [Option.bind_eq_bind, Option.bind_eq_some, Option.some.injEq, Prod.exists] at h
  obtain ⟨s3, h3, s4, intent, h4, hs'⟩ := h
  obtain ⟨ba, bo⟩ := turn_resolve_bars lib s s3 _ _ h3
  obtain ⟨ha, ho, hia, hio⟩ := hs
  have h1 := get_next_character_absent ally_party opponent_party s3 s4 r intent
    ⟨fun pos => by rw [ba.1]; exact ha pos, fun pos => by rw [bo.1]; exact ho pos,
      absentIdle_of_barsConsumed _ _ _ ba hia, absentIdle_of_barsConsumed _ _ _ bo hio⟩ h4
  rw [← hs']
  exact ⟨h1.1, h1.2⟩

/-- Every call keeps the absent slots idle and selects the slot of a party member. -/
theorem run_call_absent (lib : SkillEnum → ActiveEventBuilder)
    (ally_party opponent_party : Fin 5 → Option CharacterSheet)
    (s s' : CombatSystem) (c : Call) (hs : AbsentSlotsIdle ally_party opponent_party s)
    (h : run_call lib s c = some s') :
    AbsentSlotsIdle ally_party opponent_party s' ∧
    SelectsPresent ally_party opponent_party s'.main_intent := by
  cases c with
  | roll_initiative r => exact roll_initiative_absent ally_party opponent_party s s' r hs h
  | turn a t r => exact turn_absent lib ally_party opponent_party s s' a t r hs h

/-- Absent roster slots are never scheduled when the tables held speed 0 in the slots of the
absent roster entries before the setup (as the zero tables of a new combat system do): then
after `setup_from_parties` followed by any non-empty sequence of calls of
`roll_initiative` and `turn`, whatever the skill builders compute and whatever the speeds of the
present combatants are, the intent the scheduler selected last names a slot whose roster entry
has a character sheet, and the slots of the absent entries still have speed 0 and turn bar 0. -/
theorem absent_slots_never_scheduled (lib : SkillEnum → ActiveEventBuilder)
    (s : CombatSystem) (ally_party opponent_party : Fin 5 → Option CharacterSheet)
    (calls : List Call) (s' : CombatSystem)
    (hally : ∀ pos, ally_party pos = none → s.ally_character_table.spe pos = 0)
    (hopp : ∀ pos, opponent_party pos = none → s.opponent_character_table.spe pos = 0)
    (hcalls : calls ≠ [])
    (h : run_calls lib (setup_from_parties s ally_party opponent_party) calls = some s') :
    SelectsPresent ally_party opponent_party s'.main_intent ∧
    AbsentIdle ally_party s'.ally_character_table ∧
    AbsentIdle opponent_party s'.opponent_character_table := by
  have h0 : AbsentSlotsIdle ally_party opponent_party
      (setup_from_parties s ally_party opponent_party) := by
    refine ⟨fun pos => (fill_side_spec _ ally_party pos).1,
      fun pos => (fill_side_spec _ opponent_party pos).1, fun pos hp => ?_, fun pos hp => ?_⟩
    · show (fill_side s.ally_character_table ally_party).spe pos = 0 ∧
        (fill_side s.ally_character_table ally_party).turn_bar pos = 0
      obtain ⟨h1, h2⟩ := fill_side_absent s.ally_character_table ally_party pos
      exact ⟨by rw [h2 hp]; exact hally pos hp, h1⟩
    · show (fill_side s.opponent_character_table opponent_party).spe pos = 0 ∧
        (fill_side s.opponent_character_table opponent_party).turn_bar pos = 0
      obtain ⟨h1, h2⟩ := fill_side_absent s.opponent_character_table opponent_party pos
      exact ⟨by rw [h2 hp]; exact hopp pos hp, h1⟩
  cases calls with
  | nil => exact absurd rfl hcalls
  | cons c l =>
    unfold run_calls at h
    simp only [List.foldlM_cons, Option.bind_eq_bind, Option.bind_eq_some] at h
    obtain ⟨s1, h1, h2⟩ := h
    have hq := foldlM_option_invariant (run_call lib)
      (fun c => AbsentSlotsIdle ally_party opponent_party c ∧
        SelectsPresent ally_party opponent_party c.main_intent)
      (fun b a b' hb hf => run_call_absent lib ally_party opponent_party b b' a hb.1 hf)
      l s1 s' (run_call_absent lib ally_party opponent_party _ s1 c h0 h1) h2
    exact ⟨hq.2, hq.1.2.2.1, hq.1.2.2.2⟩

/-- Whether `roll_initiative` returns does not depend on the draw. -/
theorem roll_initiative_none_of_draw (s : CombatSystem) (r0 : Nat)
    (h : roll_initiative s r0 = none) : ∀ r, roll_initiative s r = none := by
  intro r
  cases hg : get_next_character
      { s with ally_character_table := reset_bars s.ally_character_table,
               opponent_character_table := reset_bars s.opponent_character_table,
               combat_state := CombatState.RUNNING } r0 with
  | none =>
    have hr := get_next_character_none_of_draw _ r0 hg r
    simp [roll_initiative, hr]
  | some p =>
    simp [roll_initiative, hg] at h

/-- C25. The candidates array overflows when more than eight combatants tie.  In the encounter
of ten Bats all speeds are 180 and all turn bars are 0: the scans find no full bar and the least
step, the binary32 value of `1 / 180`, the fill brings all ten bars to 1, and the ten combatants
are the tied ready combatants of maximum speed.  The rescan records the first eight of them; the
ninth is written past the end of the array of eight candidates, so `get_next_character` and
`roll_initiative` are undefined for every draw. -/
theorem C25_candidate_buffer_overflow :
    ((∀ i, ten_bats.ally_character_table.spe i = 180 ∧
        ten_bats.opponent_character_table.spe i = 180) ∧
      ∀ i, ten_bats.ally_character_table.turn_bar i = 0 ∧
        ten_bats.opponent_character_table.turn_bar i = 0) ∧
    ((scan ten_bats.ally_character_table 0 ScanState.init).bind
        (scan ten_bats.opponent_character_table 1)).map
      (fun st => (st.found_full, st.min_step, st.candidates, st.highest_speed))
      = some (false, some (11930465 / 2147483648), [], -1) ∧
    ten_bats_filled.map (fun s =>
        (positions.map s.ally_character_table.turn_bar,
         positions.map s.opponent_character_table.turn_bar, (tied_set s).length))
      = some ([1, 1, 1, 1, 1], [1, 1, 1, 1, 1], 10) ∧
    ((ten_bats_filled.bind fun s =>
        ((all_entries s.ally_character_table s.opponent_character_table).take 8).foldlM
          rescan_entry { ScanState.init with min_step := some (11930465 / 2147483648) }).map
      (fun st => st.candidates.length) = some 8 ∧
      (ten_bats_filled.map fun s =>
        ((all_entries s.ally_character_table s.opponent_character_table).take 9).foldlM
          rescan_entry { ScanState.init with min_step := some (11930465 / 2147483648) })
        = some none ∧
      (ten_bats_filled.map fun s =>
        (rescan s.ally_character_table 0
            { ScanState.init with min_step := some (11930465 / 2147483648) }).bind
          (rescan s.opponent_character_table 1)) = some none) ∧
    (∀ r, get_next_character ten_bats r = none) ∧
    ∀ r, roll_initiative ten_bats r = none := by
  refine ⟨⟨by decide!, by decide!⟩, by decide!, by decide!, ⟨by decide!, by decide!, by decide!⟩,
    ?_, ?_⟩
  · exact get_next_character_none_of_draw ten_bats 0
      (Option.isNone_iff_eq_none.mp (by decide!))
  · exact roll_initiative_none_of_draw ten_bats 0
      (Option.isNone_iff_eq_none.mp (by decide!))

/-- A valid entry has a reactor index in range. -/
theorem passive_is_valid_index (owner_ct other_ct : CharacterTable) (pt : PassiveTable)
    (e : Event) (i : Nat) (b : Bool) (h : passive_is_valid owner_ct other_ct pt e i = some b) :
    ∃ j, idx5 (pt.intent i).owner_index = some j := by
  unfold passive_is_valid at h
  simp only [Option.bind_eq_bind, Option.bind_eq_some] at h
  obtain ⟨j, hj, -⟩ := h
  exact ⟨j, hj⟩

/-- C11. Negate pass: for every event and every state in which no combatant of the reacting
side has a negative speed, whenever `get_passives` returns, the event differs from the given one
at most in `is_negated`, and the flag is true exactly when it was true before or an entry of the
opposing negate registry is valid for the event (`passive_is_valid`).  The negate pass calls no
passive builder, however many negate entries are valid: with empty intercept and react
registries, and whatever the builder library, the state after `get_passives` is the given state
with the four reaction queues cleared, and the call returns when the negate registry has at most
eight entries on all of which the validity test is defined. -/
theorem C11_negate_pass (plib : SkillEnum → PassiveEventBuilder) (candidate : Intent)
    (s : CombatSystem) (e : Event)
    (hspe : ∀ j, 0 ≤ (other_table s e.intent.owner_team_index).spe j) :
    (∀ s' e', get_passives plib candidate s e = some (s', e') →
      e' = { e with is_negated := e'.is_negated } ∧
      (e'.is_negated = true ↔ e.is_negated = true ∨
        ∃ i < (other_negate_table s e.intent.owner_team_index).count,
          passive_is_valid (owner_table s e.intent.owner_team_index)
            (other_table s e.intent.owner_team_index)
            (other_negate_table s e.intent.owner_team_index) e i = some true)) ∧
    ((other_intercept_table s e.intent.owner_team_index).count = 0 →
      (other_react_table s e.intent.owner_team_index).count = 0 →
      (∀ s' e', get_passives plib candidate s e = some (s', e') →
        s' = clear_reaction_queues s) ∧
      ((other_negate_table s e.intent.owner_team_index).count ≤ 8 →
        (∀ n < (other_negate_table s e.intent.owner_team_index).count,
          passive_is_valid (owner_table s e.intent.owner_team_index)
            (other_table s e.intent.owner_team_index)
            (other_negate_table s e.intent.owner_team_index) e n ≠ none) →
        ∃ e', get_passives plib candidate s e = some (clear_reaction_queues s, e'))) := by
  obtain ⟨h1, h2⟩ := get_passives_negate_spec plib candidate s e
  refine ⟨?_, h2⟩
  intro s' e' h
  obtain ⟨hframe, hiff⟩ := h1 s' e' h
  refine ⟨hframe, hiff.trans ?_⟩
  constructor
  · rintro (h0 | ⟨i, hi, j, hv, -, -⟩)
    · exact Or.inl h0
    · exact Or.inr ⟨i, hi, hv⟩
  · rintro (h0 | ⟨i, hi, hv⟩)
    · exact Or.inl h0
    · obtain ⟨j, hj⟩ := passive_is_valid_index _ _ _ _ _ _ hv
      exact Or.inr ⟨i, hi, j, hv, hj, by linarith [hspe j]⟩

/-- C11 at a concrete input: the guarded duel, whose negate registry holds a valid entry of the
Orc (speed 100), and the attack declared by the Bat; the event comes back negated, and no
builder of the recording library has queued an event. -/
theorem C11_witness :
    (∀ j, 0 ≤ (other_table guarded_duel declared_attack.intent.owner_team_index).spe j) ∧
    declared_attack.is_negated = false ∧
    (∃ i < (other_negate_table guarded_duel declared_attack.intent.owner_team_index).count,
      passive_is_valid (owner_table guarded_duel declared_attack.intent.owner_team_index)
        (other_table guarded_duel declared_attack.intent.owner_team_index)
        (other_negate_table guarded_duel declared_attack.intent.owner_team_index)
        declared_attack i = some true) ∧
    (get_passives recording_library ⟨0, 0, 0, 0⟩ guarded_duel declared_attack).map
      (fun p => (p.2.is_negated, recorded_intents p.1)) = some (true, []) ∧
    ∃ e', get_passives recording_library ⟨0, 0, 0, 0⟩ guarded_duel declared_attack
      = some (clear_reaction_queues guarded_duel, e') ∧ e'.is_negated = true := by
  have hspe : ∀ j, 0 ≤ (other_table guarded_duel
      declared_attack.intent.owner_team_index).spe j := by decide!
  have hv : ∃ i < (other_negate_table guarded_duel
        declared_attack.intent.owner_team_index).count,
      passive_is_valid (owner_table guarded_duel declared_attack.intent.owner_team_index)
        (other_table guarded_duel declared_attack.intent.owner_team_index)
        (other_negate_table guarded_duel declared_attack.intent.owner_team_index)
        declared_attack i = some true :=
    ⟨0, by decide, by decide!⟩
  have hC := C11_negate_pass recording_library ⟨0, 0, 0, 0⟩ guarded_duel declared_attack hspe
  obtain ⟨e', he'⟩ := (hC.2 rfl rfl).2 (by decide) (by decide!)
  exact ⟨hspe, rfl, hv, by decide!, e', he', ((hC.1 _ e' he').2).mpr (Or.inr hv)⟩

/-- C16. The cleave on empty positions.  In the duel of the Bat against the Orc the opposing
board positions 1 to 4 are empty and the defense at their table indices is 0: the resolve-mode
call of `demo_cleave` computes the damage 100 for position 0 and then divides by the defense 0 of
the empty position 1, so the call, and with it the `turn` that submits the cleave after
`roll_initiative`, is undefined for every draw.  In the rematch the empty opposing positions
hold the stats of the earlier encounter, and the call writes the damage 100 for each of them. -/
theorem C16_cleave_on_empty_positions :
    (positions.map (fun pos => (lone_orc pos).isSome) = [true, false, false, false, false] ∧
      duel = setup_from_parties idle_system lone_bat lone_orc ∧
      rematch = setup_from_parties full_encounter lone_bat lone_orc) ∧
    ([(0 : Fin 5)].foldlM (demo_cleave_step duel.opponent_character_table 100)
        declared_cleave).map (fun e => positions.map e.other_pos_damage)
      = some [100, 0, 0, 0, 0] ∧
    (float_to_int (duel.opponent_character_table.def_
        (duel.opponent_character_table.pos_to_index 1)) = some 0 ∧
      demo_cleave_damage duel.opponent_character_table
        (duel.opponent_character_table.pos_to_index 1) 100 0 = none) ∧
    (demo_cleave example_aliases).resolve duel.ally_character_table
        duel.opponent_character_table declared_cleave.intent declared_cleave = none ∧
    (∀ r, ((roll_initiative duel 0).bind fun s0 =>
      turn (skill_library example_aliases) s0 1 0 r) = none) ∧
    ((demo_cleave example_aliases).resolve rematch.ally_character_table
      rematch.opponent_character_table declared_cleave.intent declared_cleave).map
        (fun e => positions.map e.other_pos_damage) = some [100, 100, 100, 100, 100] := by
  refine ⟨⟨rfl, rfl, rfl⟩, by decide!, ⟨by decide!, by decide!⟩, ?_, ?_, by decide!⟩
  · exact Option.isNone_iff_eq_none.mp (by decide!)
  · intro r
    have h0 : Option.isNone ((roll_initiative duel 0).bind fun s0 =>
        turn (skill_library example_aliases) s0 1 0 0) = true := by decide!
    have h0' := Option.isNone_iff_eq_none.mp h0
    cases hroll : roll_initiative duel 0 with
    | none => rfl
    | some s0 =>
      rw [hroll] at h0'
      exact turn_none_of_draw (skill_library example_aliases) s0 1 0 0 h0' r

/-- C22. An absent roster slot is scheduled.  `setup_from_parties` with a Bat alone and an Orc
alone on the combat system that held the fully occupied encounter writes the maps, the bars and
the damage factors of the slots of the absent roster entries and leaves their speed, life and
other stats as the former occupants had them: the ally slot 3, whose roster entry has no
character sheet, keeps speed 180.  After `roll_initiative` the ready combatants of greatest speed
are the ally slots 0, 3 and 4 and the opponent slot 3, and the draw 1 selects the ally slot 3. -/
theorem C22_absent_slot_scheduled :
    (positions.map (fun pos => (lone_bat pos).isSome) = [true, false, false, false, false] ∧
      positions.map (fun pos => (lone_orc pos).isSome) = [true, false, false, false, false]) ∧
    (positions.map rematch.ally_character_table.spe = [180, 140, 100, 180, 180] ∧
      positions.map rematch.opponent_character_table.spe = [100, 100, 100, 180, 100] ∧
      positions.map rematch.ally_character_table.life = [1000, 1200, 1400, 1000, 1000] ∧
      positions.map rematch.ally_character_table.turn_bar = [0, 0, 0, 0, 0] ∧
      positions.map rematch.ally_character_table.dmg_in = [1, 0, 0, 0, 0]) ∧
    (roll_initiative rematch 1).map (fun s' => (tied_set s', s'.main_intent))
      = some ([⟨0, 0, 0, 0⟩, ⟨0, 3, 0, 0⟩, ⟨0, 4, 0, 0⟩, ⟨1, 3, 0, 0⟩], ⟨0, 3, 0, 0⟩) ∧
    (run_calls (skill_library example_aliases)
        (setup_from_parties full_encounter lone_bat lone_orc) [Call.roll_initiative 1]).map
      (fun s' => s'.main_intent) = some ⟨0, 3, 0, 0⟩ ∧
    (run_calls (skill_library example_aliases)
        (setup_from_parties idle_system lone_bat lone_orc) [Call.roll_initiative 1]).map
      (fun s' => s'.main_intent) = some ⟨0, 0, 0, 0⟩ := by
  refine ⟨⟨rfl, rfl⟩, ⟨by decide!, by decide!, by decide!, by decide!, by decide!⟩,
    by decide!, by decide!, by decide!⟩

/-- Without a full bar and with no bar full after the fill, `get_next_character` is undefined
for every draw: the read `candidates[randi() % candidates_count]` divides by zero. -/
theorem get_next_character_none_of_stall (s : CombatSystem) (t : StallTrace)
    (h : stall_trace s = some t) (hff : t.found_full = false) (hc : t.candidates = []) :
    ∀ r, get_next_character s r = none := by
  intro r
  unfold stall_trace at h
  simp only [Option.bind_eq_some, Option.map_eq_some'] at h
  obtain ⟨st, ⟨st0, h0, h1⟩, ms', hms, ally, hfa, opponent, hfo, st2, ⟨st1, g0, g1⟩, ht⟩ := h
  subst ht
  have hpick : pick_candidate st2 r = none := by
    unfold pick_candidate
    rw [show st2.candidates = [] from hc]
    rfl
  have hff' : st.found_full = false := hff
  unfold get_next_character
  simp [h0, h1, hff', hms, hfa, hfo, g0, g1, hpick]

/-- A call of `turn` on the result of earlier calls is undefined for every draw when the
declare/resolve/apply part leaves a state on which the scheduler finds no full bar and fills no
bar. -/
theorem turn_none_of_stall (lib : SkillEnum → ActiveEventBuilder) (o : Option CombatSystem)
    (skill_slot target_pos : Int)
    (h : ∀ s, o = some s → ∃ s3 t, turn_resolve lib s skill_slot target_pos = some s3 ∧
      stall_trace s3 = some t ∧ t.found_full = false ∧ t.candidates = []) :
    ∀ r, (o.bind fun s => turn lib s skill_slot target_pos r) = none := by
  intro r
  cases o with
  | none => rfl
  | some s =>
    obtain ⟨s3, t, h3, hst, hff, hc⟩ := h s rfl
    have hg := get_next_character_none_of_stall s3 t hst hff hc r
    simp [turn, h3, hg]

/-- C26. The candidate list is empty at the read.  In the fully occupied encounter with the
turn bar of the ally Bat at index 0 at `13421751 / 67108864` and every other turn bar at 0, all
ten speeds are positive and no bar is full: the scans leave `found_full` false and the least
step `9544375 / 2147483648`, the binary32 quotient of that Bat; the binary32 fill brings its bar
to `16777215 / 16777216`, below 1, and every other bar less far; the rescans record no
candidate, so `candidates_count` is 0 at `randi() % candidates_count` and the call is undefined
for every draw.  The turn bar of the example arises in the duel of the Bat against the Orc after
`roll_initiative` and ten turns, where the eleventh turn is undefined in the same way. -/
theorem C26_empty_candidate_list :
    ((∀ i, 0 < stalled_encounter.ally_character_table.spe i ∧
        0 < stalled_encounter.opponent_character_table.spe i) ∧
      MeterRange stalled_encounter.ally_character_table ∧
      MeterRange stalled_encounter.opponent_character_table) ∧
    stall_trace stalled_encounter
      = some { found_full := false, min_step := 9544375 / 2147483648,
               ally_bars := [16777215 / 16777216, 1304895 / 2097152, 7456543 / 16777216,
                 13421777 / 16777216, 13421777 / 16777216],
               opponent_bars := [1304895 / 2097152, 7456543 / 16777216, 7456543 / 16777216,
                 13421777 / 16777216, 7456543 / 16777216],
               candidates := [] } ∧
    (∀ r, pick_candidate { ScanState.init with min_step := some (9544375 / 2147483648) } r
      = none) ∧
    (∀ r, get_next_character stalled_encounter r = none) ∧
    ((run_calls (skill_library example_aliases) duel duel_calls).bind fun s =>
      (turn_resolve (skill_library example_aliases) s 0 0).map fun s3 =>
        (s.main_intent, positions.map s3.ally_character_table.turn_bar,
          positions.map s3.opponent_character_table.turn_bar, stall_trace s3))
      = some (⟨1, 0, 0, 0⟩, [13421751 / 67108864, 0, 0, 0, 0], [0, 0, 0, 0, 0],
          some { found_full := false, min_step := 9544375 / 2147483648,
                 ally_bars := [16777215 / 16777216, 0, 0, 0, 0],
                 opponent_bars := [7456543 / 16777216, 0, 0, 0, 0], candidates := [] }) ∧
    ∀ r, ((run_calls (skill_library example_aliases) duel duel_calls).bind fun s =>
      turn (skill_library example_aliases) s 0 0 r) = none := by
  have htrace : stall_trace stalled_encounter
      = some { found_full := false, min_step := 9544375 / 2147483648,
               ally_bars := [16777215 / 16777216, 1304895 / 2097152, 7456543 / 16777216,
                 13421777 / 16777216, 13421777 / 16777216],
               opponent_bars := [1304895 / 2097152, 7456543 / 16777216, 7456543 / 16777216,
                 13421777 / 16777216, 7456543 / 16777216],
               candidates := [] } := by decide!
  have hduel : ((run_calls (skill_library example_aliases) duel duel_calls).bind fun s =>
      (turn_resolve (skill_library example_aliases) s 0 0).map fun s3 =>
        (s.main_intent, positions.map s3.ally_character_table.turn_bar,
          positions.map s3.opponent_character_table.turn_bar, stall_trace s3))
      = some (⟨1, 0, 0, 0⟩, [13421751 / 67108864, 0, 0, 0, 0], [0, 0, 0, 0, 0],
          some { found_full := false, min_step := 9544375 / 2147483648,
                 ally_bars := [16777215 / 16777216, 0, 0, 0, 0],
                 opponent_bars := [7456543 / 16777216, 0, 0, 0, 0], candidates := [] }) := by
    decide!
  refine ⟨⟨by decide!, ?_, ?_⟩, htrace, fun r => rfl,
    get_next_character_none_of_stall _ _ htrace rfl rfl, hduel, ?_⟩
  · unfold MeterRange
    decide!
  · unfold MeterRange
    decide!
  · apply turn_none_of_stall
    intro s hs
    rw [hs] at hduel
    simp only [Option.some_bind, Option.map_eq_some', Prod.mk.injEq] at hduel
    obtain ⟨s3, h3, -, -, -, hst⟩ := hduel
    exact ⟨s3, _, h3, hst, rfl, rfl⟩

/-- Without a full bar, `get_next_character` returns the tables after the fill and the candidate
at the place of the draw in the list the rescans leave. -/
theorem get_next_character_of_trace (s : CombatSystem) (t : StallTrace)
    (h : stall_trace s = some t) (hff : t.found_full = false) (r : Nat) :
    ((get_next_character s r).map fun p =>
        (p.2, positions.map p.1.ally_character_table.turn_bar,
          positions.map p.1.opponent_character_table.turn_bar)) =
      (pick_candidate { ScanState.init with candidates := t.candidates } r).map fun c =>
        (c, t.ally_bars, t.opponent_bars) := by
  unfold stall_trace at h
  simp only [Option.bind_eq_some, Option.map_eq_some'] at h
  obtain ⟨st, ⟨st0, h0, h1⟩, ms', hms, ally, hfa, opponent, hfo, st2, ⟨st1, g0, g1⟩, ht⟩ := h
  subst ht
  have hff' : st.found_full = false := hff
  have hpick : pick_candidate st2 r
      = pick_candidate { ScanState.init with candidates := st2.candidates } r := rfl
  unfold get_next_character
  simp only [Option.bind_eq_bind, h0, h1, Option.some_bind, hff', Bool.false_eq_true,
    if_false, hms, hfa, hfo, g0, g1, hpick]
  cases pick_candidate { ScanState.init with candidates := st2.candidates } r <;> rfl

/-- C4. The scheduler selects nobody.  The encounter of eight Skeletons (speed 140) and two
Bats (speed 180) is set up by `setup_from_parties`; after `roll_initiative` and 41 turns the
Skeleton at the opponent index 2 is the actor, and the declare/resolve/apply part of its turn
leaves a state in which all ten speeds are positive, every turn bar is in `[0, 1]` and no bar is
full.  The scans of `get_next_character` leave the least step `10226113 / 2147483648`, the
binary32 quotient of the two Bats; the binary32 fill brings the bars of the Bats to
`16777215 / 16777216`, below 1; no combatant is ready, the candidates array stays empty and the
call, and with it the turn, is undefined for every draw. -/
theorem C4_selection_stalls :
    ((∀ i, 0 < long_encounter.ally_character_table.spe i ∧
        0 < long_encounter.opponent_character_table.spe i) ∧
      speed_count long_encounter.ally_character_table
        long_encounter.opponent_character_table 140 = 8 ∧
      speed_count long_encounter.ally_character_table
        long_encounter.opponent_character_table 180 = 2) ∧
    ((run_calls (skill_library example_aliases) long_encounter long_calls).bind fun s =>
      (turn_resolve (skill_library example_aliases) s 0 0).map fun s3 =>
        (s.main_intent,
          positions.map s3.ally_character_table.spe ++
            positions.map s3.opponent_character_table.spe,
          positions.map s3.ally_character_table.turn_bar ++
            positions.map s3.opponent_character_table.turn_bar, stall_trace s3))
      = some (⟨1, 2, 0, 0⟩, [140, 140, 140, 140, 140, 140, 140, 140, 180, 180],
          [0, 0, 0, 0, 0, 0, 0, 0, 9586975 / 67108864, 9586975 / 67108864],
          some { found_full := false, min_step := 10226113 / 2147483648,
                 ally_bars := [11184811 / 16777216, 11184811 / 16777216, 11184811 / 16777216,
                   11184811 / 16777216, 11184811 / 16777216],
                 opponent_bars := [11184811 / 16777216, 11184811 / 16777216,
                   11184811 / 16777216, 16777215 / 16777216, 16777215 / 16777216],
                 candidates := [] }) ∧
    ∀ r, ((run_calls (skill_library example_aliases) long_encounter long_calls).bind fun s =>
      turn (skill_library example_aliases) s 0 0 r) = none := by
  have hrun : ((run_calls (skill_library example_aliases) long_encounter long_calls).bind
      fun s => (turn_resolve (skill_library example_aliases) s 0 0).map fun s3 =>
        (s.main_intent,
          positions.map s3.ally_character_table.spe ++
            positions.map s3.opponent_character_table.spe,
          positions.map s3.ally_character_table.turn_bar ++
            positions.map s3.opponent_character_table.turn_bar, stall_trace s3))
      = some (⟨1, 2, 0, 0⟩, [140, 140, 140, 140, 140, 140, 140, 140, 180, 180],
          [0, 0, 0, 0, 0, 0, 0, 0, 9586975 / 67108864, 9586975 / 67108864],
          some { found_full := false, min_step := 10226113 / 2147483648,
                 ally_bars := [11184811 / 16777216, 11184811 / 16777216, 11184811 / 16777216,
                   11184811 / 16777216, 11184811 / 16777216],
                 opponent_bars := [11184811 / 16777216, 11184811 / 16777216,
                   11184811 / 16777216, 16777215 / 16777216, 16777215 / 16777216],
                 candidates := [] }) := by decide!
  refine ⟨⟨by decide!, by decide!, by decide!⟩, hrun, ?_⟩
  apply turn_none_of_stall
  intro s hs
  rw [hs] at hrun
  simp only [Option.some_bind, Option.map_eq_some', Prod.mk.injEq] at hrun
  obtain ⟨s3, h3, -, -, -, hst⟩ := hrun
  exact ⟨s3, _, h3, hst, rfl, rfl⟩

/-- C5. The fill misses 1.  In the encounter of ten Orcs (speed 100) with the turn bar of the
ally at index 0 at `5 / 64` and every other turn bar at 0, all speeds are positive and no bar is
full.  The least step is `9898557 / 1073741824`, the binary32 quotient `(1 - 5/64) / 100` of the
ally at index 0, below the quotient of the others; the binary32 product and sum of the fill bring
its turn bar to `16777215 / 16777216`, not to 1, and the other bars to `15466495 / 16777216`; no
combatant is ready and `get_next_character` is undefined for every draw. -/
theorem C5_fill_misses_one :
    ((∀ i, 0 < (orc_squads (5 / 64)).ally_character_table.spe i ∧
        0 < (orc_squads (5 / 64)).opponent_character_table.spe i) ∧
      ∀ i, (orc_squads (5 / 64)).ally_character_table.turn_bar i < 1 ∧
        (orc_squads (5 / 64)).opponent_character_table.turn_bar i < 1) ∧
    (scan_quotient (5 / 64) 100 = some (9898557 / 1073741824) ∧
      scan_quotient 0 100 = some (5368709 / 536870912) ∧
      (9898557 / 1073741824 : ℚ) < 5368709 / 536870912) ∧
    stall_trace (orc_squads (5 / 64))
      = some { found_full := false, min_step := 9898557 / 1073741824,
               ally_bars := [16777215 / 16777216, 15466495 / 16777216, 15466495 / 16777216,
                 15466495 / 16777216, 15466495 / 16777216],
               opponent_bars := [15466495 / 16777216, 15466495 / 16777216,
                 15466495 / 16777216, 15466495 / 16777216, 15466495 / 16777216],
               candidates := [] } ∧
    ((f32 (9898557 / 1073741824 * 100)).bind fun product => f32 (5 / 64 + product))
      = some (16777215 / 16777216) ∧
    ∀ r, get_next_character (orc_squads (5 / 64)) r = none := by
  have htrace : stall_trace (orc_squads (5 / 64))
      = some { found_full := false, min_step := 9898557 / 1073741824,
               ally_bars := [16777215 / 16777216, 15466495 / 16777216, 15466495 / 16777216,
                 15466495 / 16777216, 15466495 / 16777216],
               opponent_bars := [15466495 / 16777216, 15466495 / 16777216,
                 15466495 / 16777216, 15466495 / 16777216, 15466495 / 16777216],
               candidates := [] } := by decide!
  exact ⟨⟨by decide!, by decide!⟩, ⟨by decide!, by decide!, by decide!⟩, htrace, by decide!,
    get_next_character_none_of_stall _ _ htrace rfl rfl⟩

/-- C7. The first selection selects nobody.  In the encounter of a scout (speed 41) and nine
porters (speed 30), set up by `setup_from_parties`, all speeds are positive and the maximum
speed 41 is held by one combatant.  `roll_initiative` resets the bars; the least step is
`3273603 / 134217728`, the binary32 value of `1 / 41`; the fill brings the turn bar of the scout
to `16777215 / 16777216`, not to `41 / 41`, and the turn bars of the porters to
`12276011 / 16777216`; nobody is ready, no actor is selected and the call is undefined for every
draw.  In the duel of the Bat (speed 180) against the Orc (speed 100) the call returns: every
life bar is 1, the Bat is selected with turn bar 1 and the Orc has the turn bar
`2330169 / 4194304`, the binary32 product of the binary32 value of `1 / 180` and 100. -/
theorem C7_roll_initiative_stalls :
    ((∀ i, 0 < uneven_encounter.ally_character_table.spe i ∧
        0 < uneven_encounter.opponent_character_table.spe i) ∧
      (∀ i, uneven_encounter.ally_character_table.spe i ≤ 41 ∧
        uneven_encounter.opponent_character_table.spe i ≤ 41) ∧
      speed_count uneven_encounter.ally_character_table
        uneven_encounter.opponent_character_table 41 = 1) ∧
    (positions.map (reset_bars uneven_encounter.ally_character_table).turn_bar
        = positions.map uneven_encounter.ally_character_table.turn_bar ∧
      positions.map (reset_bars uneven_encounter.opponent_character_table).turn_bar
        = positions.map uneven_encounter.opponent_character_table.turn_bar) ∧
    stall_trace uneven_encounter
      = some { found_full := false, min_step := 3273603 / 134217728,
               ally_bars := [16777215 / 16777216, 12276011 / 16777216, 12276011 / 16777216,
                 12276011 / 16777216, 12276011 / 16777216],
               opponent_bars := [12276011 / 16777216, 12276011 / 16777216,
                 12276011 / 16777216, 12276011 / 16777216, 12276011 / 16777216],
               candidates := [] } ∧
    (∀ r, roll_initiative uneven_encounter r = none) ∧
    (roll_initiative duel 2).map (fun s' =>
        (s'.main_intent, positions.map s'.ally_character_table.turn_bar,
          positions.map s'.opponent_character_table.turn_bar,
          positions.map s'.ally_character_table.life_bar ++
            positions.map s'.opponent_character_table.life_bar))
      = some (⟨0, 0, 0, 0⟩, [1, 0, 0, 0, 0], [2330169 / 4194304, 0, 0, 0, 0],
          [1, 1, 1, 1, 1, 1, 1, 1, 1, 1]) := by
  refine ⟨⟨by decide!, by decide!, by decide!⟩, ⟨by decide!, by decide!⟩, by decide!, ?_,
    by decide!⟩
  exact roll_initiative_none_of_draw uneven_encounter 0
    (Option.isNone_iff_eq_none.mp (by decide!))

/-- C9. The duel selects nobody.  In the duel of the scout (speed 41) against a porter
(speed 30), each alone at board position 0 with the other slots at speed 0, the speeds satisfy
`30 < 41 < 2 * 30`.  `roll_initiative` finds the least step `3273603 / 134217728`, the binary32
value of `1 / 41`; the fill brings the turn bar of the scout to `16777215 / 16777216` and that of
the porter to `12276011 / 16777216`; nobody is ready, so the call is undefined for every draw and
no turn follows.  In the duel of the Bat (speed 180) against the Orc (speed 100) the calls
return: the Bat is selected first, its turn bar is 0 after the declare/resolve/apply part of its
turn, and the Orc is selected next. -/
theorem C9_duel_stalls :
    (positions.map uneven_duel.ally_character_table.spe = [41, 0, 0, 0, 0] ∧
      positions.map uneven_duel.opponent_character_table.spe = [30, 0, 0, 0, 0] ∧
      ((30 : ℚ) < 41 ∧ (41 : ℚ) < 2 * 30)) ∧
    stall_trace uneven_duel
      = some { found_full := false, min_step := 3273603 / 134217728,
               ally_bars := [16777215 / 16777216, 0, 0, 0, 0],
               opponent_bars := [12276011 / 16777216, 0, 0, 0, 0], candidates := [] } ∧
    (∀ r, roll_initiative uneven_duel r = none) ∧
    ((roll_initiative duel 0).bind fun s0 =>
      (turn_resolve (skill_library example_aliases) s0 0 0).map fun s3 =>
        (s0.main_intent, positions.map s3.ally_character_table.turn_bar,
          positions.map s3.opponent_character_table.turn_bar))
      = some (⟨0, 0, 0, 0⟩, [0, 0, 0, 0, 0], [2330169 / 4194304, 0, 0, 0, 0]) ∧
    (run_calls (skill_library example_aliases) duel
        [Call.roll_initiative 0, Call.turn 0 0 0]).map (fun s' =>
        (s'.main_intent, positions.map s'.ally_character_table.turn_bar,
          positions.map s'.opponent_character_table.turn_bar))
      = some (⟨1, 0, 0, 0⟩, [3355443 / 4194304, 0, 0, 0, 0], [1, 0, 0, 0, 0]) := by
  refine ⟨⟨by decide!, by decide!, by decide!⟩, by decide!, ?_, by decide!, by decide!⟩
  exact roll_initiative_none_of_draw uneven_duel 0
    (Option.isNone_iff_eq_none.mp (by decide!))

/-- C21. A turn bar above 1.  In the encounter of ten Orcs (speed 100) with the turn bar of the
ally at index 0 at `14092861 / 67108864`, the binary32 value of `0.21`, and every other turn bar
at 0, all speeds are positive and every turn bar is in `[0, 1]`.  `get_next_character` returns
for every draw, with the ally at index 0 selected and its turn bar at `8388609 / 8388608`, above
1: the binary32 sum of the fill overshoots.  The same value arises through the entry points: in
the duel of an Orc (speed 100) against a glider (speed 87), `roll_initiative` and two turns with
the demo attack leave the turn bar of the Orc at `8388609 / 8388608`. -/
theorem C21_meter_above_one :
    ((∀ i, 0 < (orc_squads (14092861 / 67108864)).ally_character_table.spe i ∧
        0 < (orc_squads (14092861 / 67108864)).opponent_character_table.spe i) ∧
      MeterRange (orc_squads (14092861 / 67108864)).ally_character_table ∧
      MeterRange (orc_squads (14092861 / 67108864)).opponent_character_table) ∧
    (∀ r, ((get_next_character (orc_squads (14092861 / 67108864)) r).map fun p =>
        (p.2, positions.map p.1.ally_character_table.turn_bar,
          positions.map p.1.opponent_character_table.turn_bar))
      = some (⟨0, 0, 0, 0⟩,
          [8388609 / 8388608, 6627001 / 8388608, 6627001 / 8388608, 6627001 / 8388608,
            6627001 / 8388608],
          [6627001 / 8388608, 6627001 / 8388608, 6627001 / 8388608, 6627001 / 8388608,
            6627001 / 8388608])) ∧
    (1 : ℚ) < 8388609 / 8388608 ∧
    (run_calls (skill_library example_aliases) glider_duel
        [Call.roll_initiative 0, Call.turn 0 0 0, Call.turn 0 0 0]).map (fun s' =>
        (s'.main_intent, positions.map s'.ally_character_table.turn_bar,
          positions.map s'.opponent_character_table.turn_bar))
      = some (⟨0, 0, 0, 0⟩, [8388609 / 8388608, 0, 0, 0, 0],
          [12415141 / 16777216, 0, 0, 0, 0]) := by
  have htrace : stall_trace (orc_squads (14092861 / 67108864))
      = some { found_full := false, min_step := 8482561 / 1073741824,
               ally_bars := [8388609 / 8388608, 6627001 / 8388608, 6627001 / 8388608,
                 6627001 / 8388608, 6627001 / 8388608],
               opponent_bars := [6627001 / 8388608, 6627001 / 8388608, 6627001 / 8388608,
                 6627001 / 8388608, 6627001 / 8388608],
               candidates := [⟨0, 0, 0, 0⟩] } := by decide!
  have hall : ∀ r, ((get_next_character (orc_squads (14092861 / 67108864)) r).map fun p =>
        (p.2, positions.map p.1.ally_character_table.turn_bar,
          positions.map p.1.opponent_character_table.turn_bar))
      = some (⟨0, 0, 0, 0⟩,
          [8388609 / 8388608, 6627001 / 8388608, 6627001 / 8388608, 6627001 / 8388608,
            6627001 / 8388608],
          [6627001 / 8388608, 6627001 / 8388608, 6627001 / 8388608, 6627001 / 8388608,
            6627001 / 8388608]) := by
    intro r
    rw [get_next_character_of_trace _ _ htrace rfl r]
    simp [pick_candidate, Nat.mod_one]
  refine ⟨⟨by decide!, ?_, ?_⟩, hall, by decide!, by decide!⟩
  · unfold MeterRange
    decide!
  · unfold MeterRange
    decide!

end pipelinepunch
